import Mathlib

/-!
# Mython: the lexer (`lexer.cpp`), the runtime (`runtime.cpp`) and the statements (`statement.cpp`)

A shallow embedding of the indentation-sensitive lexer of the Mython
interpreter, of the values, the comparisons, the method lookup and the method
call of its runtime, and of the execution of the nodes of its syntax tree,
followed by theorems about them.

Conventions of the embedding.

* Source text and `std::string` / `std::string_view` values are `List Char`.
  A character outside printable ASCII is one that `std::isprint` rejects.
* `npos` is `none`.
* The input stream is the list of characters not yet read together with its
  fail flag (`!source_` in the source).
* A C++ exception is `Except.error`.
* Loops that are not structurally recursive carry a fuel argument; the public
  function supplies a bound that the loop never exhausts.
* An instance is held by its address in the heap of the state (`World`), so
  that two handles of one instance see the same fields.
* `Execute` carries a bound on the depth of the nested executions, and
  `Outcome.fuel` marks an exhausted bound; an execution that ends otherwise
  ends the same way with every greater bound (`Execute_of_le`).
* Behaviour that the language leaves undefined (a null pointer is
  dereferenced, an `int` overflows) is the outcome `Outcome.undefined`.
-/

namespace Mython

/-! ## Tokens -/

/-- The token variant of `lexer.h`, one constructor per token type. -/
inductive Token where
  | Number (value : Int)
  | Id (value : List Char)
  | String (value : List Char)
  | Char (value : Char)
  | Class | Return | If | Else | Def | Newline | Print | Indent | Dedent
  | And | Or | Not | Eq | NotEq | LessOrEq | GreaterOrEq | None | True | False | Eof
  deriving DecidableEq, Repr, Inhabited

/-- The exceptions the lexer can raise. `fuel` is not an exception of the
source: it marks an exhausted recursion bound and is never produced by
`ParseNextLine` (see `ParseNextLine_ne_fuel`). -/
inductive LexError where
  | wrongIndent
  | outOfRange
  | fuel
  deriving DecidableEq, Repr

deriving instance DecidableEq for Except

/-! ## Characters -/

/-- The single quote. -/
abbrev chSQ : Char := Char.ofNat 39
/-- The double quote. -/
abbrev chDQ : Char := Char.ofNat 34
/-- The backslash. -/
abbrev chBS : Char := Char.ofNat 92
/-- The line feed. -/
abbrev chNL : Char := Char.ofNat 10
/-- The carriage return. -/
abbrev chCR : Char := Char.ofNat 13
/-- The horizontal tab. -/
abbrev chTab : Char := Char.ofNat 9
/-- The hash sign, which starts a comment. -/
abbrev chHash : Char := Char.ofNat 35
/-- The NUL character. -/
abbrev chNUL : Char := Char.ofNat 0

/-- `indent_length`. -/
def indent_length : Nat := 2

/-- `Lexer::op_symbols`. -/
def op_symbols : List Char :=
  [',', '.', chSQ, chDQ, '+', '-', '*', '/', '(', ')', ':', '<', '>', '!', '=']

/-- `Lexer::reserved_words`. -/
def reserved_words : List (List Char × Token) :=
  [("class".toList, Token.Class),
   ("return".toList, Token.Return),
   ("if".toList, Token.If),
   ("else".toList, Token.Else),
   ("def".toList, Token.Def),
   ("print".toList, Token.Print),
   ("and".toList, Token.And),
   ("or".toList, Token.Or),
   ("not".toList, Token.Not),
   ("None".toList, Token.None),
   ("True".toList, Token.True),
   ("False".toList, Token.False),
   ("<=".toList, Token.LessOrEq),
   (">=".toList, Token.GreaterOrEq),
   ("!=".toList, Token.NotEq),
   ("==".toList, Token.Eq)]

/-! ## `std::string_view` searches -/

/-- Index of the first character satisfying `p`. -/
def firstIdx (p : Char → Bool) : List Char → Option Nat
  | [] => none
  | c :: cs => if p c then some 0 else (firstIdx p cs).map (· + 1)

/-- `s.find_first_of(…, pos)` and `s.find_first_not_of(…, pos)`: the least
index `≥ pos` whose character satisfies `p`. -/
def findFrom (p : Char → Bool) (s : List Char) (pos : Nat) : Option Nat :=
  (firstIdx p (s.drop pos)).map (· + pos)

/-- `s[i]`; reading at `s.size()` yields the terminating NUL. -/
def charAt (s : List Char) (i : Nat) : Char := s.getD i chNUL

/-! ## Splitting a line into words -/

/-- The loop of `GetString`. `head_pos` is the position of the last quote that
was found escaped. Returns the word and the rest of the line. -/
def GetStringLoop (line : List Char) (head : Char) : Nat → Nat → List Char × List Char
  | 0, _ => (line, [])
  | fuel + 1, head_pos =>
    match findFrom (fun c => c == head) line (head_pos + 1) with
    | none => (line, [])
    | some tail =>
      if charAt line (tail - 1) == chBS then GetStringLoop line head fuel tail
      else (line.take (tail + 1), line.drop (tail + 1))

/-- `GetString`: a string literal with its quotes, from a line that starts with
a quote. -/
def GetString (line : List Char) : List Char × List Char :=
  GetStringLoop line (charAt line 0) (line.length + 1) 0

/-- `GetOperator`. -/
def GetOperator (line : List Char) : List Char × List Char :=
  if line.length > 1 && charAt line 1 == '=' &&
      (charAt line 0 == '<' || charAt line 0 == '>' || charAt line 0 == '=' ||
        charAt line 0 == '!') then
    (line.take 2, line.drop 2)
  else
    (line.take 1, line.drop 1)

/-- The separators of `GetWord`: the space, the hash sign and the operator
characters. -/
def word_separators : List Char := ' ' :: chHash :: op_symbols

/-- `GetWord`. -/
def GetWord (line : List Char) : List Char × List Char :=
  match findFrom (fun c => word_separators.contains c) line 1 with
  | none => (line, [])
  | some tail =>
    let word := line.take tail
    if charAt line tail == chHash then (word, [])
    else (word, line.drop word.length)

/-- `GetNumber`. -/
def GetNumber (line : List Char) : List Char × List Char :=
  match findFrom (fun c => !c.isDigit) line 1 with
  | none => (line, [])
  | some tail =>
    let word := line.take tail
    (word, line.drop word.length)

/-- The conditional expression of `Lexer::ParseToWords` that takes the next
word off a line whose first character starts a word: a string literal, an
operator, a number or a general word. Returns the word and the rest. -/
def nextWord (raw_line : List Char) : List Char × List Char :=
  if charAt raw_line 0 == chDQ then GetString raw_line
  else if charAt raw_line 0 == chSQ then GetString raw_line
  else if op_symbols.contains (charAt raw_line 0) then GetOperator raw_line
  else if (charAt raw_line 0).isDigit then GetNumber raw_line
  else GetWord raw_line

/-- The loop of `Lexer::ParseToWords`. -/
def ParseToWordsLoop : Nat → List Char → List (List Char) → List (List Char)
  | 0, _, result => result
  | fuel + 1, raw_line, result =>
    match findFrom (fun c => !(c == ' ' || c == chBS)) raw_line 0 with
    | none => result
    | some head =>
      if charAt raw_line head == chHash then result
      else
        let raw_line := raw_line.drop (if charAt raw_line head == chBS then head + 1 else head)
        let wr := nextWord raw_line
        ParseToWordsLoop fuel wr.2 (result ++ [wr.1])

/-- `Lexer::ParseToWords`. -/
def ParseToWords (raw_line : List Char) : List (List Char) :=
  ParseToWordsLoop (raw_line.length + 1) raw_line []

/-- `GetIndent`. An all-space line gives `npos`, which is odd. -/
def GetIndent (line : List Char) : Except LexError Nat :=
  let tail := (findFrom (fun c => !(c == ' ')) line 0).getD (2 ^ 64 - 1)
  if tail % indent_length != 0 then Except.error LexError.wrongIndent
  else Except.ok (tail / indent_length)

/-! ## Reading a logical line -/

/-- `std::isprint` in the C locale. -/
def isprint (c : Char) : Bool := 32 ≤ c.toNat && c.toNat ≤ 126

/-- `IsForbiddenChar`. -/
def IsForbiddenChar (c : Char) : Bool :=
  !(isprint c || c == chNL || c == chCR || c == chTab)

/-- The input stream `source_`: the characters not read yet and the fail flag
that `!source_` tests. -/
structure IStream where
  rest : List Char
  fail : Bool
  deriving DecidableEq, Repr

/-- The tail of `Lexer::GetLine` after its loop: an open string is closed. -/
def closeOpenString (inside_single_quoted_str inside_double_quoted_str : Bool)
    (result : List Char) : List Char :=
  if inside_single_quoted_str then result ++ [chSQ]
  else if inside_double_quoted_str then result ++ [chDQ]
  else result

/-- The loop of `Lexer::GetLine` over the unread characters. The loop stops
when `get()` fails at the end of the stream, and also on a NUL character,
because its condition compares the character with `source_.eof()`. -/
def GetLineLoop : List Char → Bool → Bool → List Char → List Char × IStream
  | [], sq, dq, result => (closeOpenString sq dq result, ⟨[], true⟩)
  | c :: cs, sq, dq, result =>
    if c == chNUL then (closeOpenString sq dq result, ⟨cs, false⟩)
    else if IsForbiddenChar c then GetLineLoop cs sq dq result
    else if c == chSQ then GetLineLoop cs (if dq then false else !sq) dq (result ++ [c])
    else if c == chDQ then GetLineLoop cs sq (if sq then false else !dq) (result ++ [c])
    else if c == chNL then
      if sq || dq then GetLineLoop cs sq dq (result ++ [c])
      else (result, ⟨cs, false⟩)
    else GetLineLoop cs sq dq (result ++ [c])

/-- `Lexer::GetLine`: the next logical line and the stream after reading it. -/
def GetLine (source_ : IStream) : List Char × IStream :=
  if source_.fail then ([], source_)
  else GetLineLoop source_.rest false false []

/-! ## String payloads and numbers -/

/-- The loop of `GetCleanedString`: while the text has a backslash, the
character after the first backslash is replaced when it is `n` or `t`, and
that backslash is erased. -/
def GetCleanedStringLoop : Nat → List Char → List Char
  | 0, result => result
  | fuel + 1, result =>
    match findFrom (fun c => c == chBS) result 0 with
    | none => result
    | some pos_to_remove =>
      let result :=
        if charAt result (pos_to_remove + 1) == 'n' then result.set (pos_to_remove + 1) chNL
        else if charAt result (pos_to_remove + 1) == 't' then result.set (pos_to_remove + 1) chTab
        else result
      GetCleanedStringLoop fuel (result.eraseIdx pos_to_remove)

/-- `GetCleanedString`. The count of `substr(1, size - 2)` wraps around for a
word of one character, where the substring is empty in any case. -/
def GetCleanedString (raw_string : List Char) : List Char :=
  let result := (raw_string.drop 1).take (raw_string.length - 2)
  GetCleanedStringLoop result.length result

/-- `std::stoi` on a word that starts with a digit: the value of the leading
digits, or `std::out_of_range` when it does not fit in an `int`. -/
def stoi (word : List Char) : Except LexError Int :=
  let v := (word.takeWhile Char.isDigit).foldl (fun acc c => 10 * acc + (c.toNat - 48)) 0
  if v > 2147483647 then Except.error LexError.outOfRange else Except.ok (Int.ofNat v)

/-! ## The lexer state -/

/-- The buffer `bufer_` of the lexer. -/
structure Bufer where
  tokens_on_line : List Token
  current_token_pos : Nat
  current_indent : Nat
  current_token : Token
  deriving DecidableEq, Repr

/-- The lexer: its input stream and its buffer. -/
structure Lexer where
  source_ : IStream
  bufer_ : Bufer
  deriving DecidableEq, Repr

/-- The token that the body of the `for` loop of `Lexer::ParseNextLine` pushes
for one word. Words are never empty; `front` of an empty word is taken as NUL. -/
def wordToken (word : List Char) : Except LexError Token :=
  let front := word.headD chNUL
  if front == chSQ || front == chDQ then Except.ok (Token.String (GetCleanedString word))
  else
    match reserved_words.lookup word with
    | some t => Except.ok t
    | none =>
      if word.length == 1 && op_symbols.contains front then Except.ok (Token.Char front)
      else if front.isDigit then (stoi word).map Token.Number
      else Except.ok (Token.Id word)

/-- The `for` loop of `Lexer::ParseNextLine` over the words of the line. -/
def pushWords : List (List Char) → List Token → Except LexError (List Token)
  | [], tokens => Except.ok tokens
  | word :: words, tokens =>
    match wordToken word with
    | Except.error e => Except.error e
    | Except.ok t => pushWords words (tokens ++ [t])

/-- The `while` loop of `Lexer::ParseNextLine` that pushes `Indent` or `Dedent`
until the current indent equals `indent`. Returns the tokens and the level. -/
def indentLoop : Nat → Nat → Nat → List Token → List Token × Nat
  | 0, current_indent, _, tokens => (tokens, current_indent)
  | fuel + 1, current_indent, indent, tokens =>
    if current_indent != indent then
      if indent < current_indent then
        indentLoop fuel (current_indent - 1) indent (tokens ++ [Token.Dedent])
      else
        indentLoop fuel (current_indent + 1) indent (tokens ++ [Token.Indent])
    else (tokens, current_indent)

/-- The `for` loop of `Lexer::ParseNextLine` at the end of the stream: one
`Dedent` per level, down to level zero. -/
def dedentLoop : Nat → List Token → List Token × Nat
  | 0, tokens => (tokens, 0)
  | current_indent + 1, tokens => dedentLoop current_indent (tokens ++ [Token.Dedent])

/-- `tokens_on_line.front()`; the list is never empty where it is used. -/
def front (tokens : List Token) : Token := tokens.headD Token.Eof

/-- The part of `Lexer::ParseNextLine` after the blank-line test: the indent
of the line, the `Indent` or `Dedent` tokens, the tokens of the words and the
final `Newline`. Returns `tokens_on_line` and the new `current_indent`. -/
def parseLine (current_indent : Nat) (line : List Char) (words : List (List Char)) :
    Except LexError (List Token × Nat) :=
  match GetIndent line with
  | Except.error e => Except.error e
  | Except.ok indent =>
    let r := indentLoop (current_indent + indent) current_indent indent []
    match pushWords words r.1 with
    | Except.error e => Except.error e
    | Except.ok tokens => Except.ok (tokens ++ [Token.Newline], r.2)

/-- The blank-line test of `Lexer::ParseNextLine`. -/
def isBlank (line : List Char) (words : List (List Char)) : Bool :=
  line.isEmpty || words.isEmpty || line.all (fun c => c == ' ')

/-- `Lexer::ParseNextLine` with a bound on the number of blank lines it may
skip by calling itself. -/
def ParseNextLineFuel : Nat → Lexer → Except LexError Lexer
  | fuel, lx =>
    if lx.source_.fail then
      let r := dedentLoop lx.bufer_.current_indent []
      let tokens := r.1 ++ [Token.Eof]
      Except.ok ⟨lx.source_, ⟨tokens, 0, r.2, front tokens⟩⟩
    else
      let lr := GetLine lx.source_
      if isBlank lr.1 (ParseToWords lr.1) then
        match fuel with
        | 0 => Except.error LexError.fuel
        | fuel + 1 =>
          ParseNextLineFuel fuel ⟨lr.2, ⟨[], 0, lx.bufer_.current_indent, lx.bufer_.current_token⟩⟩
      else
        match parseLine lx.bufer_.current_indent lr.1 (ParseToWords lr.1) with
        | Except.error e => Except.error e
        | Except.ok r => Except.ok ⟨lr.2, ⟨r.1, 0, r.2, front r.1⟩⟩

/-- `Lexer::ParseNextLine`. Every call that skips a blank line has read a
character or has set the fail flag, so the bound is never reached. -/
def ParseNextLine (lx : Lexer) : Except LexError Lexer :=
  ParseNextLineFuel (lx.source_.rest.length + 1) lx

/-- `Lexer::CurrentToken`. -/
def CurrentToken (lx : Lexer) : Token := lx.bufer_.current_token

/-- `Lexer::NextToken`: the returned token and the lexer after the call. -/
def NextToken (lx : Lexer) : Except LexError (Token × Lexer) :=
  if lx.bufer_.current_token = Token.Eof then
    Except.ok (lx.bufer_.current_token, lx)
  else
    let pos := lx.bufer_.current_token_pos + 1
    let lx : Lexer := { lx with bufer_ := { lx.bufer_ with current_token_pos := pos } }
    if pos ≥ lx.bufer_.tokens_on_line.length then
      match ParseNextLine lx with
      | Except.error e => Except.error e
      | Except.ok lx => Except.ok (lx.bufer_.current_token, lx)
    else
      let t := lx.bufer_.tokens_on_line.getD pos Token.Eof
      Except.ok (t, { lx with bufer_ := { lx.bufer_ with current_token := t } })

/-- Modelled from the spec: the header `lexer.h` with the initial value of the
buffer is missing; the spec gives the initial indentation level as 0. The
other fields are overwritten by `ParseNextLine` before they are read. -/
def initialBufer : Bufer := ⟨[], 0, 0, Token.Eof⟩

/-- `Lexer::Lexer`: the constructor parses the first line. -/
def Lexer.new (input : List Char) : Except LexError Lexer :=
  ParseNextLine ⟨⟨input, false⟩, initialBufer⟩

/-- The tokens returned by `n` successive calls of `NextToken`. -/
def nextTokens : Nat → Lexer → Except LexError (List Token × Lexer)
  | 0, lx => Except.ok ([], lx)
  | n + 1, lx =>
    match NextToken lx with
    | Except.error e => Except.error e
    | Except.ok (t, lx) =>
      match nextTokens n lx with
      | Except.error e => Except.error e
      | Except.ok (ts, lx) => Except.ok (t :: ts, lx)

/-- The emitted token sequence of an input after `n` calls of `NextToken`: the
current token after construction, then the token of each call. -/
def emitted (n : Nat) (input : List Char) : Except LexError (List Token) :=
  match Lexer.new input with
  | Except.error e => Except.error e
  | Except.ok lx =>
    match nextTokens n lx with
    | Except.error e => Except.error e
    | Except.ok (ts, _) => Except.ok (CurrentToken lx :: ts)

/-! ## Definitions used to state the theorems -/

/-- A bound on the number of lines the stream can still give: the number of
unread characters, plus one while the stream has not failed. -/
def streamMeasure (s : IStream) : Nat := s.rest.length + (if s.fail then 0 else 1)

/-- The lexer that `ParseNextLine` starts from after it has read and skipped a
blank line: the stream after the line, and the buffer cleared. -/
def skipLine (lx : Lexer) : Lexer :=
  ⟨(GetLine lx.source_).2, ⟨[], 0, lx.bufer_.current_indent, lx.bufer_.current_token⟩⟩

/-- The number of spaces a line starts with. -/
def leadingSpaces (line : List Char) : Nat := (line.takeWhile (fun c => c == ' ')).length

/-- A token that marks the structure of the stream rather than a word. -/
def Token.isStructural : Token → Bool
  | Token.Indent => true
  | Token.Dedent => true
  | Token.Newline => true
  | Token.Eof => true
  | _ => false

/-- The unescaping of a string body as the specification words it, in one pass
from left to right: a backslash followed by `n` is a newline, a backslash
followed by `t` is a tab, a backslash before any other character is removed
and that character is kept as it is. This definition follows the
specification and not the source; `GetCleanedString` is the source. -/
def unescapeOnePass : List Char → List Char
  | [] => []
  | c :: [] => if c == chBS then [] else [c]
  | c :: d :: rest =>
    if c == chBS then
      (if d == 'n' then chNL else if d == 't' then chTab else d) :: unescapeOnePass rest
    else c :: unescapeOnePass (d :: rest)

/-- The twelve reserved words with their keyword tokens, as the specification
lists them. -/
def keywords : List (List Char × Token) :=
  [("class".toList, Token.Class), ("return".toList, Token.Return), ("if".toList, Token.If),
   ("else".toList, Token.Else), ("def".toList, Token.Def), ("print".toList, Token.Print),
   ("and".toList, Token.And), ("or".toList, Token.Or), ("not".toList, Token.Not),
   ("None".toList, Token.None), ("True".toList, Token.True), ("False".toList, Token.False)]

/-- The compound operator that a comparison character makes with `=`. -/
def compoundOf (c : Char) : Token :=
  if c == '<' then Token.LessOrEq
  else if c == '>' then Token.GreaterOrEq
  else if c == '!' then Token.NotEq
  else Token.Eq

/-- The characters that make a compound operator with a following `=`. -/
def compoundStarts : List Char := ['<', '>', '=', '!']

/-- The decimal value of a run of digits, most significant digit first. -/
def decimalValue (digits : List Char) : Nat :=
  Nat.ofDigits 10 (digits.reverse.map (fun c => c.toNat - 48))

/-! ## The runtime (`runtime.cpp`)

Method bodies are values of a type `β` (the `Executable` of the source); the
function that executes a body is an argument of `ClassInstance.Call`, as the
virtual `Execute` is in the source. -/

/-- `runtime::Method`. -/
structure Method (β : Type) where
  name : String
  formal_params : List String
  body : β

/-- `runtime::Class`: its name, its methods in the order of the vector
`methods_`, and the pointer `parent_`, which is null for a class without a
parent. -/
inductive Class (β : Type) where
  | mk (name_ : String) (methods_ : List (Method β)) (parent_ : Option (Class β))

/-- The field `methods_`. -/
def Class.methods_ {β : Type} : Class β → List (Method β)
  | Class.mk _ methods_ _ => methods_

/-- The field `parent_`. -/
def Class.parent_ {β : Type} : Class β → Option (Class β)
  | Class.mk _ _ parent_ => parent_

/-- `Class::GetName`. -/
def Class.GetName {β : Type} : Class β → String
  | Class.mk name_ _ _ => name_

/-- The `for` loop of `Class::GetMethod` over `methods_`. -/
def findMethod {β : Type} : List (Method β) → String → Option (Method β)
  | [], _ => none
  | method :: methods, name =>
    if method.name == name then some method else findMethod methods name

/-- `Class::GetMethod`; `none` is the null pointer. -/
def Class.GetMethod {β : Type} : Class β → String → Option (Method β)
  | Class.mk _ methods_ parent_, name =>
    match findMethod methods_ name with
    | some method => some method
    | none =>
      match parent_ with
      | some parent => parent.GetMethod name
      | none => none

/-- The classes of the parent chain, the class itself first. -/
def Class.chain {β : Type} : Class β → List (Class β)
  | Class.mk name_ methods_ parent_ =>
    Class.mk name_ methods_ parent_ ::
      (match parent_ with
       | some parent => parent.chain
       | none => [])

/-- A value handle `ObjectHolder`. The values `Number`, `String`, `Bool` and
`Class` are immutable and are held by value; a `ClassInstance` is mutable and
is held by its address. `None` is the empty handle. -/
inductive ObjectHolder (β : Type) where
  | None
  | Number (value : Int)
  | String (value : String)
  | Bool (value : Bool)
  | Class (cls : Class β)
  | Instance (address : Nat)

/-- `runtime::Closure`, a map from names to handles, as an association list. -/
abbrev Closure (β : Type) := List (String × ObjectHolder β)

/-- `closure.find(key)`; `none` is `end()`. -/
def Closure.find {β : Type} : Closure β → String → Option (ObjectHolder β)
  | [], _ => none
  | (k, v) :: rest, key => if k == key then some v else Closure.find rest key

/-- `closure[key] = value`: the entry is overwritten or inserted. -/
def Closure.assign {β : Type} : Closure β → String → ObjectHolder β → Closure β
  | [], key, value => [(key, value)]
  | (k, v) :: rest, key, value =>
    if k == key then (k, value) :: rest else (k, v) :: Closure.assign rest key value

/-- `runtime::ClassInstance`. -/
structure ClassInstance (β : Type) where
  class_ptr_ : Class β
  fields_ : Closure β

/-- The state that a call can change: the class instances in memory, by
address, and the text written to the output stream of the `Context`. -/
structure World (β : Type) where
  heap : Nat → ClassInstance β
  output : List Char

/-- How an execution ends: with a value, with `std::runtime_error`, or with the
handle thrown by `Return::Execute`. `undefined` stands for an execution whose
behaviour the language leaves undefined: a null pointer is dereferenced or an
`int` overflows. `fuel` is not an outcome of the source: it marks an exhausted
recursion bound of `Execute`. -/
inductive Outcome (β : Type) where
  | value (result : ObjectHolder β)
  | runtime_error (what : String)
  | thrown (result : ObjectHolder β)
  | undefined
  | fuel

/-- The result of `Execute`: how it ended, and the closure and the state it
left. -/
structure ExecResult (β : Type) where
  outcome : Outcome β
  closure : Closure β
  world : World β

/-- The type of `Executable::Execute`. -/
abbrev Exec (β : Type) := β → Closure β → World β → ExecResult β

/-- `ClassInstance::HasMethod`. -/
def ClassInstance.HasMethod {β : Type} (self : ClassInstance β) (method : String)
    (argument_count : Nat) : Bool :=
  match self.class_ptr_.GetMethod method with
  | some current_method => current_method.formal_params.length == argument_count
  | none => false

/-- The `for` loop of `ClassInstance::Call` that binds the formal parameters:
`arguments[formal_params[i]] = actual_args[i]`. -/
def bindArguments {β : Type} :
    List String → List (ObjectHolder β) → Closure β → Closure β
  | [], _, arguments => arguments
  | _ :: _, [], arguments => arguments
  | param :: params, arg :: args, arguments =>
    bindArguments params args (Closure.assign arguments param arg)

/-- `ClassInstance::Call` on the instance at the address `this`. Returns how
the call ended and the state after it. Where `HasMethod` holds, `GetMethod` is
not null, and `fields_.at("self")` is the entry assigned on the line before. -/
def ClassInstance.Call {β : Type} (exec : Exec β) (this : Nat) (method : String)
    (actual_args : List (ObjectHolder β)) (context : World β) : Outcome β × World β :=
  if (context.heap this).HasMethod method actual_args.length then
    match (context.heap this).class_ptr_.GetMethod method with
    | none => (Outcome.runtime_error ("unable to call " ++ method), context)
    | some current_method =>
      let arguments := bindArguments current_method.formal_params actual_args []
      let self := context.heap this
      let self : ClassInstance β :=
        { self with fields_ := Closure.assign self.fields_ "self" (ObjectHolder.Instance this) }
      let context : World β := { context with heap := Function.update context.heap this self }
      let arguments := Closure.assign arguments "self"
        ((Closure.find (context.heap this).fields_ "self").getD ObjectHolder.None)
      let r := exec current_method.body arguments context
      (r.outcome, r.world)
  else
    (Outcome.runtime_error ("unable to call " ++ method), context)

/-- An example class `A` with the methods `__str__()` and `f(x)`; the bodies
are numbered. -/
def exampleA : Class Nat :=
  Class.mk "A" [⟨"__str__", [], 1⟩, ⟨"f", ["x"], 2⟩] none

/-- An example class `B` with parent `A` that defines `__str__()` again and
`f` with two parameters. -/
def exampleB : Class Nat :=
  Class.mk "B" [⟨"__str__", [], 3⟩, ⟨"f", ["x", "y"], 4⟩] (some exampleA)

/-- An example class `C` with parent `A` and no methods of its own. -/
def exampleC : Class Nat :=
  Class.mk "C" [] (some exampleA)

/-- An example state: an instance of `B` at address 0 and instances of `C` at
the other addresses, without fields, and no output. -/
def exampleWorld : World Nat :=
  ⟨fun address => if address = 0 then ⟨exampleB, []⟩ else ⟨exampleC, []⟩, []⟩

/-- An example `Execute`: the value is the number of the body, the closure and
the state are left as they are. -/
def exampleExec : Exec Nat :=
  fun body closure world => ⟨Outcome.value (ObjectHolder.Number (Int.ofNat body)), closure, world⟩

/-! ## The logical lines of an input -/

/-- The lines that successive calls of `GetLine` return while the stream has
not failed. -/
def streamLinesFuel : Nat → IStream → List (List Char)
  | 0, _ => []
  | fuel + 1, s =>
    if s.fail then [] else (GetLine s).1 :: streamLinesFuel fuel (GetLine s).2

/-- The logical lines of a stream; the bound is never exhausted, since every
call of `GetLine` reads a character or sets the fail flag. -/
def streamLines (s : IStream) : List (List Char) :=
  streamLinesFuel (s.rest.length + 1) s

/-- The logical lines of a stream that have at least one word. -/
def contentLines (s : IStream) : List (List Char) :=
  (streamLines s).filter (fun line => !(ParseToWords line).isEmpty)

/-- The buffers that `parseLine` makes of a list of lines read one after the
other from the level `current_indent`, and the level after the last line. -/
def parseLines : Nat → List (List Char) → Except LexError (List (List Token) × Nat)
  | current_indent, [] => Except.ok ([], current_indent)
  | current_indent, line :: lines =>
    match parseLine current_indent line (ParseToWords line) with
    | Except.error e => Except.error e
    | Except.ok r =>
      match parseLines r.2 lines with
      | Except.error e => Except.error e
      | Except.ok rs => Except.ok (r.1 :: rs.1, rs.2)

/-- The input lexes without error: no number of calls of `NextToken` ends in an
exception. -/
def LexesWithoutError (input : List Char) : Prop :=
  ∀ n, ∃ ts, emitted n input = Except.ok ts

/-- The buffers `groups` are those of the lines `lines` read one after the
other from the level `C`, ending at the level `C'`: the buffer of a line read
at the level `C` that sets the level `C1` holds `C1 - C` `Indent` tokens,
`C - C1` `Dedent` tokens, the tokens of the words of the line, and `Newline`. -/
def LinesGroups : Nat → List (List Char) → List (List Token) → Nat → Prop
  | C, [], [], C' => C = C'
  | C, line :: lines, group :: groups, C' =>
    ∃ C1 content,
      pushWords (ParseToWords line) [] = Except.ok content ∧
      group = List.replicate (C1 - C) Token.Indent ++ List.replicate (C - C1) Token.Dedent ++
        content ++ [Token.Newline] ∧
      LinesGroups C1 lines groups C'
  | _, [], _ :: _, _ => False
  | _, _ :: _, [], _ => False

/-- The relation between the tokens emitted so far (`hist`, the current token
included) and the lexer. The tokens are the buffers of the lines read before
(`gs`), the part of the current buffer up to the current token, and the `Eof`
tokens returned after the first. The current buffer is either the buffer of
the last line read, or the final buffer of `Dedent` tokens and `Eof`. -/
def Inv (input : List Char) (hist : List Token) (lx : Lexer) : Prop :=
  lx.bufer_.current_token_pos < lx.bufer_.tokens_on_line.length ∧
  lx.bufer_.current_token =
    lx.bufer_.tokens_on_line.getD lx.bufer_.current_token_pos Token.Eof ∧
  ∃ (linesDone : List (List Char)) (gs : List (List Token)) (k : Nat),
    hist = gs.flatten ++ lx.bufer_.tokens_on_line.take (lx.bufer_.current_token_pos + 1) ++
      List.replicate k Token.Eof ∧
    (0 < k → lx.bufer_.current_token = Token.Eof) ∧
    ((Token.Eof ∉ lx.bufer_.tokens_on_line ∧
        parseLines 0 linesDone =
          Except.ok (gs ++ [lx.bufer_.tokens_on_line], lx.bufer_.current_indent) ∧
        contentLines ⟨input, false⟩ = linesDone ++ contentLines lx.source_) ∨
     (∃ C, parseLines 0 linesDone = Except.ok (gs, C) ∧
        contentLines ⟨input, false⟩ = linesDone ∧
        lx.bufer_.tokens_on_line = List.replicate C Token.Dedent ++ [Token.Eof] ∧
        lx.source_.fail = true))

/-- A bound on the lines the lexer still has to give: the lines with words
left in the stream, plus one while the final buffer with `Eof` has not been
made. -/
def lexMeasure (lx : Lexer) : Nat :=
  (contentLines lx.source_).length + (if Token.Eof ∈ lx.bufer_.tokens_on_line then 0 else 1)

/-! ## Values (`runtime.cpp`) -/

/-- The result of a step that gives an `α` when it ends normally, and
otherwise ends the way `Outcome` tells. -/
inductive Step (β : Type) (α : Type) where
  | done (a : α)
  | stopped (o : Outcome β)

/-- `object.TryAs<Number>()`; `none` is the null pointer. -/
def asNumber {β : Type} : ObjectHolder β → Option Int
  | ObjectHolder.Number value => some value
  | _ => none

/-- `object.TryAs<String>()`. -/
def asString {β : Type} : ObjectHolder β → Option String
  | ObjectHolder.String value => some value
  | _ => none

/-- `object.TryAs<Bool>()`. -/
def asBool {β : Type} : ObjectHolder β → Option Bool
  | ObjectHolder.Bool value => some value
  | _ => none

/-- `object.TryAs<Class>()`. -/
def asClass {β : Type} : ObjectHolder β → Option (Class β)
  | ObjectHolder.Class cls => some cls
  | _ => none

/-- `object.TryAs<ClassInstance>()`: the address of the instance. -/
def asInstance {β : Type} : ObjectHolder β → Option Nat
  | ObjectHolder.Instance address => some address
  | _ => none

/-- `ObjectHolder::operator bool`: the handle is not empty. -/
def hasObject {β : Type} : ObjectHolder β → Bool
  | ObjectHolder.None => false
  | _ => true

/-- `runtime::IsTrue`. -/
def IsTrue {β : Type} (object : ObjectHolder β) : Bool :=
  if !hasObject object || (asClass object).isSome || (asInstance object).isSome then false
  else
    match asNumber object with
    | some num => if num == 0 then false else true
    | none =>
      match asString object with
      | some str => if str.length == 0 then false else true
      | none =>
        match asBool object with
        | some b => b
        | none => false

/-- The values of an `int`. -/
def inInt32 (v : Int) : Bool := -2147483648 ≤ v && v ≤ 2147483647

/-- The end of a comparison that calls a method of the left operand:
`Call(...).TryAs<Bool>()->GetValue()`. A result that is not a `Bool` gives a
null pointer, which is dereferenced. -/
def boolOfCall {β : Type} (r : Outcome β × World β) : Step β Bool × World β :=
  match r.1 with
  | Outcome.value (ObjectHolder.Bool value) => (Step.done value, r.2)
  | Outcome.value _ => (Step.stopped Outcome.undefined, r.2)
  | o => (Step.stopped o, r.2)

/-- `runtime::Equal`. -/
def Equal {β : Type} (exec : Exec β) (lhs rhs : ObjectHolder β) (context : World β) :
    Step β Bool × World β :=
  if !hasObject lhs && !hasObject rhs then (Step.done true, context)
  else
    match asString lhs, asString rhs with
    | some l, some r => (Step.done (l == r), context)
    | _, _ =>
      match asNumber lhs, asNumber rhs with
      | some l, some r => (Step.done (l == r), context)
      | _, _ =>
        match asBool lhs, asBool rhs with
        | some l, some r => (Step.done (l == r), context)
        | _, _ =>
          match asInstance lhs, asInstance rhs with
          | some l, some _ =>
            if (context.heap l).HasMethod "__eq__" 1 then
              boolOfCall (ClassInstance.Call exec l "__eq__" [rhs] context)
            else (Step.stopped (Outcome.runtime_error "uncompatible types"), context)
          | _, _ => (Step.stopped (Outcome.runtime_error "uncompatible types"), context)

/-- `runtime::Less`. -/
def Less {β : Type} (exec : Exec β) (lhs rhs : ObjectHolder β) (context : World β) :
    Step β Bool × World β :=
  match asString lhs, asString rhs with
  | some l, some r => (Step.done (decide (l < r)), context)
  | _, _ =>
    match asNumber lhs, asNumber rhs with
    | some l, some r => (Step.done (decide (l < r)), context)
    | _, _ =>
      match asBool lhs, asBool rhs with
      | some l, some r => (Step.done (decide (l < r)), context)
      | _, _ =>
        match asInstance lhs, asInstance rhs with
        | some l, some _ =>
          if (context.heap l).HasMethod "__lt__" 1 then
            boolOfCall (ClassInstance.Call exec l "__lt__" [rhs] context)
          else (Step.stopped (Outcome.runtime_error "uncompatible types"), context)
        | _, _ => (Step.stopped (Outcome.runtime_error "uncompatible types"), context)

/-- `runtime::NotEqual`. -/
def NotEqual {β : Type} (exec : Exec β) (lhs rhs : ObjectHolder β) (context : World β) :
    Step β Bool × World β :=
  match Equal exec lhs rhs context with
  | (Step.done b, context) => (Step.done (!b), context)
  | r => r

/-- `runtime::Greater`: `NotEqual(...) && !Less(...)`, where `Less` is called
only when `NotEqual` gives true. -/
def Greater {β : Type} (exec : Exec β) (lhs rhs : ObjectHolder β) (context : World β) :
    Step β Bool × World β :=
  if !hasObject lhs && !hasObject rhs then
    (Step.stopped (Outcome.runtime_error "uncompatible types"), context)
  else
    match NotEqual exec lhs rhs context with
    | (Step.done true, context) =>
      match Less exec lhs rhs context with
      | (Step.done b, context) => (Step.done (!b), context)
      | r => r
    | r => r

/-- `runtime::LessOrEqual`: `Less(...) || Equal(...)`, where `Equal` is called
only when `Less` gives false. -/
def LessOrEqual {β : Type} (exec : Exec β) (lhs rhs : ObjectHolder β) (context : World β) :
    Step β Bool × World β :=
  match Less exec lhs rhs context with
  | (Step.done false, context) => Equal exec lhs rhs context
  | r => r

/-- `runtime::GreaterOrEqual`. -/
def GreaterOrEqual {β : Type} (exec : Exec β) (lhs rhs : ObjectHolder β)
    (context : World β) : Step β Bool × World β :=
  match Less exec lhs rhs context with
  | (Step.done b, context) => (Step.done (!b), context)
  | r => r

/-! ## The syntax tree and its execution (`statement.cpp`) -/

/-- `ast::VariableValue`: the fields `head_`, `body_` and `tail_`. -/
structure VariableValue where
  head_ : String
  body_ : List String
  tail_ : String

/-- `VariableValue::VariableValue(const std::string& var_name)`. -/
def VariableValue.ofName (var_name : String) : VariableValue := ⟨var_name, [], ""⟩

/-- `VariableValue::VariableValue(std::vector<std::string> dotted_ids)`. -/
def VariableValue.ofDotted (dotted_ids : List String) : VariableValue :=
  ⟨dotted_ids.headD "",
   if dotted_ids.length > 2 then (dotted_ids.drop 1).dropLast else [],
   if dotted_ids.length > 1 then dotted_ids.getLastD "" else ""⟩

/-- The comparison functions of `runtime.cpp` that a `Comparison` node can
hold in `cmp_`. -/
inductive Comparator where
  | Equal | NotEqual | Less | Greater | LessOrEqual | GreaterOrEqual

/-- The nodes of the syntax tree, one constructor per class of
`statement.cpp`, with the fields of the class. `NewInstance` holds in
`instance_holder_` the instance that its constructor made, by address. -/
inductive Statement where
  /-- Modelled from the spec: the literal nodes (numeric, string and boolean
  constants, `None`) are declared in `statement.h`, which is missing; a literal
  node yields its value. -/
  | Const (value : ObjectHolder Statement)
  | VariableValue (v : VariableValue)
  | Assignment (name_ : String) (data_ptr_ : Statement)
  | FieldAssignment (object_ : VariableValue) (field_name_ : String) (data_ptr_ : Statement)
  | NewInstance (instance_holder_ : Nat) (args_ : List Statement)
  | Print (data_ : List Statement)
  | MethodCall (object_ : Statement) (method_ : String) (argv_ : List Statement)
  | Stringify (arg_ : Statement)
  | Add (lhs_ rhs_ : Statement)
  | Sub (lhs_ rhs_ : Statement)
  | Mult (lhs_ rhs_ : Statement)
  | Div (lhs_ rhs_ : Statement)
  | Or (lhs_ rhs_ : Statement)
  | And (lhs_ rhs_ : Statement)
  | Not (arg_ : Statement)
  | Compound (argv_ : List Statement)
  | MethodBody (arg_ : Statement)
  | Return (statement_ : Statement)
  | ClassDefinition (class_ : ObjectHolder Statement)
  | IfElse (condition_ if_body_ : Statement) (else_body_ : Option Statement)
  | Comparison (cmp_ : Comparator) (lhs_ rhs_ : Statement)

/-- The `for` loop of `VariableValue::Execute` over `body_`: the address of the
instance that the fields lead to. -/
def descendFields {β : Type} (heap : Nat → ClassInstance β) :
    Nat → List String → Step β Nat
  | obj_ptr, [] => Step.done obj_ptr
  | obj_ptr, next_subfield :: rest =>
    match Closure.find (heap obj_ptr).fields_ next_subfield with
    | none => Step.stopped (Outcome.runtime_error ("there is no field: " ++ next_subfield))
    | some value =>
      match asInstance value with
      | none => Step.stopped (Outcome.runtime_error "object is not a ClassInstance")
      | some address => descendFields heap address rest

/-- `VariableValue::Execute`; it changes neither the closure nor the state. -/
def execVariableValue {β : Type} (v : VariableValue) (closure : Closure β)
    (context : World β) : Outcome β :=
  match Closure.find closure v.head_ with
  | none => Outcome.runtime_error ("there is no object: " ++ v.head_)
  | some head_obj_holder =>
    if v.tail_.isEmpty then Outcome.value head_obj_holder
    else
      match asInstance head_obj_holder with
      | none => Outcome.runtime_error "object is not a ClassInstance"
      | some obj_ptr =>
        match descendFields context.heap obj_ptr v.body_ with
        | Step.stopped o => o
        | Step.done obj_ptr =>
          match Closure.find (context.heap obj_ptr).fields_ v.tail_ with
          | none => Outcome.runtime_error ("there is no field: " ++ v.tail_)
          | some value => Outcome.value value

/-- The result of an arithmetic operation on `int`: the number when it is a
value of `int`; the overflow of an `int` has undefined behaviour. -/
def numberResult {β : Type} (v : Int) : Outcome β :=
  if inInt32 v then Outcome.value (ObjectHolder.Number v) else Outcome.undefined

/-- The part of `Add::Execute` after the operands are evaluated. -/
def addValues {β : Type} (exec : Exec β) (lhs rhs : ObjectHolder β) (context : World β) :
    Outcome β × World β :=
  match asNumber lhs, asNumber rhs with
  | some l, some r => (numberResult (l + r), context)
  | _, _ =>
    match asString lhs, asString rhs with
    | some l, some r => (Outcome.value (ObjectHolder.String (l ++ r)), context)
    | _, _ =>
      match asInstance lhs with
      | some l =>
        if (context.heap l).HasMethod "__add__" 1 then
          ClassInstance.Call exec l "__add__" [rhs] context
        else (Outcome.runtime_error "unable to add", context)
      | none => (Outcome.runtime_error "unable to add", context)

/-- The part of `Sub::Execute` after the operands are evaluated. -/
def subValues {β : Type} (lhs rhs : ObjectHolder β) : Outcome β :=
  match asNumber lhs, asNumber rhs with
  | some l, some r => numberResult (l - r)
  | _, _ => Outcome.runtime_error "unable to sub"

/-- The part of `Mult::Execute` after the operands are evaluated. -/
def multValues {β : Type} (lhs rhs : ObjectHolder β) : Outcome β :=
  match asNumber lhs, asNumber rhs with
  | some l, some r => numberResult (l * r)
  | _, _ => Outcome.runtime_error "unable to mult"

/-- The part of `Div::Execute` after the operands are evaluated; the division
of `int` truncates toward zero. -/
def divValues {β : Type} (lhs rhs : ObjectHolder β) : Outcome β :=
  match asNumber lhs, asNumber rhs with
  | some l, some r =>
    if r != 0 then numberResult (Int.tdiv l r) else Outcome.runtime_error "unable to div"
  | _, _ => Outcome.runtime_error "unable to div"

/-- The call of the comparison function held in `cmp_`. -/
def compare {β : Type} (exec : Exec β) (cmp_ : Comparator) (lhs rhs : ObjectHolder β)
    (context : World β) : Step β Bool × World β :=
  match cmp_ with
  | Comparator.Equal => Equal exec lhs rhs context
  | Comparator.NotEqual => NotEqual exec lhs rhs context
  | Comparator.Less => Less exec lhs rhs context
  | Comparator.Greater => Greater exec lhs rhs context
  | Comparator.LessOrEqual => LessOrEqual exec lhs rhs context
  | Comparator.GreaterOrEqual => GreaterOrEqual exec lhs rhs context

/-- The evaluation of a list of argument nodes from left to right. -/
def execArgs {β : Type} (exec : Exec β) :
    List β → Closure β → World β → Step β (List (ObjectHolder β)) × Closure β × World β
  | [], closure, context => (Step.done [], closure, context)
  | arg :: args, closure, context =>
    match exec arg closure context with
    | ⟨Outcome.value v, closure, context⟩ =>
      match execArgs exec args closure context with
      | (Step.done vs, closure, context) => (Step.done (v :: vs), closure, context)
      | r => r
    | ⟨o, closure, context⟩ => (Step.stopped o, closure, context)

/-- The `for` loop of `Compound::Execute` and its `return`. -/
def execCompound {β : Type} (exec : Exec β) : List β → Closure β → World β → ExecResult β
  | [], closure, context => ⟨Outcome.value ObjectHolder.None, closure, context⟩
  | next_op :: argv, closure, context =>
    match exec next_op closure context with
    | ⟨Outcome.value _, closure, context⟩ => execCompound exec argv closure context
    | r => r

/-- Modelled from the spec: the text that `os << this` writes for an instance
without `__str__`; the spec leaves the format open. -/
def addressText (address : Nat) : List Char := "0x".toList ++ (toString address).toList

/-- `Object::Print` on a handle: the text written to `os`, and the state after
the calls of `__str__`. `Number::Print` and `String::Print` are modelled from
the spec: they are declared in `runtime.h`, which is missing; a number is
written in decimal and a string as its payload. Printing through an empty
handle dereferences a null pointer. -/
def printObject {β : Type} (exec : Exec β) :
    Nat → ObjectHolder β → World β → Step β (List Char) × World β
  | 0, _, context => (Step.stopped Outcome.fuel, context)
  | fuel + 1, object, context =>
    match object with
    | ObjectHolder.None => (Step.stopped Outcome.undefined, context)
    | ObjectHolder.Number value => (Step.done (toString value).toList, context)
    | ObjectHolder.String value => (Step.done value.toList, context)
    | ObjectHolder.Bool value => (Step.done (if value then "True" else "False").toList, context)
    | ObjectHolder.Class cls => (Step.done ("Class " ++ cls.GetName).toList, context)
    | ObjectHolder.Instance this =>
      if (context.heap this).HasMethod "__str__" 0 then
        match ClassInstance.Call exec this "__str__" [] context with
        | (Outcome.value obj_holder, context) => printObject exec fuel obj_holder context
        | (o, context) => (Step.stopped o, context)
      else (Step.done (addressText this), context)

/-- The text that `Print::Execute` and `Stringify::Execute` write for the value
of an argument: `None` for the empty handle. -/
def printValue {β : Type} (exec : Exec β) (fuel : Nat) (obj_holder : ObjectHolder β)
    (context : World β) : Step β (List Char) × World β :=
  if hasObject obj_holder then printObject exec fuel obj_holder context
  else (Step.done "None".toList, context)

/-- The text appended to the output stream of the context. -/
def World.write {β : Type} (context : World β) (text : List Char) : World β :=
  { context with output := context.output ++ text }

/-- The `for` loop of `Print::Execute`, the final line feed and the `return`. -/
def execPrint {β : Type} (exec : Exec β) (fuel : Nat) :
    List β → Closure β → World β → ExecResult β
  | [], closure, context => ⟨Outcome.value ObjectHolder.None, closure, context.write [chNL]⟩
  | arg :: data, closure, context =>
    match exec arg closure context with
    | ⟨Outcome.value obj_holder, closure, context⟩ =>
      match printValue exec fuel obj_holder context with
      | (Step.done text, context) =>
        execPrint exec fuel data closure
          ((context.write text).write (if data.isEmpty then [] else [' ']))
      | (Step.stopped o, context) => ⟨o, closure, context⟩
    | r => r

/-- `Execute` of every node, with a bound on the depth of the nested
executions; a node executes its parts and the bodies of the methods it calls
with the bound less one. The two operands of a `Comparison` are evaluated in an
order that the language leaves open; they are evaluated from left to right, as
the spec says. -/
def Execute : Nat → Statement → Closure Statement → World Statement → ExecResult Statement
  | 0, _, closure, context => ⟨Outcome.fuel, closure, context⟩
  | fuel + 1, statement, closure, context =>
    match statement with
    | Statement.Const value => ⟨Outcome.value value, closure, context⟩
    | Statement.VariableValue v => ⟨execVariableValue v closure context, closure, context⟩
    | Statement.Assignment name_ data_ptr_ =>
      match Execute fuel data_ptr_ closure context with
      | ⟨Outcome.value v, closure, context⟩ =>
        ⟨Outcome.value v, Closure.assign closure name_ v, context⟩
      | r => r
    | Statement.FieldAssignment object_ field_name_ data_ptr_ =>
      match execVariableValue object_ closure context with
      | Outcome.value obj =>
        match asInstance obj with
        | none => ⟨Outcome.runtime_error "object is not ClassInstance", closure, context⟩
        | some obj_ptr =>
          match Execute fuel data_ptr_ closure context with
          | ⟨Outcome.value obj_h, closure, context⟩ =>
            ⟨Outcome.value obj_h, closure,
              ⟨Function.update context.heap obj_ptr
                  ⟨(context.heap obj_ptr).class_ptr_,
                    Closure.assign (context.heap obj_ptr).fields_ field_name_ obj_h⟩,
                context.output⟩⟩
          | r => r
      | o => ⟨o, closure, context⟩
    | Statement.NewInstance instance_holder_ args_ =>
      if (context.heap instance_holder_).HasMethod "__init__" args_.length then
        match execArgs (Execute fuel) args_ closure context with
        | (Step.done argv, closure, context) =>
          match ClassInstance.Call (Execute fuel) instance_holder_ "__init__" argv context with
          | (Outcome.value _, context) =>
            ⟨Outcome.value (ObjectHolder.Instance instance_holder_), closure, context⟩
          | (o, context) => ⟨o, closure, context⟩
        | (Step.stopped o, closure, context) => ⟨o, closure, context⟩
      else ⟨Outcome.value (ObjectHolder.Instance instance_holder_), closure, context⟩
    | Statement.Print data_ => execPrint (Execute fuel) fuel data_ closure context
    | Statement.MethodCall object_ method_ argv_ =>
      match Execute fuel object_ closure context with
      | ⟨Outcome.value obj, closure, context⟩ =>
        match asInstance obj with
        | none => ⟨Outcome.runtime_error "object is not ClassInstance", closure, context⟩
        | some obj_ptr =>
          if !(context.heap obj_ptr).HasMethod method_ argv_.length then
            ⟨Outcome.runtime_error ("object has no method: " ++ method_), closure, context⟩
          else
            match execArgs (Execute fuel) argv_ closure context with
            | (Step.done transformed_argv, closure, context) =>
              match ClassInstance.Call (Execute fuel) obj_ptr method_ transformed_argv
                  context with
              | (o, context) => ⟨o, closure, context⟩
            | (Step.stopped o, closure, context) => ⟨o, closure, context⟩
      | r => r
    | Statement.Stringify arg_ =>
      match Execute fuel arg_ closure context with
      | ⟨Outcome.value obj_holder, closure, context⟩ =>
        match printValue (Execute fuel) fuel obj_holder context with
        | (Step.done str, context) =>
          ⟨Outcome.value (ObjectHolder.String (String.mk str)), closure, context⟩
        | (Step.stopped o, context) => ⟨o, closure, context⟩
      | r => r
    | Statement.Add lhs_ rhs_ =>
      match Execute fuel lhs_ closure context with
      | ⟨Outcome.value lhs_obj_holder, closure, context⟩ =>
        match Execute fuel rhs_ closure context with
        | ⟨Outcome.value rhs_obj_holder, closure, context⟩ =>
          match addValues (Execute fuel) lhs_obj_holder rhs_obj_holder context with
          | (o, context) => ⟨o, closure, context⟩
        | r => r
      | r => r
    | Statement.Sub lhs_ rhs_ =>
      match Execute fuel lhs_ closure context with
      | ⟨Outcome.value lhs_obj_holder, closure, context⟩ =>
        match Execute fuel rhs_ closure context with
        | ⟨Outcome.value rhs_obj_holder, closure, context⟩ =>
          ⟨subValues lhs_obj_holder rhs_obj_holder, closure, context⟩
        | r => r
      | r => r
    | Statement.Mult lhs_ rhs_ =>
      match Execute fuel lhs_ closure context with
      | ⟨Outcome.value lhs_obj_holder, closure, context⟩ =>
        match Execute fuel rhs_ closure context with
        | ⟨Outcome.value rhs_obj_holder, closure, context⟩ =>
          ⟨multValues lhs_obj_holder rhs_obj_holder, closure, context⟩
        | r => r
      | r => r
    | Statement.Div lhs_ rhs_ =>
      match Execute fuel lhs_ closure context with
      | ⟨Outcome.value lhs_obj_holder, closure, context⟩ =>
        match Execute fuel rhs_ closure context with
        | ⟨Outcome.value rhs_obj_holder, closure, context⟩ =>
          ⟨divValues lhs_obj_holder rhs_obj_holder, closure, context⟩
        | r => r
      | r => r
    | Statement.Or lhs_ rhs_ =>
      match Execute fuel lhs_ closure context with
      | ⟨Outcome.value lhs_obj_holder, closure, context⟩ =>
        if !IsTrue lhs_obj_holder then
          match Execute fuel rhs_ closure context with
          | ⟨Outcome.value rhs_obj_holder, closure, context⟩ =>
            ⟨Outcome.value (ObjectHolder.Bool (if IsTrue rhs_obj_holder then true else false)),
              closure, context⟩
          | r => r
        else ⟨Outcome.value (ObjectHolder.Bool true), closure, context⟩
      | r => r
    | Statement.And lhs_ rhs_ =>
      match Execute fuel lhs_ closure context with
      | ⟨Outcome.value lhs_obj_holder, closure, context⟩ =>
        if IsTrue lhs_obj_holder then
          match Execute fuel rhs_ closure context with
          | ⟨Outcome.value rhs_obj_holder, closure, context⟩ =>
            ⟨Outcome.value (ObjectHolder.Bool (if IsTrue rhs_obj_holder then true else false)),
              closure, context⟩
          | r => r
        else ⟨Outcome.value (ObjectHolder.Bool false), closure, context⟩
      | r => r
    | Statement.Not arg_ =>
      match Execute fuel arg_ closure context with
      | ⟨Outcome.value v, closure, context⟩ =>
        ⟨Outcome.value (ObjectHolder.Bool (if IsTrue v then false else true)), closure, context⟩
      | r => r
    | Statement.Compound argv_ => execCompound (Execute fuel) argv_ closure context
    | Statement.MethodBody arg_ =>
      match Execute fuel arg_ closure context with
      | ⟨Outcome.thrown e, closure, context⟩ => ⟨Outcome.value e, closure, context⟩
      | r => r
    | Statement.Return statement_ =>
      match Execute fuel statement_ closure context with
      | ⟨Outcome.value result, closure, context⟩ =>
        if hasObject result then ⟨Outcome.thrown result, closure, context⟩
        else ⟨Outcome.value ObjectHolder.None, closure, context⟩
      | r => r
    | Statement.ClassDefinition class_ =>
      match asClass class_ with
      | some cls => ⟨Outcome.value class_, Closure.assign closure cls.GetName class_, context⟩
      | none => ⟨Outcome.undefined, closure, context⟩
    | Statement.IfElse condition_ if_body_ else_body_ =>
      match Execute fuel condition_ closure context with
      | ⟨Outcome.value c, closure, context⟩ =>
        if IsTrue c then Execute fuel if_body_ closure context
        else
          match else_body_ with
          | some else_body => Execute fuel else_body closure context
          | none => ⟨Outcome.value ObjectHolder.None, closure, context⟩
      | r => r
    | Statement.Comparison cmp_ lhs_ rhs_ =>
      match Execute fuel lhs_ closure context with
      | ⟨Outcome.value lhs, closure, context⟩ =>
        match Execute fuel rhs_ closure context with
        | ⟨Outcome.value rhs, closure, context⟩ =>
          match compare (Execute fuel) cmp_ lhs rhs context with
          | (Step.done b, context) =>
            ⟨Outcome.value (ObjectHolder.Bool (if b then true else false)), closure, context⟩
          | (Step.stopped o, context) => ⟨o, closure, context⟩
        | r => r
      | r => r

/-! ## Example programs -/

/-- An example state: every address holds an instance without fields of a
class `Empty` without methods, and nothing is written. -/
def emptyWorld : World Statement :=
  ⟨fun _ => ⟨Class.mk "Empty" [] none, []⟩, []⟩

/-- An example class `Flip`: `__eq__(other)` assigns `True` to the field `seen`
of `self` and returns `False`; `__lt__(other)` returns the field `seen`. -/
def flipClass : Class Statement :=
  Class.mk "Flip"
    [⟨"__eq__", ["other"],
        Statement.MethodBody (Statement.Compound
          [Statement.FieldAssignment (VariableValue.ofName "self") "seen"
              (Statement.Const (ObjectHolder.Bool true)),
           Statement.Return (Statement.Const (ObjectHolder.Bool false))])⟩,
     ⟨"__lt__", ["other"],
        Statement.MethodBody
          (Statement.Return (Statement.VariableValue (VariableValue.ofDotted ["self", "seen"])))⟩]
    none

/-- An example state: every address holds an instance of `Flip` whose field
`seen` is `False`. -/
def flipWorld : World Statement :=
  ⟨fun _ => ⟨flipClass, [("seen", ObjectHolder.Bool false)]⟩, []⟩

/-- The executions in which a `Return` is reached inside nested `Compound` and
`IfElse` statements: `ReturnReached fuel s closure context v closure1 context1`
holds when the execution of `s` from `closure` and `context` reaches a `Return`
whose expression evaluates to the non-empty handle `v` and leaves `closure1`
and `context1`. In a `Compound` the statements before the one that reaches the
`Return` end normally; in an `IfElse` the condition ends normally and selects
the branch that reaches the `Return`. -/
inductive ReturnReached : Nat → Statement → Closure Statement → World Statement →
    ObjectHolder Statement → Closure Statement → World Statement → Prop where
  | ret (fuel : Nat) (statement_ : Statement) (closure closure1 : Closure Statement)
      (context context1 : World Statement) (v : ObjectHolder Statement) :
      Execute fuel statement_ closure context = ⟨Outcome.value v, closure1, context1⟩ →
      hasObject v = true →
      ReturnReached (fuel + 1) (Statement.Return statement_) closure context v closure1 context1
  | compound (fuel : Nat) (before after : List Statement) (s : Statement)
      (closure closure1 closure2 : Closure Statement)
      (context context1 context2 : World Statement) (v : ObjectHolder Statement) :
      execCompound (Execute fuel) before closure context =
        ⟨Outcome.value ObjectHolder.None, closure1, context1⟩ →
      ReturnReached fuel s closure1 context1 v closure2 context2 →
      ReturnReached (fuel + 1) (Statement.Compound (before ++ s :: after)) closure context v
        closure2 context2
  | ifBody (fuel : Nat) (condition_ if_body_ : Statement) (else_body_ : Option Statement)
      (closure closure1 closure2 : Closure Statement)
      (context context1 context2 : World Statement) (c v : ObjectHolder Statement) :
      Execute fuel condition_ closure context = ⟨Outcome.value c, closure1, context1⟩ →
      IsTrue c = true →
      ReturnReached fuel if_body_ closure1 context1 v closure2 context2 →
      ReturnReached (fuel + 1) (Statement.IfElse condition_ if_body_ else_body_) closure context
        v closure2 context2
  | elseBody (fuel : Nat) (condition_ if_body_ else_body : Statement)
      (closure closure1 closure2 : Closure Statement)
      (context context1 context2 : World Statement) (c v : ObjectHolder Statement) :
      Execute fuel condition_ closure context = ⟨Outcome.value c, closure1, context1⟩ →
      IsTrue c = false →
      ReturnReached fuel else_body closure1 context1 v closure2 context2 →
      ReturnReached (fuel + 1) (Statement.IfElse condition_ if_body_ (some else_body)) closure
        context v closure2 context2

/-- An example class `Adder`: `__add__(other)` returns `other`. -/
def adderClass : Class Statement :=
  Class.mk "Adder"
    [⟨"__add__", ["other"],
        Statement.MethodBody
          (Statement.Return (Statement.VariableValue (VariableValue.ofName "other")))⟩]
    none

/-- An example state: every address holds an instance of `Adder` without
fields. -/
def adderWorld : World Statement :=
  ⟨fun _ => ⟨adderClass, []⟩, []⟩

/-- The operands are two Numbers, two Strings or two Bools: the combinations
that `Equal` and `Less` settle with the built-in `==` and `<`. -/
def bothBuiltin {β : Type} (lhs rhs : ObjectHolder β) : Bool :=
  ((asNumber lhs).isSome && (asNumber rhs).isSome) ||
  ((asString lhs).isSome && (asString rhs).isSome) ||
  ((asBool lhs).isSome && (asBool rhs).isSome)

/-- An example class `Same`: `__eq__(other)` and `__lt__(other)` return
`True`. -/
def sameClass : Class Statement :=
  Class.mk "Same"
    [⟨"__eq__", ["other"],
        Statement.MethodBody (Statement.Return (Statement.Const (ObjectHolder.Bool true)))⟩,
     ⟨"__lt__", ["other"],
        Statement.MethodBody (Statement.Return (Statement.Const (ObjectHolder.Bool true)))⟩]
    none

/-- An example state: every address holds an instance of `Same` without
fields. -/
def sameWorld : World Statement :=
  ⟨fun _ => ⟨sameClass, []⟩, []⟩

/-- An example class `Maker`: the body of `make()` is `return A()`. The
`NewInstance` node of `A()` holds the instance at address 1. -/
def makerClass : Class Statement :=
  Class.mk "Maker"
    [⟨"make", [], Statement.MethodBody (Statement.Return (Statement.NewInstance 1 []))⟩]
    none

/-- An example state: an instance of `Maker` at address 0, and at the other
addresses instances without fields of a class `A` without methods. -/
def makerWorld : World Statement :=
  ⟨fun address =>
      if address = 0 then ⟨makerClass, []⟩ else ⟨Class.mk "A" [] none, []⟩, []⟩

/-- An example program, where `m` is an instance of `Maker`:
`x = m.make()`, `x.f = 1`, `y = m.make()`. -/
def makerProgram : Statement :=
  Statement.Compound
    [Statement.Assignment "x"
        (Statement.MethodCall (Statement.VariableValue (VariableValue.ofName "m")) "make" []),
     Statement.FieldAssignment (VariableValue.ofName "x") "f"
        (Statement.Const (ObjectHolder.Number 1)),
     Statement.Assignment "y"
        (Statement.MethodCall (Statement.VariableValue (VariableValue.ofName "m")) "make" [])]

/-- The executor `exec1` agrees with `exec` on every execution that `exec`
ends without exhausting its bound. -/
def Extends {β : Type} (exec exec1 : Exec β) : Prop :=
  ∀ s closure context, (exec s closure context).outcome ≠ Outcome.fuel →
    exec1 s closure context = exec s closure context

/-! ## Definitions that follow the words of the spec -/

/-- The value that the spec describes for a path `n0.n1...nk`, from the value
`v` of `closure[n0]` and the names `n1, ..., nk`: each value on the way must be
a `ClassInstance`, whose field of the next name is the next value; the value of
the last name is the result. `none` when a value on the way is not a
`ClassInstance` or a named field is missing. -/
def followFields {β : Type} (heap : Nat → ClassInstance β) :
    ObjectHolder β → List String → Option (ObjectHolder β)
  | v, [] => some v
  | v, n :: rest =>
    match asInstance v with
    | none => none
    | some address =>
      match Closure.find (heap address).fields_ n with
      | none => none
      | some value => followFields heap value rest

/-- An example state: the instance at address 0 has the field `a`, which is the
instance at address 1, and the other instances have the field `b`, which is the
number 7. -/
def pathWorld : World Statement :=
  ⟨fun address =>
      if address = 0 then ⟨Class.mk "A" [] none, [("a", ObjectHolder.Instance 1)]⟩
      else ⟨Class.mk "A" [] none, [("b", ObjectHolder.Number 7)]⟩, []⟩

/-- An example closure: `x` is the instance at address 0 and `n` is the
number 3. -/
def pathClosure : Closure Statement :=
  [("x", ObjectHolder.Instance 0), ("n", ObjectHolder.Number 3)]

/-- The arguments of a `Print` evaluate from left to right and write nothing
themselves: `ArgumentsYield fuel data closure heap texts closure1 heap1` holds
when the nodes of `data`, evaluated in this order from `closure` and `heap`,
end normally, the value of each has the textual form given at its position in
`texts`, and `closure1` and `heap1` are left. Neither the evaluation of an
argument nor the making of its textual form depends on the text written so far
or adds to it. -/
inductive ArgumentsYield : Nat → List Statement → Closure Statement →
    (Nat → ClassInstance Statement) → List (List Char) → Closure Statement →
    (Nat → ClassInstance Statement) → Prop where
  | nil (fuel : Nat) (closure : Closure Statement) (heap : Nat → ClassInstance Statement) :
      ArgumentsYield fuel [] closure heap [] closure heap
  | cons (fuel : Nat) (arg : Statement) (data : List Statement)
      (closure closure1 closure2 : Closure Statement)
      (heap heap1 heap2 heap3 : Nat → ClassInstance Statement)
      (obj_holder : ObjectHolder Statement) (text : List Char) (texts : List (List Char)) :
      (∀ output, Execute fuel arg closure ⟨heap, output⟩ =
        ⟨Outcome.value obj_holder, closure1, ⟨heap1, output⟩⟩) →
      (∀ output, printValue (Execute fuel) fuel obj_holder ⟨heap1, output⟩ =
        (Step.done text, ⟨heap2, output⟩)) →
      ArgumentsYield fuel data closure1 heap2 texts closure2 heap3 →
      ArgumentsYield fuel (arg :: data) closure heap (text :: texts) closure2 heap3

/-- An example class `Setter`: `set(v)` has the body `x = v`, and `clobber()`
has the body `self.self = 5`. -/
def setterClass : Class Statement :=
  Class.mk "Setter"
    [⟨"set", ["v"],
        Statement.MethodBody (Statement.Compound
          [Statement.Assignment "x" (Statement.VariableValue (VariableValue.ofName "v"))])⟩,
     ⟨"clobber", [],
        Statement.MethodBody
          (Statement.FieldAssignment (VariableValue.ofName "self") "self"
            (Statement.Const (ObjectHolder.Number 5)))⟩]
    none

/-- An example state: every address holds an instance of `Setter` without
fields. -/
def setterWorld : World Statement :=
  ⟨fun _ => ⟨setterClass, []⟩, []⟩

/-! # Theorems -/

/-! ## The loops that push `Indent` and `Dedent` -/

theorem dedentLoop_eq (c : Nat) (tokens : List Token) :
    dedentLoop c tokens = (tokens ++ List.replicate c Token.Dedent, 0) := by
  induction c generalizing tokens with
  | zero => simp [dedentLoop]
  | succ c ih =>
    rw [dedentLoop, ih, List.replicate_succ]
    simp

theorem indentLoop_eq (fuel c l : Nat) (tokens : List Token)
    (hfuel : (l - c) + (c - l) ≤ fuel) :
    indentLoop fuel c l tokens =
      (tokens ++ List.replicate (l - c) Token.Indent ++ List.replicate (c - l) Token.Dedent,
        l) := by
  induction fuel generalizing c tokens with
  | zero =>
    have h : c = l := by omega
    subst h
    simp [indentLoop]
  | succ fuel ih =>
    rw [indentLoop]
    by_cases hcl : c = l
    · subst hcl
      simp
    · have hne : (c != l) = true := by simpa using hcl
      rw [if_pos hne]
      by_cases hlt : l < c
      · rw [if_pos hlt, ih (c - 1) _ (by omega)]
        have h1 : l - (c - 1) = 0 := by omega
        have h2 : l - c = 0 := by omega
        have h3 : c - l = (c - 1 - l) + 1 := by omega
        rw [h1, h2, h3, List.replicate_succ]
        simp
      · rw [if_neg hlt, ih (c + 1) _ (by omega)]
        have h1 : c + 1 - l = 0 := by omega
        have h2 : c - l = 0 := by omega
        have h3 : l - c = (l - (c + 1)) + 1 := by omega
        rw [h1, h2, h3, List.replicate_succ]
        simp

/-! ## The tokens of the words -/

theorem pushWords_append (words : List (List Char)) (tokens : List Token) :
    pushWords words tokens =
      match pushWords words [] with
      | Except.error e => Except.error e
      | Except.ok ts => Except.ok (tokens ++ ts) := by
  induction words generalizing tokens with
  | nil => simp [pushWords]
  | cons w ws ih =>
    rw [pushWords, pushWords]
    cases hw : wordToken w with
    | error e => simp
    | ok t =>
      simp only []
      rw [ih (tokens ++ [t]), ih ([] ++ [t])]
      cases pushWords ws [] with
      | error e => simp
      | ok ts => simp

/-! ## Searches -/

theorem firstIdx_replicate_append (p : Char → Bool) (c : Char) (n : Nat) (rest : List Char)
    (hc : p c = false) :
    firstIdx p (List.replicate n c ++ rest) = (firstIdx p rest).map (· + n) := by
  induction n with
  | zero => simp
  | succ n ih =>
    rw [List.replicate_succ, List.cons_append, firstIdx, if_neg (by simp [hc]), ih]
    cases firstIdx p rest <;> simp [Nat.add_assoc]

theorem firstIdx_none_of_all (p : Char → Bool) (s : List Char)
    (h : ∀ c ∈ s, p c = false) : firstIdx p s = none := by
  induction s with
  | nil => rfl
  | cons c cs ih =>
    rw [firstIdx, if_neg (by simp [h c (List.mem_cons_self _ _)]),
      ih (fun d hd => h d (List.mem_cons_of_mem _ hd))]
    rfl

theorem findFrom_zero (p : Char → Bool) (s : List Char) :
    findFrom p s 0 = firstIdx p s := by
  unfold findFrom
  cases h : firstIdx p s <;> simp [h]

/-- A line of spaces has no words. -/
theorem ParseToWords_of_all_space (line : List Char)
    (h : line.all (fun c => c == ' ') = true) : ParseToWords line = [] := by
  unfold ParseToWords
  rw [ParseToWordsLoop, findFrom_zero, firstIdx_none_of_all]
  intro c hc
  have := (List.all_eq_true.mp h) c hc
  simp_all

/-- The indent of a line that starts with exactly `n` spaces. -/
theorem GetIndent_of_spaces (n : Nat) (rest : List Char) (hrest : rest ≠ [])
    (hhead : rest.head? ≠ some ' ') :
    GetIndent (List.replicate n ' ' ++ rest) =
      if n % 2 = 0 then Except.ok (n / 2) else Except.error LexError.wrongIndent := by
  unfold GetIndent
  rw [findFrom_zero, firstIdx_replicate_append _ _ _ _ (by simp)]
  cases rest with
  | nil => exact absurd rfl hrest
  | cons c cs =>
    have hc : c ≠ ' ' := by simpa using hhead
    have hf : firstIdx (fun c => !(c == ' ')) (c :: cs) = some 0 := by
      simp [firstIdx, hc]
    rw [hf]
    simp only [Option.map_some', Option.getD_some, Nat.zero_add, indent_length]
    by_cases hn : n % 2 = 0 <;> simp [hn]

/-! ## The bounds of the inner loops are never exhausted

Each loop that carries a bound gives the same result for every bound that is
at least the one its caller supplies. -/

theorem firstIdx_some (p : Char → Bool) (s : List Char) (i : Nat)
    (h : firstIdx p s = some i) : i < s.length ∧ p (charAt s i) = true := by
  induction s generalizing i with
  | nil => simp [firstIdx] at h
  | cons c cs ih =>
    rw [firstIdx] at h
    by_cases hc : p c = true
    · rw [if_pos hc] at h
      injection h with h
      subst h
      exact ⟨by simp, hc⟩
    · rw [if_neg hc] at h
      cases hf : firstIdx p cs with
      | none => simp [hf] at h
      | some j =>
        simp only [hf, Option.map_some'] at h
        injection h with h
        subst h
        obtain ⟨h1, h2⟩ := ih j hf
        exact ⟨by simpa using h1, by simpa [charAt] using h2⟩

theorem findFrom_some (p : Char → Bool) (s : List Char) (pos i : Nat)
    (h : findFrom p s pos = some i) : pos ≤ i ∧ i < s.length ∧ p (charAt s i) = true := by
  unfold findFrom at h
  cases hf : firstIdx p (s.drop pos) with
  | none => simp [hf] at h
  | some j =>
    simp only [hf, Option.map_some'] at h
    injection h with h
    subst h
    obtain ⟨h1, h2⟩ := firstIdx_some _ _ _ hf
    rw [List.length_drop] at h1
    refine ⟨by omega, by omega, ?_⟩
    simpa [charAt, List.getD_eq_getElem?_getD, List.getElem?_drop, Nat.add_comm] using h2

theorem findFrom_none_of_le (p : Char → Bool) (s : List Char) (pos : Nat)
    (h : s.length ≤ pos) : findFrom p s pos = none := by
  unfold findFrom
  rw [List.drop_of_length_le h]
  rfl

theorem GetStringLoop_indep (line : List Char) (head : Char) (f1 f2 head_pos : Nat)
    (h1 : line.length ≤ f1 + head_pos + 1) (h2 : line.length ≤ f2 + head_pos + 1) :
    GetStringLoop line head f1 head_pos = GetStringLoop line head f2 head_pos := by
  induction f1 generalizing f2 head_pos with
  | zero =>
    cases f2 with
    | zero => rfl
    | succ f2 =>
      rw [GetStringLoop, GetStringLoop, findFrom_none_of_le _ _ _ (by omega)]
  | succ f1 ih =>
    cases f2 with
    | zero =>
      rw [GetStringLoop, GetStringLoop, findFrom_none_of_le _ _ _ (by omega)]
    | succ f2 =>
      rw [GetStringLoop, GetStringLoop]
      cases hf : findFrom (fun c => c == head) line (head_pos + 1) with
      | none => rfl
      | some tail =>
        obtain ⟨hle, hlt, _⟩ := findFrom_some _ _ _ _ hf
        simp only []
        split_ifs
        · exact ih f2 tail (by omega) (by omega)
        · rfl

theorem GetStringLoop_rest (line : List Char) (head : Char) (fuel head_pos : Nat)
    (hne : line ≠ []) :
    (GetStringLoop line head fuel head_pos).2.length < line.length := by
  have hpos : 0 < line.length := List.length_pos.mpr hne
  induction fuel generalizing head_pos with
  | zero => simpa [GetStringLoop] using hpos
  | succ fuel ih =>
    rw [GetStringLoop]
    cases hf : findFrom (fun c => c == head) line (head_pos + 1) with
    | none => simpa using hpos
    | some tail =>
      simp only []
      split_ifs
      · exact ih tail
      · simp only [List.length_drop]
        omega

theorem nextWord_rest (line : List Char) (hne : line ≠ []) :
    (nextWord line).2.length < line.length := by
  have hpos : 0 < line.length := List.length_pos.mpr hne
  unfold nextWord
  split_ifs
  · exact GetStringLoop_rest _ _ _ _ hne
  · exact GetStringLoop_rest _ _ _ _ hne
  · unfold GetOperator
    split_ifs <;> simp only [List.length_drop] <;> omega
  · unfold GetNumber
    cases hf : findFrom (fun c => !c.isDigit) line 1 with
    | none => simpa using hpos
    | some tail =>
      obtain ⟨hle, hlt, _⟩ := findFrom_some _ _ _ _ hf
      simp only [List.length_drop, List.length_take]
      omega
  · unfold GetWord
    cases hf : findFrom (fun c => word_separators.contains c) line 1 with
    | none => simpa using hpos
    | some tail =>
      obtain ⟨hle, hlt, _⟩ := findFrom_some _ _ _ _ hf
      simp only []
      split_ifs
      · simpa using hpos
      · simp only [List.length_drop, List.length_take]
        omega

theorem ParseToWordsLoop_indep (f1 f2 : Nat) (raw_line : List Char)
    (result : List (List Char)) (h1 : raw_line.length ≤ f1) (h2 : raw_line.length ≤ f2) :
    ParseToWordsLoop f1 raw_line result = ParseToWordsLoop f2 raw_line result := by
  induction f1 generalizing f2 raw_line result with
  | zero =>
    have hnil : raw_line = [] := List.length_eq_zero.mp (by omega)
    subst hnil
    cases f2 with
    | zero => rfl
    | succ f2 => simp [ParseToWordsLoop, findFrom, firstIdx]
  | succ f1 ih =>
    cases f2 with
    | zero =>
      have hnil : raw_line = [] := List.length_eq_zero.mp (by omega)
      subst hnil
      simp [ParseToWordsLoop, findFrom, firstIdx]
    | succ f2 =>
      rw [ParseToWordsLoop, ParseToWordsLoop]
      cases hf : findFrom (fun c => !(c == ' ' || c == chBS)) raw_line 0 with
      | none => rfl
      | some head =>
        obtain ⟨_, hlt, hp⟩ := findFrom_some _ _ _ _ hf
        simp only []
        have hne : raw_line.drop head ≠ [] := by
          intro hd
          have := congrArg List.length hd
          simp only [List.length_drop, List.length_nil] at this
          omega
        have hr := nextWord_rest _ hne
        simp only [List.length_drop] at hr
        split_ifs with hh hb
        · rfl
        · simp [hb] at hp
        · exact ih f2 _ _ (by omega) (by omega)

/-- `ParseToWords` gives the same words with every greater bound. -/
theorem ParseToWords_indep (fuel : Nat) (raw_line : List Char)
    (h : raw_line.length ≤ fuel) :
    ParseToWordsLoop fuel raw_line [] = ParseToWords raw_line :=
  ParseToWordsLoop_indep _ _ _ _ h (by omega)

/-- `GetString` gives the same word with every greater bound. -/
theorem GetString_indep (fuel : Nat) (line : List Char) (h : line.length ≤ fuel + 1) :
    GetStringLoop line (charAt line 0) fuel 0 = GetString line :=
  GetStringLoop_indep _ _ _ _ _ (by omega) (by omega)

theorem GetCleanedStringLoop_indep (f1 f2 : Nat) (result : List Char)
    (h1 : result.length ≤ f1) (h2 : result.length ≤ f2) :
    GetCleanedStringLoop f1 result = GetCleanedStringLoop f2 result := by
  induction f1 generalizing f2 result with
  | zero =>
    have hnil : result = [] := List.length_eq_zero.mp (by omega)
    subst hnil
    cases f2 with
    | zero => rfl
    | succ f2 => simp [GetCleanedStringLoop, findFrom, firstIdx]
  | succ f1 ih =>
    cases f2 with
    | zero =>
      have hnil : result = [] := List.length_eq_zero.mp (by omega)
      subst hnil
      simp [GetCleanedStringLoop, findFrom, firstIdx]
    | succ f2 =>
      rw [GetCleanedStringLoop, GetCleanedStringLoop]
      cases hf : findFrom (fun c => c == chBS) result 0 with
      | none => rfl
      | some pos =>
        obtain ⟨_, hlt, _⟩ := findFrom_some _ _ _ _ hf
        simp only []
        apply ih
        · split_ifs <;> simp only [List.length_eraseIdx, List.length_set] <;>
            split_ifs <;> omega
        · split_ifs <;> simp only [List.length_eraseIdx, List.length_set] <;>
            split_ifs <;> omega

/-- `GetCleanedString` gives the same payload with every greater bound. -/
theorem GetCleanedString_indep (fuel : Nat) (raw_string : List Char)
    (h : ((raw_string.drop 1).take (raw_string.length - 2)).length ≤ fuel) :
    GetCleanedStringLoop fuel ((raw_string.drop 1).take (raw_string.length - 2)) =
      GetCleanedString raw_string :=
  GetCleanedStringLoop_indep _ _ _ h (Nat.le_refl _)

theorem firstIdx_none (p : Char → Bool) (s : List Char) (h : firstIdx p s = none) :
    ∀ c ∈ s, p c = false := by
  induction s with
  | nil => simp
  | cons c cs ih =>
    rw [firstIdx] at h
    by_cases hc : p c = true
    · rw [if_pos hc] at h
      cases h
    · rw [if_neg hc] at h
      have hcs : firstIdx p cs = none := by
        cases hf : firstIdx p cs with
        | none => rfl
        | some j => simp [hf] at h
      intro x hx
      rw [List.mem_cons] at hx
      rcases hx with hx | hx
      · subst hx
        simpa using hc
      · exact ih hcs x hx

theorem GetCleanedStringLoop_no_backslash (fuel : Nat) (result : List Char)
    (h : result.length ≤ fuel) : chBS ∉ GetCleanedStringLoop fuel result := by
  induction fuel generalizing result with
  | zero =>
    have hnil : result = [] := List.length_eq_zero.mp (by omega)
    subst hnil
    simp [GetCleanedStringLoop]
  | succ fuel ih =>
    rw [GetCleanedStringLoop]
    cases hf : findFrom (fun c => c == chBS) result 0 with
    | none =>
      rw [findFrom_zero] at hf
      intro hm
      have := firstIdx_none _ _ hf _ hm
      simp at this
    | some pos =>
      obtain ⟨_, hlt, _⟩ := findFrom_some _ _ _ _ hf
      simp only []
      apply ih
      split_ifs <;> simp only [List.length_eraseIdx, List.length_set] <;> split_ifs <;> omega

/-- No payload that `GetCleanedString` returns holds a backslash: the loop ends
only when the search for a backslash fails. -/
theorem GetCleanedString_no_backslash (raw_string : List Char) :
    chBS ∉ GetCleanedString raw_string :=
  GetCleanedStringLoop_no_backslash _ _ (Nat.le_refl _)

/-! ## Reading a line shortens the stream -/

theorem GetLineLoop_measure (cs : List Char) (sq dq : Bool) (result : List Char) :
    streamMeasure (GetLineLoop cs sq dq result).2 ≤ cs.length := by
  induction cs generalizing sq dq result with
  | nil => simp [GetLineLoop, streamMeasure]
  | cons c cs ih =>
    rw [GetLineLoop]
    split_ifs <;>
      first
        | (simp [streamMeasure]; done)
        | exact Nat.le_succ_of_le (ih _ _ _)

theorem GetLine_measure (s : IStream) (h : s.fail = false) :
    streamMeasure (GetLine s).2 < streamMeasure s := by
  have := GetLineLoop_measure s.rest false false []
  simp only [GetLine, h, Bool.false_eq_true, if_false]
  simp only [streamMeasure, h, Bool.false_eq_true, if_false] at *
  omega

/-! ## `ParseNextLine` never exhausts its bound -/

theorem GetIndent_ne_fuel (line : List Char) : GetIndent line ≠ Except.error LexError.fuel := by
  unfold GetIndent
  simp only []
  split_ifs <;> simp

theorem stoi_ne_fuel (word : List Char) : stoi word ≠ Except.error LexError.fuel := by
  unfold stoi
  simp only []
  split_ifs <;> simp

theorem wordToken_ne_fuel (word : List Char) :
    wordToken word ≠ Except.error LexError.fuel := by
  have hs := stoi_ne_fuel word
  unfold wordToken
  simp only []
  cases hst : stoi word with
  | error e =>
    have he : e ≠ LexError.fuel := fun hc => hs (by rw [hst, hc])
    split_ifs <;> (try split) <;> simp [Except.map, he]
  | ok v =>
    split_ifs <;> (try split) <;> simp [Except.map]

theorem pushWords_ne_fuel (words : List (List Char)) (tokens : List Token) :
    pushWords words tokens ≠ Except.error LexError.fuel := by
  induction words generalizing tokens with
  | nil => simp [pushWords]
  | cons w ws ih =>
    rw [pushWords]
    cases h : wordToken w with
    | error e =>
      intro hc
      simp only [] at hc
      injection hc with he
      subst he
      exact wordToken_ne_fuel w h
    | ok t => exact ih _

theorem parseLine_ne_fuel (c : Nat) (line : List Char) (words : List (List Char)) :
    parseLine c line words ≠ Except.error LexError.fuel := by
  unfold parseLine
  cases h : GetIndent line with
  | error e =>
    intro hc
    simp only [] at hc
    injection hc with he
    subst he
    exact GetIndent_ne_fuel line h
  | ok indent =>
    simp only []
    cases h2 : pushWords words (indentLoop (c + indent) c indent []).1 with
    | error e =>
      intro hc
      simp only [] at hc
      injection hc with he
      subst he
      exact pushWords_ne_fuel _ _ h2
    | ok ts => simp

/-- With a bound of at least the stream measure the result of
`ParseNextLineFuel` does not depend on the bound. -/
theorem ParseNextLineFuel_indep (f1 f2 : Nat) (lx : Lexer)
    (h1 : streamMeasure lx.source_ ≤ f1) (h2 : streamMeasure lx.source_ ≤ f2) :
    ParseNextLineFuel f1 lx = ParseNextLineFuel f2 lx := by
  induction f1 generalizing f2 lx with
  | zero =>
    rw [ParseNextLineFuel, ParseNextLineFuel]
    by_cases hf : lx.source_.fail = true
    · simp [hf]
    · simp [streamMeasure, hf] at h1
  | succ f1 ih =>
    by_cases hf : lx.source_.fail = true
    · rw [ParseNextLineFuel]
      conv_rhs => rw [ParseNextLineFuel]
      simp [hf]
    · have hf2 : lx.source_.fail = false := by simpa using hf
      have hm := GetLine_measure lx.source_ hf2
      cases f2 with
      | zero => simp [streamMeasure, hf2] at h2
      | succ f2 =>
        rw [ParseNextLineFuel]
        conv_rhs => rw [ParseNextLineFuel]
        simp only [hf, if_false]
        cases hb : isBlank (GetLine lx.source_).1 (ParseToWords (GetLine lx.source_).1) with
        | true =>
          simp only [if_true]
          exact ih f2 _ (by simp only []; omega) (by simp only []; omega)
        | false => simp

theorem ParseNextLineFuel_ne_fuel (f : Nat) (lx : Lexer)
    (h : streamMeasure lx.source_ ≤ f) :
    ParseNextLineFuel f lx ≠ Except.error LexError.fuel := by
  induction f generalizing lx with
  | zero =>
    rw [ParseNextLineFuel]
    by_cases hf : lx.source_.fail = true
    · simp [hf]
    · simp [streamMeasure, hf] at h
  | succ f ih =>
    rw [ParseNextLineFuel]
    by_cases hf : lx.source_.fail = true
    · simp [hf]
    · have hf2 : lx.source_.fail = false := by simpa using hf
      have hm := GetLine_measure lx.source_ hf2
      simp only [hf, if_false]
      cases hb : isBlank (GetLine lx.source_).1 (ParseToWords (GetLine lx.source_).1) with
      | true =>
        simp only [if_true]
        exact ih _ (by simp only []; omega)
      | false =>
        simp only [Bool.false_eq_true, if_false]
        cases hp : parseLine lx.bufer_.current_indent (GetLine lx.source_).1
            (ParseToWords (GetLine lx.source_).1) with
        | error e =>
          intro hc
          simp only [] at hc
          injection hc with he
          subst he
          exact parseLine_ne_fuel _ _ _ hp
        | ok r => simp

theorem streamMeasure_le (s : IStream) : streamMeasure s ≤ s.rest.length + 1 := by
  unfold streamMeasure
  split_ifs <;> omega

/-- The bound that `ParseNextLine` supplies is never exhausted. -/
theorem ParseNextLine_ne_fuel (lx : Lexer) :
    ParseNextLine lx ≠ Except.error LexError.fuel :=
  ParseNextLineFuel_ne_fuel _ lx (streamMeasure_le _)

/-! ## The three cases of `ParseNextLine` -/

/-- At the end of the stream: one `Dedent` per open level, then `Eof`. -/
theorem ParseNextLine_of_fail (lx : Lexer) (h : lx.source_.fail = true) :
    ParseNextLine lx =
      Except.ok ⟨lx.source_,
        ⟨List.replicate lx.bufer_.current_indent Token.Dedent ++ [Token.Eof], 0, 0,
          front (List.replicate lx.bufer_.current_indent Token.Dedent ++ [Token.Eof])⟩⟩ := by
  unfold ParseNextLine
  rw [ParseNextLineFuel]
  simp [h, dedentLoop_eq]

/-- A blank line is skipped: the result is that of the lexer after the line. -/
theorem ParseNextLine_of_blank (lx : Lexer) (h : lx.source_.fail = false)
    (hb : isBlank (GetLine lx.source_).1 (ParseToWords (GetLine lx.source_).1) = true) :
    ParseNextLine lx = ParseNextLine (skipLine lx) := by
  unfold ParseNextLine
  rw [ParseNextLineFuel]
  simp only [h, Bool.false_eq_true, if_false, hb, if_true]
  have hm := GetLine_measure lx.source_ h
  have hs := streamMeasure_le (GetLine lx.source_).2
  have hm2 : streamMeasure lx.source_ = lx.source_.rest.length + 1 := by
    simp [streamMeasure, h]
  exact ParseNextLineFuel_indep _ _ _
    (by show streamMeasure (GetLine lx.source_).2 ≤ _; omega)
    (by simpa [skipLine] using hs)

/-- A line with words is tokenized by `parseLine`. -/
theorem ParseNextLine_of_content (lx : Lexer) (h : lx.source_.fail = false)
    (hb : isBlank (GetLine lx.source_).1 (ParseToWords (GetLine lx.source_).1) = false) :
    ParseNextLine lx =
      match parseLine lx.bufer_.current_indent (GetLine lx.source_).1
          (ParseToWords (GetLine lx.source_).1) with
      | Except.error e => Except.error e
      | Except.ok r => Except.ok ⟨(GetLine lx.source_).2, ⟨r.1, 0, r.2, front r.1⟩⟩ := by
  unfold ParseNextLine
  rw [ParseNextLineFuel]
  simp only [h, Bool.false_eq_true, if_false, hb]

/-! ## Tokens of words are content tokens -/

theorem lookup_mem_values (k : List Char) (l : List (List Char × Token)) (t : Token)
    (h : l.lookup k = some t) : t ∈ l.map Prod.snd := by
  induction l with
  | nil => simp at h
  | cons p ps ih =>
    obtain ⟨a, b⟩ := p
    cases hk : k == a with
    | true =>
      simp only [List.lookup, hk] at h
      injection h with h
      subst h
      simp only [List.map_cons]
      exact List.mem_cons_self _ _
    | false =>
      simp only [List.lookup, hk] at h
      simp only [List.map_cons, List.mem_cons]
      exact Or.inr (ih h)

/-- No word yields `Indent`, `Dedent`, `Newline` or `Eof`. -/
theorem wordToken_content (word : List Char) (t : Token)
    (h : wordToken word = Except.ok t) : t.isStructural = false := by
  unfold wordToken at h
  simp only [] at h
  cases hl : List.lookup word reserved_words with
  | some t' =>
    simp only [hl] at h
    have hm := lookup_mem_values _ _ _ hl
    have hall : ∀ x ∈ reserved_words.map Prod.snd, x.isStructural = false := by decide
    split_ifs at h <;> injection h with h <;> subst h
    · rfl
    · exact hall _ hm
  | none =>
    simp only [hl] at h
    split_ifs at h
    · injection h with h; subst h; rfl
    · injection h with h; subst h; rfl
    · cases hs : stoi word with
      | error e => simp [hs, Except.map] at h
      | ok v =>
        simp only [hs, Except.map] at h
        injection h with h; subst h; rfl
    · injection h with h; subst h; rfl

theorem pushWords_content (words : List (List Char)) (ts : List Token)
    (h : pushWords words [] = Except.ok ts) : ∀ t ∈ ts, t.isStructural = false := by
  induction words generalizing ts with
  | nil =>
    simp only [pushWords] at h
    injection h with h
    subst h
    simp
  | cons w ws ih =>
    rw [pushWords] at h
    cases hw : wordToken w with
    | error e => simp [hw] at h
    | ok t =>
      simp only [hw] at h
      rw [pushWords_append] at h
      cases hp : pushWords ws [] with
      | error e => simp [hp] at h
      | ok ts' =>
        simp only [hp] at h
        injection h with h
        subst h
        intro x hx
        simp only [List.nil_append, List.singleton_append, List.mem_cons] at hx
        rcases hx with hx | hx
        · subst hx
          exact wordToken_content w _ hw
        · exact ih ts' hp x hx

theorem pushWords_length (words : List (List Char)) (ts : List Token)
    (h : pushWords words [] = Except.ok ts) : ts.length = words.length := by
  induction words generalizing ts with
  | nil =>
    simp only [pushWords] at h
    injection h with h
    subst h
    rfl
  | cons w ws ih =>
    rw [pushWords] at h
    cases hw : wordToken w with
    | error e => simp [hw] at h
    | ok t =>
      simp only [hw] at h
      rw [pushWords_append] at h
      cases hp : pushWords ws [] with
      | error e => simp [hp] at h
      | ok ts' =>
        simp only [hp] at h
        injection h with h
        subst h
        simp [ih ts' hp]

/-! ## A line with words -/

theorem isBlank_false_of_words (line : List Char) (h : ParseToWords line ≠ []) :
    isBlank line (ParseToWords line) = false := by
  have hall : line.all (fun c => c == ' ') = false := by
    cases hc : line.all (fun c => c == ' ') with
    | false => rfl
    | true => exact absurd (ParseToWords_of_all_space line hc) h
  have hne : line.isEmpty = false := by
    cases line with
    | nil => simp at hall
    | cons c cs => rfl
  have hw : (ParseToWords line).isEmpty = false := by
    cases hp : ParseToWords line with
    | nil => exact absurd hp h
    | cons w ws => rfl
  simp [isBlank, hall, hne, hw]

/-- The result of `parseLine` on a line that starts with exactly `2 * L`
spaces. -/
theorem parseLine_of_indent (C L : Nat) (rest : List Char) (words : List (List Char))
    (hrest : rest ≠ []) (hhead : rest.head? ≠ some ' ') :
    parseLine C (List.replicate (2 * L) ' ' ++ rest) words =
      match pushWords words [] with
      | Except.error e => Except.error e
      | Except.ok content =>
        Except.ok (List.replicate (L - C) Token.Indent ++ List.replicate (C - L) Token.Dedent
          ++ content ++ [Token.Newline], L) := by
  unfold parseLine
  rw [GetIndent_of_spaces _ _ hrest hhead, if_pos (by omega)]
  have h2 : 2 * L / 2 = L := by omega
  simp only [h2]
  rw [indentLoop_eq _ _ _ _ (by omega), pushWords_append]
  cases pushWords words [] with
  | error e => rfl
  | ok content => simp

/-! ## C1: the `Indent` and `Dedent` tokens of a line -/

/-- C1. Let the stream be readable, let the next logical line have at least one
word and start with exactly `2 * L` spaces, and let the current indentation
level be `C`. Then `ParseNextLine` fails only when a word fails to convert, and
otherwise fills the buffer with `L - C` `Indent` tokens (none when `L ≤ C`),
then `C - L` `Dedent` tokens (none when `C ≤ L`), then the tokens of the words,
none of which is `Indent` or `Dedent`, then `Newline`; the current level
becomes `L` and the current token is the first token of the buffer. -/
theorem C1_indent_dedent_before_content (lx : Lexer) (L : Nat) (rest : List Char)
    (hgood : lx.source_.fail = false)
    (hline : (GetLine lx.source_).1 = List.replicate (2 * L) ' ' ++ rest)
    (hhead : rest.head? ≠ some ' ')
    (hwords : ParseToWords (GetLine lx.source_).1 ≠ []) :
    match pushWords (ParseToWords (GetLine lx.source_).1) [] with
    | Except.error e => ParseNextLine lx = Except.error e
    | Except.ok content =>
      ParseNextLine lx =
        Except.ok ⟨(GetLine lx.source_).2,
          ⟨List.replicate (L - lx.bufer_.current_indent) Token.Indent ++
              List.replicate (lx.bufer_.current_indent - L) Token.Dedent ++
              content ++ [Token.Newline],
            0, L,
            front (List.replicate (L - lx.bufer_.current_indent) Token.Indent ++
              List.replicate (lx.bufer_.current_indent - L) Token.Dedent ++
              content ++ [Token.Newline])⟩⟩ ∧
      Token.Indent ∉ content ∧ Token.Dedent ∉ content := by
  have hb := isBlank_false_of_words _ hwords
  have hrest : rest ≠ [] := by
    intro hr
    subst hr
    apply hwords
    apply ParseToWords_of_all_space
    rw [hline]
    simp
  have hp := ParseNextLine_of_content lx hgood hb
  have hq := parseLine_of_indent lx.bufer_.current_indent L rest
    (ParseToWords (GetLine lx.source_).1) hrest hhead
  rw [← hline] at hq
  rw [hq] at hp
  cases hc : pushWords (ParseToWords (GetLine lx.source_).1) [] with
  | error e =>
    simp only [hc] at hp ⊢
    exact hp
  | ok content =>
    simp only [hc] at hp ⊢
    refine ⟨hp, ?_, ?_⟩
    · intro hm
      have := pushWords_content _ _ hc _ hm
      simp [Token.isStructural] at this
    · intro hm
      have := pushWords_content _ _ hc _ hm
      simp [Token.isStructural] at this

/-- C1 at the line `"    x"` (level 2) read at level 0: two `Indent` tokens come
before the token of `x`. -/
theorem C1_indent_dedent_before_content_witness :
    match pushWords (ParseToWords (GetLine ⟨"    x".toList, false⟩).1) [] with
    | Except.error e =>
      ParseNextLine ⟨⟨"    x".toList, false⟩, initialBufer⟩ = Except.error e
    | Except.ok content =>
      ParseNextLine ⟨⟨"    x".toList, false⟩, initialBufer⟩ =
        Except.ok ⟨(GetLine ⟨"    x".toList, false⟩).2,
          ⟨List.replicate (2 - 0) Token.Indent ++ List.replicate (0 - 2) Token.Dedent ++
              content ++ [Token.Newline],
            0, 2,
            front (List.replicate (2 - 0) Token.Indent ++ List.replicate (0 - 2) Token.Dedent ++
              content ++ [Token.Newline])⟩⟩ ∧
      Token.Indent ∉ content ∧ Token.Dedent ∉ content :=
  C1_indent_dedent_before_content ⟨⟨"    x".toList, false⟩, initialBufer⟩ 2 "x".toList
    (by decide) (by decide) (by decide) (by decide)

/-! ## C3: a quote inside a comment -/

/-- C3, evaluated at the text `x #'` / `y`, whose comment holds a single quote.
`GetLine` takes the quote as the start of a string literal and reads on across
the line end, so the logical line is `x #'`, line feed, `y`, closing quote, and
the line `y` is lost in the comment: the emitted tokens are `Id x`, `Newline`,
`Eof`. With the comment deleted (`x ` / `y`) the emitted tokens are `Id x`,
`Newline`, `Id y`, `Newline`. Deleting the comment changes the tokens. -/
theorem C3_quote_in_comment_swallows_line :
    (GetLine ⟨"x #\x27\ny".toList, false⟩).1 = "x #\x27\ny\x27".toList ∧
    emitted 3 "x #\x27\ny".toList =
      Except.ok [Token.Id "x".toList, Token.Newline, Token.Eof, Token.Eof] ∧
    emitted 3 "x \ny".toList =
      Except.ok [Token.Id "x".toList, Token.Newline, Token.Id "y".toList, Token.Newline] := by
  refine ⟨by decide, by decide, by decide⟩

/-! ## C4: the payload of a string literal -/

/-- C4, evaluated at the literal quote, backslash, backslash, `a`, quote. The
lexer reads it as one string literal. `GetCleanedString` searches for the
first backslash from the start of the text on every round, so the backslash
that the first round leaves is taken as a new escape and erased as well: the
payload is `a`, where one pass leaves backslash, `a`. In the same way the body
of two backslashes gives the empty payload, where one pass leaves one
backslash. On the body `a`, backslash, `n`, `b` both give `a`, newline, `b`. -/
theorem C4_doubled_backslash_is_erased :
    ParseToWords [chSQ, chBS, chBS, 'a', chSQ] = [[chSQ, chBS, chBS, 'a', chSQ]] ∧
    Lexer.new [chSQ, chBS, chBS, 'a', chSQ] =
      Except.ok ⟨⟨[], true⟩, ⟨[Token.String ['a'], Token.Newline], 0, 0, Token.String ['a']⟩⟩ ∧
    GetCleanedString [chSQ, chBS, chBS, 'a', chSQ] = ['a'] ∧
    unescapeOnePass [chBS, chBS, 'a'] = [chBS, 'a'] ∧
    GetCleanedString [chSQ, chBS, chBS, chSQ] = [] ∧
    unescapeOnePass [chBS, chBS] = [chBS] ∧
    GetCleanedString [chSQ, 'a', chBS, 'n', 'b', chSQ] = ['a', chNL, 'b'] ∧
    unescapeOnePass ['a', chBS, 'n', 'b'] = ['a', chNL, 'b'] := by
  refine ⟨by decide, by decide, by decide, by decide, by decide, by decide, by decide,
    by decide⟩

/-! ## C7: the indentation error -/

theorem takeWhile_space_eq_replicate (line : List Char) :
    line.takeWhile (fun c => c == ' ') = List.replicate (leadingSpaces line) ' ' := by
  unfold leadingSpaces
  induction line with
  | nil => rfl
  | cons c cs ih =>
    by_cases hc : c = ' '
    · subst hc
      simp only [List.takeWhile_cons, beq_self_eq_true, if_true, List.length_cons,
        List.replicate_succ]
      exact congrArg _ ih
    · have : (c == ' ') = false := by simpa using hc
      simp [List.takeWhile_cons, this]

theorem line_eq_spaces_append (line : List Char) :
    line = List.replicate (leadingSpaces line) ' ' ++ line.dropWhile (fun c => c == ' ') := by
  rw [← takeWhile_space_eq_replicate, List.takeWhile_append_dropWhile]

theorem head_dropWhile_space (line : List Char) :
    (line.dropWhile (fun c => c == ' ')).head? ≠ some ' ' := by
  induction line with
  | nil => simp
  | cons c cs ih =>
    by_cases hc : c = ' '
    · subst hc
      simpa [List.dropWhile_cons] using ih
    · have : (c == ' ') = false := by simpa using hc
      simp [List.dropWhile_cons, this, hc]

theorem dropWhile_space_ne_nil (line : List Char) (h : ParseToWords line ≠ []) :
    line.dropWhile (fun c => c == ' ') ≠ [] := by
  intro hd
  apply h
  apply ParseToWords_of_all_space
  rw [line_eq_spaces_append line, hd]
  simp

theorem stoi_error (word : List Char) (e : LexError) (h : stoi word = Except.error e) :
    e = LexError.outOfRange := by
  unfold stoi at h
  simp only [] at h
  split_ifs at h
  injection h with h
  exact h.symm

theorem wordToken_error (word : List Char) (e : LexError)
    (h : wordToken word = Except.error e) : e = LexError.outOfRange := by
  unfold wordToken at h
  simp only [] at h
  cases hl : List.lookup word reserved_words with
  | some t' =>
    simp only [hl] at h
    split_ifs at h
  | none =>
    simp only [hl] at h
    split_ifs at h
    cases hs : stoi word with
    | error e' =>
      simp only [hs, Except.map] at h
      injection h with h
      subst h
      exact stoi_error _ _ hs
    | ok v => simp [hs, Except.map] at h

theorem pushWords_error (words : List (List Char)) (tokens : List Token) (e : LexError)
    (h : pushWords words tokens = Except.error e) : e = LexError.outOfRange := by
  induction words generalizing tokens with
  | nil => simp [pushWords] at h
  | cons w ws ih =>
    rw [pushWords] at h
    cases hw : wordToken w with
    | error e' =>
      simp only [hw] at h
      injection h with h
      subst h
      exact wordToken_error _ _ hw
    | ok t =>
      simp only [hw] at h
      exact ih _ h

/-- A line whose first character after the leading spaces is the hash sign has
no words. -/
theorem ParseToWords_of_comment (line : List Char)
    (h : (line.dropWhile (fun c => c == ' ')).head? = some chHash) :
    ParseToWords line = [] := by
  unfold ParseToWords
  rw [ParseToWordsLoop, findFrom_zero]
  have hl := line_eq_spaces_append line
  cases hd : line.dropWhile (fun c => c == ' ') with
  | nil => simp [hd] at h
  | cons c cs =>
    rw [hd] at h hl
    have hc : c = chHash := by simpa using h
    subst hc
    generalize leadingSpaces line = n at hl
    subst hl
    have hf : firstIdx (fun c => !(c == ' ' || c == chBS))
        (List.replicate n ' ' ++ chHash :: cs) = some n := by
      rw [firstIdx_replicate_append _ _ _ _ (by decide)]
      have : firstIdx (fun c => !(c == ' ' || c == chBS)) (chHash :: cs) = some 0 := by
        rw [firstIdx, if_pos (by decide)]
      rw [this]
      simp
    rw [hf]
    have hat : charAt (List.replicate n ' ' ++ chHash :: cs) n = chHash := by
      unfold charAt
      rw [List.getD_eq_getElem?_getD, List.getElem?_append_right (by simp)]
      simp
    simp [hat]

/-- C7. Let the stream be readable and let `line` be the next logical line.
If the line has at least one word, `ParseNextLine` raises the indentation error
exactly when the line starts with an odd number of spaces. If the line consists
of spaces only, or its first character after the leading spaces is the hash
sign, the line is skipped whatever the number of its leading spaces: the result
is the result of `ParseNextLine` on the lexer after the line, whose indentation
level is the one before the line. -/
theorem C7_indentation_error (lx : Lexer) (hgood : lx.source_.fail = false) :
    (ParseToWords (GetLine lx.source_).1 ≠ [] →
      (ParseNextLine lx = Except.error LexError.wrongIndent ↔
        leadingSpaces (GetLine lx.source_).1 % 2 = 1)) ∧
    (((GetLine lx.source_).1.all (fun c => c == ' ') = true ∨
        ((GetLine lx.source_).1.dropWhile (fun c => c == ' ')).head? = some chHash) →
      ParseNextLine lx = ParseNextLine (skipLine lx) ∧
      (skipLine lx).bufer_.current_indent = lx.bufer_.current_indent ∧
      (skipLine lx).source_ = (GetLine lx.source_).2) := by
  constructor
  · intro hwords
    have hb := isBlank_false_of_words _ hwords
    have hp := ParseNextLine_of_content lx hgood hb
    have hne := dropWhile_space_ne_nil _ hwords
    have hhead := head_dropWhile_space (GetLine lx.source_).1
    have hl := line_eq_spaces_append (GetLine lx.source_).1
    have hi := GetIndent_of_spaces (leadingSpaces (GetLine lx.source_).1) _ hne hhead
    rw [← hl] at hi
    rw [hp]
    unfold parseLine
    rw [hi]
    by_cases hodd : leadingSpaces (GetLine lx.source_).1 % 2 = 0
    · rw [if_pos hodd]
      simp only []
      constructor
      · intro h
        exfalso
        cases hpw : pushWords (ParseToWords (GetLine lx.source_).1)
            (indentLoop (lx.bufer_.current_indent + leadingSpaces (GetLine lx.source_).1 / 2)
              lx.bufer_.current_indent (leadingSpaces (GetLine lx.source_).1 / 2) []).1 with
        | error e =>
          have he := pushWords_error _ _ _ hpw
          subst he
          simp [hpw] at h
        | ok ts => simp [hpw] at h
      · intro h
        omega
    · rw [if_neg hodd]
      simp only []
      constructor
      · intro _
        omega
      · intro _
        trivial
  · intro h
    refine ⟨?_, rfl, rfl⟩
    apply ParseNextLine_of_blank lx hgood
    rcases h with h | h
    · simp [isBlank, h]
    · simp [isBlank, ParseToWords_of_comment _ h]

/-- C7 at two lexers: the line ` x` (one leading space, one word) raises the
indentation error, and the line of three spaces and a comment is skipped. -/
theorem C7_indentation_error_witness :
    ParseNextLine ⟨⟨" x".toList, false⟩, initialBufer⟩ = Except.error LexError.wrongIndent ∧
    ParseNextLine ⟨⟨"   #c\nx".toList, false⟩, initialBufer⟩ =
      ParseNextLine (skipLine ⟨⟨"   #c\nx".toList, false⟩, initialBufer⟩) :=
  ⟨((C7_indentation_error ⟨⟨" x".toList, false⟩, initialBufer⟩ (by decide)).1
      (by decide)).mpr (by decide),
   ((C7_indentation_error ⟨⟨"   #c\nx".toList, false⟩, initialBufer⟩ (by decide)).2
      (Or.inr (by decide))).1⟩

/-! ## C5: the classification of words -/

theorem firstIdx_spec (q : Char → Bool) (r : List Char) :
    match firstIdx q r with
    | none => r.takeWhile (fun c => !q c) = r ∧ r.dropWhile (fun c => !q c) = []
    | some i =>
      r.take i = r.takeWhile (fun c => !q c) ∧ r.drop i = r.dropWhile (fun c => !q c) ∧
        i < r.length := by
  induction r with
  | nil => simp [firstIdx]
  | cons c cs ih =>
    rw [firstIdx]
    by_cases hq : q c = true
    · simp [hq, List.takeWhile_cons, List.dropWhile_cons]
    · have hq2 : q c = false := by simpa using hq
      rw [if_neg hq]
      cases hf : firstIdx q cs with
      | none =>
        rw [hf] at ih
        simp [hq2, List.takeWhile_cons, List.dropWhile_cons, ih.1, ih.2]
      | some i =>
        rw [hf] at ih
        simp [hq2, List.takeWhile_cons, List.dropWhile_cons, ih.1, ih.2.1, ih.2.2]

theorem findFrom_one_cons (q : Char → Bool) (c : Char) (r : List Char) :
    findFrom q (c :: r) 1 = (firstIdx q r).map (· + 1) := by
  simp [findFrom]

theorem GetNumber_cons (c : Char) (r : List Char) :
    GetNumber (c :: r) = (c :: r.takeWhile Char.isDigit, r.dropWhile Char.isDigit) := by
  unfold GetNumber
  rw [findFrom_one_cons]
  have h := firstIdx_spec (fun c => !c.isDigit) r
  simp only [Bool.not_not] at h
  cases hf : firstIdx (fun c => !c.isDigit) r with
  | none =>
    rw [hf] at h
    simp [h.1, h.2]
  | some i =>
    rw [hf] at h
    obtain ⟨h1, h2, h3⟩ := h
    simp only [Option.map_some', List.take_succ_cons, List.length_cons, List.length_take]
    rw [h1, Nat.min_eq_left (Nat.le_of_lt h3), List.drop_succ_cons, h2]

theorem GetWord_cons_fst (c : Char) (r : List Char) :
    (GetWord (c :: r)).1 = c :: r.takeWhile (fun d => !word_separators.contains d) := by
  unfold GetWord
  rw [findFrom_one_cons]
  have h := firstIdx_spec (fun c => word_separators.contains c) r
  cases hf : firstIdx (fun c => word_separators.contains c) r with
  | none =>
    rw [hf] at h
    simp only [Option.map_none']
    exact congrArg _ h.1.symm
  | some i =>
    rw [hf] at h
    obtain ⟨h1, h2, h3⟩ := h
    simp only [Option.map_some', List.take_succ_cons]
    rw [h1]
    split_ifs <;> rfl

theorem lookup_some_mem (k : List Char) (l : List (List Char × Token)) (t : Token)
    (h : l.lookup k = some t) : (k, t) ∈ l := by
  induction l with
  | nil => simp at h
  | cons p ps ih =>
    obtain ⟨a, b⟩ := p
    cases hk : k == a with
    | true =>
      simp only [List.lookup, hk] at h
      injection h with h
      subst h
      have : k = a := by simpa using hk
      subst this
      exact List.mem_cons_self _ _
    | false =>
      simp only [List.lookup, hk] at h
      exact List.mem_cons_of_mem _ (ih h)

theorem lookup_none_of_forall (k : List Char) (l : List (List Char × Token))
    (h : ∀ p ∈ l, p.1 ≠ k) : l.lookup k = none := by
  cases hl : l.lookup k with
  | none => rfl
  | some t => exact absurd rfl (h _ (lookup_some_mem _ _ _ hl))

theorem foldl_decimal (ds : List Char) (acc : Nat) :
    ds.foldl (fun acc c => 10 * acc + (c.toNat - 48)) acc =
      acc * 10 ^ ds.length + decimalValue ds := by
  unfold decimalValue
  induction ds generalizing acc with
  | nil => simp
  | cons d ds ih =>
    rw [List.foldl_cons, ih, List.reverse_cons, List.map_append, Nat.ofDigits_append]
    simp only [List.length_cons, List.map_cons, List.map_nil, Nat.ofDigits_singleton,
      List.length_map, List.length_reverse]
    ring

theorem takeWhile_cons_takeWhile (p : Char → Bool) (c : Char) (r : List Char) (hc : p c = true) :
    (c :: r.takeWhile p).takeWhile p = c :: r.takeWhile p := by
  rw [List.takeWhile_cons, if_pos hc]
  congr 1
  induction r with
  | nil => rfl
  | cons d ds ih =>
    by_cases hd : p d = true
    · simp [List.takeWhile_cons, hd, ih]
    · simp [List.takeWhile_cons, hd]

/-- The token of a run of digits. -/
theorem wordToken_digits (c : Char) (r : List Char) (hc : c.isDigit = true) :
    wordToken (c :: r.takeWhile Char.isDigit) =
      if decimalValue (c :: r.takeWhile Char.isDigit) ≤ 2147483647 then
        Except.ok (Token.Number (Int.ofNat (decimalValue (c :: r.takeWhile Char.isDigit))))
      else Except.error LexError.outOfRange := by
  have hq : (c == chSQ || c == chDQ) = false := by
    cases h : (c == chSQ || c == chDQ) with
    | false => rfl
    | true =>
      have : c = chSQ ∨ c = chDQ := by simpa using h
      rcases this with h | h <;> subst h <;> exact absurd hc (by decide)
  have hop : op_symbols.contains c = false := by
    cases h : op_symbols.contains c with
    | false => rfl
    | true =>
      have hm : c ∈ op_symbols := by simpa using h
      have hall : ∀ x ∈ op_symbols, x.isDigit = false := by decide
      simp [hall c hm] at hc
  have hl : List.lookup (c :: r.takeWhile Char.isDigit) reserved_words = none := by
    apply lookup_none_of_forall
    intro p hp hk
    have hall : ∀ p ∈ reserved_words, (p.1.headD chNUL).isDigit = false := by decide
    have := hall p hp
    rw [hk] at this
    simp [hc] at this
  unfold wordToken
  simp only [List.headD_cons, hq, hl, hop, Bool.and_false, hc, if_true, Bool.false_eq_true,
    if_false]
  unfold stoi
  simp only [takeWhile_cons_takeWhile _ _ _ hc, foldl_decimal, Nat.zero_mul, Nat.zero_add]
  split_ifs with h1 h2 h2
  · omega
  · rfl
  · rfl
  · omega

theorem nextWord_of_op (c : Char) (r : List Char) (hop : c ∈ op_symbols)
    (h1 : c ≠ chSQ) (h2 : c ≠ chDQ) : nextWord (c :: r) = GetOperator (c :: r) := by
  unfold nextWord
  have hc : charAt (c :: r) 0 = c := rfl
  rw [hc, if_neg (by simpa using h2), if_neg (by simpa using h1),
    if_pos (by simpa using hop)]

theorem op_symbols_not_digit (c : Char) (hop : c ∈ op_symbols) : c.isDigit = false := by
  have hall : ∀ x ∈ op_symbols, x.isDigit = false := by decide
  exact hall c hop

theorem nextWord_of_digit (c : Char) (r : List Char) (hd : c.isDigit = true) :
    nextWord (c :: r) = GetNumber (c :: r) := by
  unfold nextWord
  have hc : charAt (c :: r) 0 = c := rfl
  have hop : ¬ c ∈ op_symbols := fun h => by simp [op_symbols_not_digit c h] at hd
  have h1 : c ≠ chSQ := fun h => hop (by rw [h]; decide)
  have h2 : c ≠ chDQ := fun h => hop (by rw [h]; decide)
  rw [hc, if_neg (by simpa using h2), if_neg (by simpa using h1),
    if_neg (by simpa using hop), if_pos hd]

theorem nextWord_of_other (c : Char) (r : List Char) (hop : ¬ c ∈ op_symbols)
    (hd : c.isDigit = false) : nextWord (c :: r) = GetWord (c :: r) := by
  unfold nextWord
  have hc : charAt (c :: r) 0 = c := rfl
  have h1 : c ≠ chSQ := fun h => hop (by rw [h]; decide)
  have h2 : c ≠ chDQ := fun h => hop (by rw [h]; decide)
  rw [hc, if_neg (by simpa using h2), if_neg (by simpa using h1),
    if_neg (by simpa using hop), if_neg (by simp [hd])]

theorem GetOperator_compound (c : Char) (r : List Char) (hc : c ∈ compoundStarts) :
    GetOperator (c :: '=' :: r) = ([c, '='], r) := by
  unfold GetOperator
  have h0 : charAt (c :: '=' :: r) 0 = c := rfl
  have h1 : charAt (c :: '=' :: r) 1 = '=' := rfl
  have : (c == '<' || c == '>' || c == '=' || c == '!') = true := by
    simp only [compoundStarts, List.mem_cons, List.mem_singleton, List.not_mem_nil,
      or_false] at hc
    rcases hc with h | h | h | h <;> subst h <;> decide
  rw [h0, h1, if_pos (by simp [this])]
  rfl

theorem GetOperator_single (c : Char) (r : List Char)
    (h : ¬ (c ∈ compoundStarts ∧ r.head? = some '=')) :
    GetOperator (c :: r) = ([c], r) := by
  unfold GetOperator
  have h0 : charAt (c :: r) 0 = c := rfl
  rw [h0, if_neg]
  · rfl
  · intro hc
    apply h
    simp only [Bool.and_eq_true, Bool.or_eq_true, beq_iff_eq, decide_eq_true_eq] at hc
    obtain ⟨⟨_, h1⟩, h2⟩ := hc
    refine ⟨by simp only [compoundStarts, List.mem_cons, List.mem_singleton]; tauto, ?_⟩
    cases r with
    | nil =>
      have hn : charAt [c] 1 = chNUL := rfl
      rw [hn] at h1
      exact absurd h1 (by decide)
    | cons d ds =>
      have : d = '=' := by simpa [charAt] using h1
      simp [this]

theorem wordToken_compound (c : Char) (hc : c ∈ compoundStarts) :
    wordToken [c, '='] = Except.ok (compoundOf c) := by
  simp only [compoundStarts, List.mem_cons, List.mem_singleton, List.not_mem_nil,
    or_false] at hc
  rcases hc with h | h | h | h <;> subst h <;> decide

theorem wordToken_single_op (c : Char) (hop : c ∈ op_symbols) (h1 : c ≠ chSQ)
    (h2 : c ≠ chDQ) : wordToken [c] = Except.ok (Token.Char c) := by
  have hl : List.lookup [c] reserved_words = none := by
    apply lookup_none_of_forall
    intro p hp hk
    have hall : ∀ p ∈ reserved_words, 2 ≤ p.1.length := by decide
    have := hall p hp
    rw [hk] at this
    simp at this
  unfold wordToken
  simp only [List.headD_cons, hl, List.length_singleton, beq_self_eq_true, Bool.true_and]
  rw [if_neg (by simp [h1, h2]), if_pos (by simpa using hop)]

theorem reserved_words_eq :
    reserved_words = keywords ++
      [("<=".toList, Token.LessOrEq), (">=".toList, Token.GreaterOrEq),
       ("!=".toList, Token.NotEq), ("==".toList, Token.Eq)] := by
  decide

theorem lookup_reserved_of_not_op (c : Char) (w : List Char) (hop : ¬ c ∈ op_symbols) :
    List.lookup (c :: w) reserved_words = List.lookup (c :: w) keywords := by
  have h2 : List.lookup (c :: w)
      [("<=".toList, Token.LessOrEq), (">=".toList, Token.GreaterOrEq),
       ("!=".toList, Token.NotEq), ("==".toList, Token.Eq)] = none := by
    apply lookup_none_of_forall
    intro p hp hk
    have hall : ∀ p ∈ [("<=".toList, Token.LessOrEq), (">=".toList, Token.GreaterOrEq),
       ("!=".toList, Token.NotEq), ("==".toList, Token.Eq)],
        p.1.headD chNUL ∈ op_symbols := by decide
    have := hall p hp
    rw [hk] at this
    exact hop this
  rw [reserved_words_eq, List.lookup_append, h2]
  cases List.lookup (c :: w) keywords <;> rfl

theorem wordToken_other (c : Char) (w : List Char) (hop : ¬ c ∈ op_symbols)
    (hd : c.isDigit = false) :
    wordToken (c :: w) =
      match List.lookup (c :: w) keywords with
      | some t => Except.ok t
      | none => Except.ok (Token.Id (c :: w)) := by
  have h1 : c ≠ chSQ := fun h => hop (by rw [h]; decide)
  have h2 : c ≠ chDQ := fun h => hop (by rw [h]; decide)
  unfold wordToken
  simp only [List.headD_cons]
  rw [if_neg (by simp [h1, h2]), lookup_reserved_of_not_op c w hop]
  cases List.lookup (c :: w) keywords with
  | some t => rfl
  | none =>
    simp only []
    rw [if_neg (by simp [hop]), if_neg (by simp [hd])]

/-- C5, with the range of a number made explicit. Let a word start at the
character `c`, followed by `r`, where `c` does not open a string literal.

* If `c` is one of `<`, `>`, `=`, `!` and `=` follows, the word is `c=` and its
  token is the compound operator.
* If `c` is any other operator character, or one of these four without a
  following `=`, the word is `c` and its token is `Char c`.
* If `c` is a digit, the word is the maximal run of digits and its token is
  `Number` with the decimal value, provided the value is at most `2147483647`;
  a greater value raises the range error of `std::stoi`.
* Otherwise the word runs up to the next separator; its token is the keyword
  token when the word is one of the twelve reserved words, and `Id` of the
  word when it is not. -/
theorem C5_word_classification (c : Char) (r : List Char) :
    (c ∈ compoundStarts →
      nextWord (c :: '=' :: r) = ([c, '='], r) ∧
      wordToken [c, '='] = Except.ok (compoundOf c)) ∧
    (c ∈ op_symbols → c ≠ chSQ → c ≠ chDQ →
      ¬ (c ∈ compoundStarts ∧ r.head? = some '=') →
      nextWord (c :: r) = ([c], r) ∧ wordToken [c] = Except.ok (Token.Char c)) ∧
    (c.isDigit = true →
      nextWord (c :: r) = (c :: r.takeWhile Char.isDigit, r.dropWhile Char.isDigit) ∧
      wordToken (c :: r.takeWhile Char.isDigit) =
        if decimalValue (c :: r.takeWhile Char.isDigit) ≤ 2147483647 then
          Except.ok (Token.Number (Int.ofNat (decimalValue (c :: r.takeWhile Char.isDigit))))
        else Except.error LexError.outOfRange) ∧
    (¬ c ∈ op_symbols → c.isDigit = false →
      (nextWord (c :: r)).1 = c :: r.takeWhile (fun d => !word_separators.contains d) ∧
      wordToken (nextWord (c :: r)).1 =
        match List.lookup (nextWord (c :: r)).1 keywords with
        | some t => Except.ok t
        | none => Except.ok (Token.Id (nextWord (c :: r)).1)) := by
  refine ⟨?_, ?_, ?_, ?_⟩
  · intro hc
    have hop : c ∈ op_symbols := by
      have hall : ∀ x ∈ compoundStarts, x ∈ op_symbols := by decide
      exact hall c hc
    have h1 : c ≠ chSQ := by
      intro h
      rw [h] at hc
      exact absurd hc (by decide)
    have h2 : c ≠ chDQ := by
      intro h
      rw [h] at hc
      exact absurd hc (by decide)
    exact ⟨by rw [nextWord_of_op c _ hop h1 h2, GetOperator_compound c r hc],
      wordToken_compound c hc⟩
  · intro hop h1 h2 hn
    exact ⟨by rw [nextWord_of_op c _ hop h1 h2, GetOperator_single c r hn],
      wordToken_single_op c hop h1 h2⟩
  · intro hd
    exact ⟨by rw [nextWord_of_digit c r hd, GetNumber_cons], wordToken_digits c r hd⟩
  · intro hop hd
    have hw : (nextWord (c :: r)).1 = c :: r.takeWhile (fun d => !word_separators.contains d) := by
      rw [nextWord_of_other c r hop hd, GetWord_cons_fst]
    refine ⟨hw, ?_⟩
    rw [hw]
    exact wordToken_other c _ hop hd

/-- C5 at the texts of the claim: `===` gives `Eq` and then `Char =`, the words
`classy` and `Trueish` give identifiers, `class` gives the keyword, and `12ab`
gives the number 12 and leaves `ab`. -/
theorem C5_word_classification_witness :
    (nextWord "===".toList = ("==".toList, "=".toList) ∧
      wordToken "==".toList = Except.ok Token.Eq) ∧
    (nextWord "=".toList = ("=".toList, []) ∧
      wordToken "=".toList = Except.ok (Token.Char '=')) ∧
    (nextWord "12ab".toList = ("12".toList, "ab".toList) ∧
      wordToken "12".toList = Except.ok (Token.Number 12)) ∧
    wordToken "classy".toList = Except.ok (Token.Id "classy".toList) ∧
    wordToken "Trueish".toList = Except.ok (Token.Id "Trueish".toList) ∧
    wordToken "class".toList = Except.ok Token.Class :=
  ⟨(C5_word_classification '=' "=".toList).1 (by decide),
   (C5_word_classification '=' []).2.1 (by decide) (by decide) (by decide) (by decide),
   by
     have h := (C5_word_classification '1' "2ab".toList).2.2.1 (by decide)
     exact ⟨h.1, by decide⟩,
   by decide, by decide, by decide⟩

/-- C5 as it is stated fails at the run of digits `2147483648`: it is a maximal
run of digits, and no `Number` token with its decimal value is emitted; the
conversion raises the range error and lexing aborts. -/
theorem C5_counterexample_number_out_of_range :
    ParseToWords "2147483648".toList = ["2147483648".toList] ∧
    wordToken "2147483648".toList ≠ Except.ok (Token.Number 2147483648) ∧
    wordToken "2147483648".toList = Except.error LexError.outOfRange ∧
    Lexer.new "2147483648".toList = Except.error LexError.outOfRange := by
  refine ⟨by decide, by decide, by decide, by decide⟩

/-! ## C9: method lookup along the parent chain -/

theorem findMethod_eq_find {β : Type} (methods : List (Method β)) (name : String) :
    findMethod methods name = methods.find? (fun m => m.name == name) := by
  induction methods with
  | nil => rfl
  | cons m ms ih =>
    rw [findMethod, List.find?_cons]
    cases h : m.name == name with
    | true => simp
    | false => simpa using ih

theorem GetMethod_mk {β : Type} (name_ : String) (methods_ : List (Method β))
    (parent_ : Option (Class β)) (name : String) :
    (Class.mk name_ methods_ parent_).GetMethod name =
      match methods_.find? (fun m => m.name == name) with
      | some method => some method
      | none =>
        match parent_ with
        | some parent => parent.GetMethod name
        | none => none := by
  rw [← findMethod_eq_find]
  cases parent_ <;> simp only [Class.GetMethod]

theorem GetMethod_eq_find_chain {β : Type} (cls : Class β) (name : String) :
    cls.GetMethod name =
      (cls.chain.flatMap Class.methods_).find? (fun m => m.name == name) :=
  match cls with
  | Class.mk name_ methods_ none => by
    rw [GetMethod_mk, Class.chain]
    simp only [List.flatMap_cons, List.flatMap_nil, List.append_nil, Class.methods_]
    cases List.find? (fun m => m.name == name) methods_ <;> rfl
  | Class.mk name_ methods_ (some parent) => by
    have ih := GetMethod_eq_find_chain parent name
    rw [GetMethod_mk, Class.chain]
    simp only [List.flatMap_cons, Class.methods_, List.find?_append]
    cases List.find? (fun m => m.name == name) methods_ with
    | some m => rfl
    | none => simpa using ih

/-- C9. `GetMethod` on a class returns the first method of that name in the
method list of the class, in the order of the list; when the list has none it
returns what `GetMethod` returns on the parent, and nothing when there is no
parent. So the result is the first method of that name in the method lists of
the parent chain taken in order, the class itself first, and nothing when no
class of the chain has the name. A method of the class hides every method of
that name further up, and a name the class does not define is looked up in the
parent. -/
theorem C9_get_method {β : Type} (name_ : String) (methods_ : List (Method β))
    (parent_ : Option (Class β)) (name : String) :
    ((Class.mk name_ methods_ parent_).GetMethod name =
      match methods_.find? (fun m => m.name == name) with
      | some method => some method
      | none =>
        match parent_ with
        | some parent => parent.GetMethod name
        | none => none) ∧
    ((Class.mk name_ methods_ parent_).GetMethod name =
      (((Class.mk name_ methods_ parent_).chain.flatMap Class.methods_).find?
        (fun m => m.name == name))) ∧
    (∀ before method after, methods_ = before ++ method :: after →
      method.name = name → (∀ m ∈ before, m.name ≠ name) →
      (Class.mk name_ methods_ parent_).GetMethod name = some method) ∧
    (∀ parent, parent_ = some parent → (∀ m ∈ methods_, m.name ≠ name) →
      (Class.mk name_ methods_ parent_).GetMethod name = parent.GetMethod name) ∧
    ((Class.mk name_ methods_ parent_).GetMethod name = none ↔
      ∀ cls ∈ (Class.mk name_ methods_ parent_).chain, ∀ m ∈ cls.methods_, m.name ≠ name) := by
  refine ⟨GetMethod_mk _ _ _ _, GetMethod_eq_find_chain _ _, ?_, ?_, ?_⟩
  · intro before method after hm hn hb
    rw [GetMethod_mk, hm, List.find?_append]
    have h1 : List.find? (fun m => m.name == name) before = none := by
      rw [List.find?_eq_none]
      intro m hmem
      simpa using hb m hmem
    rw [h1, List.find?_cons]
    simp [hn]
  · intro parent hp hnone
    rw [GetMethod_mk, hp]
    have h1 : List.find? (fun m => m.name == name) methods_ = none := by
      rw [List.find?_eq_none]
      intro m hmem
      simpa using hnone m hmem
    rw [h1]
  · rw [GetMethod_eq_find_chain, List.find?_eq_none]
    simp only [List.mem_flatMap, beq_iff_eq, forall_exists_index, and_imp]
    constructor
    · intro h cls hc m hm
      exact h m cls hc hm
    · intro h m cls hc hm
      exact h cls hc m hm

/-- C9 at the example classes: `B` hides `__str__` of its parent `A`, and `C`
inherits `f` from `A`. -/
theorem C9_get_method_witness :
    exampleB.GetMethod "__str__" = some ⟨"__str__", [], 3⟩ ∧
    exampleC.GetMethod "f" = exampleA.GetMethod "f" :=
  ⟨(C9_get_method "B" [⟨"__str__", [], 3⟩, ⟨"f", ["x", "y"], 4⟩] (some exampleA)
      "__str__").2.2.1 [] ⟨"__str__", [], 3⟩ [⟨"f", ["x", "y"], 4⟩] rfl rfl
      (by intro m hm; cases hm),
   (C9_get_method "C" [] (some exampleA) "f").2.2.2.1 exampleA rfl
      (by intro m hm; cases hm)⟩

/-! ## C10: `ClassInstance::Call` and `HasMethod` -/

theorem Closure.find_assign_self {β : Type} (c : Closure β) (key : String)
    (value : ObjectHolder β) : Closure.find (Closure.assign c key value) key = some value := by
  induction c with
  | nil => simp [Closure.assign, Closure.find]
  | cons p ps ih =>
    obtain ⟨k, v⟩ := p
    by_cases hk : (k == key) = true
    · simp [Closure.assign, Closure.find, hk]
    · simp [Closure.assign, Closure.find, hk, ih]

theorem HasMethod_iff {β : Type} (self : ClassInstance β) (method : String) (n : Nat) :
    self.HasMethod method n = true ↔
      ∃ m, self.class_ptr_.GetMethod method = some m ∧ m.formal_params.length = n := by
  unfold ClassInstance.HasMethod
  cases h : self.class_ptr_.GetMethod method with
  | none => simp
  | some m => simp

/-- C10. `HasMethod(name, n)` holds exactly when `GetMethod` resolves `name` to
a method with `n` formal parameters. When `HasMethod(name, |args|)` is false,
`Call` ends with the runtime error `unable to call name` and leaves the state
as it was, whatever the function that executes bodies is: no body is executed.
When it is true, the result of `Call` is the result of executing the body of
the method that `GetMethod` resolves, in the closure of the arguments bound to
the formal parameters and of `self`, and in the state where the field `self`
of the instance refers to the instance.
In particular, when the class of the instance defines `name` with a number of
parameters other than `|args|`, the call fails, whatever the parent defines. -/
theorem C10_call_has_method {β : Type} (exec : Exec β) (this : Nat) (method : String)
    (actual_args : List (ObjectHolder β)) (context : World β) :
    ((context.heap this).HasMethod method actual_args.length = true ↔
      ∃ m, (context.heap this).class_ptr_.GetMethod method = some m ∧
        m.formal_params.length = actual_args.length) ∧
    ((context.heap this).HasMethod method actual_args.length = false →
      ClassInstance.Call exec this method actual_args context =
        (Outcome.runtime_error ("unable to call " ++ method), context)) ∧
    (∀ m, (context.heap this).class_ptr_.GetMethod method = some m →
      m.formal_params.length = actual_args.length →
      ClassInstance.Call exec this method actual_args context =
        ((exec m.body
            (Closure.assign (bindArguments m.formal_params actual_args []) "self"
              (ObjectHolder.Instance this))
            ⟨Function.update context.heap this
              ⟨(context.heap this).class_ptr_,
                Closure.assign (context.heap this).fields_ "self" (ObjectHolder.Instance this)⟩,
              context.output⟩).outcome,
          (exec m.body
            (Closure.assign (bindArguments m.formal_params actual_args []) "self"
              (ObjectHolder.Instance this))
            ⟨Function.update context.heap this
              ⟨(context.heap this).class_ptr_,
                Closure.assign (context.heap this).fields_ "self" (ObjectHolder.Instance this)⟩,
              context.output⟩).world)) ∧
    (∀ name_ methods_ parent_ m,
      (context.heap this).class_ptr_ = Class.mk name_ methods_ parent_ →
      methods_.find? (fun x => x.name == method) = some m →
      m.formal_params.length ≠ actual_args.length →
      ClassInstance.Call exec this method actual_args context =
        (Outcome.runtime_error ("unable to call " ++ method), context)) := by
  have hfalse : (context.heap this).HasMethod method actual_args.length = false →
      ClassInstance.Call exec this method actual_args context =
        (Outcome.runtime_error ("unable to call " ++ method), context) := by
    intro h
    unfold ClassInstance.Call
    rw [if_neg (by simp [h])]
  refine ⟨HasMethod_iff _ _ _, hfalse, ?_, ?_⟩
  · intro m hm hlen
    have hh : (context.heap this).HasMethod method actual_args.length = true :=
      (HasMethod_iff _ _ _).mpr ⟨m, hm, hlen⟩
    unfold ClassInstance.Call
    rw [if_pos hh, hm]
    simp only [Function.update_same, Closure.find_assign_self, Option.getD_some]
  · intro name_ methods_ parent_ m hc hf hlen
    apply hfalse
    unfold ClassInstance.HasMethod
    rw [hc, GetMethod_mk, hf]
    simpa using hlen

/-- C10 at the example state: the instance at address 0 has class `B`, which
defines `f` with two parameters over the `f` with one parameter of its parent.
A call of `f` with one argument fails, a call with two arguments executes the
body of the `f` of `B`. -/
theorem C10_call_has_method_witness :
    ClassInstance.Call exampleExec 0 "f" [ObjectHolder.Number 7] exampleWorld =
      (Outcome.runtime_error "unable to call f", exampleWorld) ∧
    (ClassInstance.Call exampleExec 0 "f" [ObjectHolder.Number 7, ObjectHolder.None]
        exampleWorld).1 = Outcome.value (ObjectHolder.Number 4) :=
  ⟨(C10_call_has_method exampleExec 0 "f" [ObjectHolder.Number 7] exampleWorld).2.1 rfl,
   by
     have h :=
       (C10_call_has_method exampleExec 0 "f" [ObjectHolder.Number 7, ObjectHolder.None]
         exampleWorld).2.2.1 ⟨"f", ["x", "y"], 4⟩ rfl rfl
     rw [h]
     rfl⟩

/-! ## The logical lines of a stream -/

theorem streamLinesFuel_indep (f1 f2 : Nat) (s : IStream)
    (h1 : streamMeasure s ≤ f1) (h2 : streamMeasure s ≤ f2) :
    streamLinesFuel f1 s = streamLinesFuel f2 s := by
  induction f1 generalizing f2 s with
  | zero =>
    have hf : s.fail = true := by
      cases h : s.fail with
      | true => rfl
      | false => simp [streamMeasure, h] at h1
    cases f2 with
    | zero => rfl
    | succ f2 => simp [streamLinesFuel, hf]
  | succ f1 ih =>
    cases hf : s.fail with
    | true =>
      cases f2 with
      | zero => simp [streamLinesFuel, hf]
      | succ f2 => simp [streamLinesFuel, hf]
    | false =>
      have hm := GetLine_measure s hf
      cases f2 with
      | zero => simp [streamMeasure, hf] at h2
      | succ f2 =>
        simp only [streamLinesFuel, hf, Bool.false_eq_true, if_false]
        rw [ih f2 _ (by omega) (by omega)]

theorem streamLines_of_fail (s : IStream) (h : s.fail = true) : streamLines s = [] := by
  simp [streamLines, streamLinesFuel, h]

theorem streamLines_of_good (s : IStream) (h : s.fail = false) :
    streamLines s = (GetLine s).1 :: streamLines (GetLine s).2 := by
  have hm := GetLine_measure s h
  have hm2 : streamMeasure s = s.rest.length + 1 := by simp [streamMeasure, h]
  unfold streamLines
  rw [streamLinesFuel]
  simp only [h, Bool.false_eq_true, if_false]
  rw [streamLinesFuel_indep _ ((GetLine s).2.rest.length + 1) _ (by omega)
    (streamMeasure_le _)]

theorem contentLines_of_fail (s : IStream) (h : s.fail = true) : contentLines s = [] := by
  simp [contentLines, streamLines_of_fail s h]

/-- The blank-line test of `ParseNextLine` holds exactly for a line without
words. -/
theorem isBlank_eq (line : List Char) :
    isBlank line (ParseToWords line) = (ParseToWords line).isEmpty := by
  cases hw : ParseToWords line with
  | nil => simp [isBlank]
  | cons w ws =>
    have := isBlank_false_of_words line (by rw [hw]; simp)
    rw [hw] at this
    rw [this]
    rfl

theorem contentLines_of_blank (s : IStream) (h : s.fail = false)
    (hb : isBlank (GetLine s).1 (ParseToWords (GetLine s).1) = true) :
    contentLines s = contentLines (GetLine s).2 := by
  rw [isBlank_eq] at hb
  simp [contentLines, streamLines_of_good s h, hb]

theorem contentLines_of_content (s : IStream) (h : s.fail = false)
    (hb : isBlank (GetLine s).1 (ParseToWords (GetLine s).1) = false) :
    contentLines s = (GetLine s).1 :: contentLines (GetLine s).2 := by
  rw [isBlank_eq] at hb
  simp [contentLines, streamLines_of_good s h, hb]

/-- What `ParseNextLine` does, in terms of the lines with words that the stream
still holds: without such a line it unwinds the indentation and gives `Eof`;
otherwise it gives the buffer of the first such line. -/
theorem ParseNextLine_spec (lx : Lexer) :
    (contentLines lx.source_ = [] →
      ∃ s, s.fail = true ∧
        ParseNextLine lx =
          Except.ok ⟨s,
            ⟨List.replicate lx.bufer_.current_indent Token.Dedent ++ [Token.Eof], 0, 0,
              front (List.replicate lx.bufer_.current_indent Token.Dedent ++ [Token.Eof])⟩⟩) ∧
    (∀ line lines, contentLines lx.source_ = line :: lines →
      ∃ s, contentLines s = lines ∧
        ParseNextLine lx =
          match parseLine lx.bufer_.current_indent line (ParseToWords line) with
          | Except.error e => Except.error e
          | Except.ok r => Except.ok ⟨s, ⟨r.1, 0, r.2, front r.1⟩⟩) := by
  generalize hn : streamMeasure lx.source_ = n
  induction n using Nat.strong_induction_on generalizing lx with
  | _ n ih =>
    cases hf : lx.source_.fail with
    | true =>
      have hc := contentLines_of_fail _ hf
      refine ⟨fun _ => ⟨lx.source_, hf, ParseNextLine_of_fail lx hf⟩, ?_⟩
      intro line lines h
      rw [hc] at h
      cases h
    | false =>
      have hm := GetLine_measure lx.source_ hf
      cases hb : isBlank (GetLine lx.source_).1 (ParseToWords (GetLine lx.source_).1) with
      | true =>
        have hc := contentLines_of_blank _ hf hb
        have hp := ParseNextLine_of_blank lx hf hb
        have := ih (streamMeasure (skipLine lx).source_) (by rw [← hn]; exact hm)
          (skipLine lx) rfl
        rw [hc, hp]
        exact this
      | false =>
        have hc := contentLines_of_content _ hf hb
        have hp := ParseNextLine_of_content lx hf hb
        constructor
        · intro h
          rw [hc] at h
          cases h
        · intro line lines h
          rw [hc] at h
          injection h with h1 h2
          subst h1
          exact ⟨(GetLine lx.source_).2, h2, hp⟩

/-! ## The buffers of a list of lines -/

theorem parseLine_ok_shape (C : Nat) (line : List Char) (words : List (List Char))
    (r : List Token × Nat) (h : parseLine C line words = Except.ok r) :
    ∃ content, pushWords words [] = Except.ok content ∧
      r.1 = List.replicate (r.2 - C) Token.Indent ++ List.replicate (C - r.2) Token.Dedent ++
        content ++ [Token.Newline] := by
  unfold parseLine at h
  cases hi : GetIndent line with
  | error e => simp [hi] at h
  | ok indent =>
    simp only [hi] at h
    rw [indentLoop_eq _ _ _ _ (by omega), pushWords_append] at h
    cases hp : pushWords words [] with
    | error e => simp [hp] at h
    | ok content =>
      simp only [hp] at h
      injection h with h
      subst h
      exact ⟨content, rfl, by simp⟩

theorem parseLines_LinesGroups (C : Nat) (lines : List (List Char))
    (r : List (List Token) × Nat) (h : parseLines C lines = Except.ok r) :
    LinesGroups C lines r.1 r.2 := by
  induction lines generalizing C r with
  | nil =>
    simp only [parseLines] at h
    injection h with h
    subst h
    simp [LinesGroups]
  | cons line lines ih =>
    rw [parseLines] at h
    cases hp : parseLine C line (ParseToWords line) with
    | error e => simp [hp] at h
    | ok r1 =>
      simp only [hp] at h
      cases hq : parseLines r1.2 lines with
      | error e => simp [hq] at h
      | ok rs =>
        simp only [hq] at h
        injection h with h
        subst h
        obtain ⟨content, hc, hg⟩ := parseLine_ok_shape _ _ _ _ hp
        exact ⟨r1.2, content, hc, hg, ih _ _ hq⟩

theorem parseLines_snoc (C : Nat) (lines : List (List Char)) (line : List Char)
    (gs : List (List Token)) (C1 : Nat) (r : List Token × Nat)
    (h1 : parseLines C lines = Except.ok (gs, C1))
    (h2 : parseLine C1 line (ParseToWords line) = Except.ok r) :
    parseLines C (lines ++ [line]) = Except.ok (gs ++ [r.1], r.2) := by
  induction lines generalizing C gs with
  | nil =>
    simp only [parseLines] at h1
    injection h1 with h1
    injection h1 with ha hb
    subst ha
    subst hb
    simp [parseLines, h2]
  | cons l ls ih =>
    rw [parseLines] at h1
    cases hp : parseLine C l (ParseToWords l) with
    | error e => simp [hp] at h1
    | ok r1 =>
      simp only [hp] at h1
      cases hq : parseLines r1.2 ls with
      | error e => simp [hq] at h1
      | ok rs =>
        simp only [hq] at h1
        injection h1 with h1
        injection h1 with ha hb
        subst ha
        subst hb
        have := ih r1.2 rs.1 hq
        simp [parseLines, hp, this]

theorem count_content (t : Token) (ht : t.isStructural = true) (content : List Token)
    (hc : ∀ x ∈ content, x.isStructural = false) : content.count t = 0 := by
  rw [List.count_eq_zero]
  intro hm
  have := hc t hm
  rw [ht] at this
  cases this

/-- The counts of the structural tokens in the buffer of a line. -/
theorem group_counts (C C1 : Nat) (content : List Token)
    (hc : ∀ x ∈ content, x.isStructural = false) :
    (List.replicate (C1 - C) Token.Indent ++ List.replicate (C - C1) Token.Dedent ++
        content ++ [Token.Newline]).count Token.Indent = C1 - C ∧
    (List.replicate (C1 - C) Token.Indent ++ List.replicate (C - C1) Token.Dedent ++
        content ++ [Token.Newline]).count Token.Dedent = C - C1 ∧
    (List.replicate (C1 - C) Token.Indent ++ List.replicate (C - C1) Token.Dedent ++
        content ++ [Token.Newline]).count Token.Newline = 1 ∧
    (List.replicate (C1 - C) Token.Indent ++ List.replicate (C - C1) Token.Dedent ++
        content ++ [Token.Newline]).count Token.Eof = 0 := by
  have h1 := count_content Token.Indent rfl content hc
  have h2 := count_content Token.Dedent rfl content hc
  have h3 := count_content Token.Newline rfl content hc
  have h4 := count_content Token.Eof rfl content hc
  simp only [List.count_append, List.count_replicate, h1, h2, h3, h4, List.count_cons,
    List.count_nil]
  refine ⟨?_, ?_, ?_, ?_⟩ <;> simp

theorem LinesGroups_length (C C' : Nat) (lines : List (List Char)) (gs : List (List Token))
    (h : LinesGroups C lines gs C') : gs.length = lines.length := by
  induction lines generalizing C gs with
  | nil =>
    cases gs with
    | nil => rfl
    | cons g gs => simp [LinesGroups] at h
  | cons l ls ih =>
    cases gs with
    | nil => simp [LinesGroups] at h
    | cons g gs =>
      obtain ⟨C1, content, _, _, hr⟩ := h
      simp [ih _ _ hr]

/-- The counts of the structural tokens in the buffers of a list of lines. -/
theorem LinesGroups_counts (C C' : Nat) (lines : List (List Char)) (gs : List (List Token))
    (h : LinesGroups C lines gs C') :
    C + gs.flatten.count Token.Indent = C' + gs.flatten.count Token.Dedent ∧
    gs.flatten.count Token.Newline = lines.length ∧
    gs.flatten.count Token.Eof = 0 ∧
    (∀ k, (gs.flatten.take k).count Token.Dedent ≤ C + (gs.flatten.take k).count Token.Indent) ∧
    (gs.flatten = [] ∨ gs.flatten.getLast? = some Token.Newline) := by
  induction lines generalizing C gs with
  | nil =>
    cases gs with
    | nil =>
      simp only [LinesGroups] at h
      subst h
      simp
    | cons g gs => simp [LinesGroups] at h
  | cons l ls ih =>
    cases gs with
    | nil => simp [LinesGroups] at h
    | cons g gs =>
      obtain ⟨C1, content, hp, hg, hr⟩ := h
      have hc := pushWords_content _ _ hp
      obtain ⟨c1, c2, c3, c4⟩ := group_counts C C1 content hc
      rw [← hg] at c1 c2 c3 c4
      obtain ⟨i1, i2, i3, i4, i5⟩ := ih C1 gs hr
      simp only [List.flatten_cons, List.count_append, c1, c2, c3, c4, i2, i3,
        List.length_cons]
      refine ⟨by omega, by omega, trivial, ?_, ?_⟩
      · intro k
        rw [List.take_append_eq_append_take, List.count_append, List.count_append]
        have hk := i4 (k - g.length)
        by_cases hlt : k ≤ g.length
        · have h0 : k - g.length = 0 := by omega
          rw [h0]
          simp only [List.take_zero, List.count_nil, Nat.add_zero]
          have := (List.take_sublist k g).count_le Token.Dedent
          omega
        · have hfull : g.take k = g := List.take_of_length_le (by omega)
          rw [hfull, c1, c2]
          omega
      · right
        rcases i5 with h5 | h5
        · rw [h5, List.append_nil, hg]
          simp
        · rw [List.getLast?_append, h5]
          rfl

/-! ## The emitted tokens and the buffers -/

theorem parseLine_ok_facts (C : Nat) (line : List Char) (words : List (List Char))
    (r : List Token × Nat) (h : parseLine C line words = Except.ok r) :
    r.1 ≠ [] ∧ Token.Eof ∉ r.1 := by
  obtain ⟨content, hp, hg⟩ := parseLine_ok_shape _ _ _ _ h
  have hc := pushWords_content _ _ hp
  have h4 := (group_counts C r.2 content hc).2.2.2
  rw [← hg] at h4
  refine ⟨?_, List.count_eq_zero.mp h4⟩
  rw [hg]
  simp

/-- The lexer that `ParseNextLine` returns. -/
theorem ParseNextLine_fresh (lx0 lx : Lexer) (h : ParseNextLine lx0 = Except.ok lx) :
    lx.bufer_.current_token_pos = 0 ∧
    lx.bufer_.current_token = front lx.bufer_.tokens_on_line ∧
    ((contentLines lx0.source_ = [] ∧
        lx.bufer_.tokens_on_line =
          List.replicate lx0.bufer_.current_indent Token.Dedent ++ [Token.Eof] ∧
        lx.source_.fail = true) ∨
     (∃ line lines r, contentLines lx0.source_ = line :: lines ∧
        parseLine lx0.bufer_.current_indent line (ParseToWords line) = Except.ok r ∧
        lx.bufer_.tokens_on_line = r.1 ∧ lx.bufer_.current_indent = r.2 ∧
        contentLines lx.source_ = lines)) := by
  have hs := ParseNextLine_spec lx0
  cases hc : contentLines lx0.source_ with
  | nil =>
    obtain ⟨s, hf, he⟩ := hs.1 hc
    rw [he] at h
    injection h with h
    subst h
    exact ⟨rfl, rfl, Or.inl ⟨rfl, rfl, hf⟩⟩
  | cons line lines =>
    obtain ⟨s, hl, he⟩ := hs.2 line lines hc
    rw [he] at h
    cases hp : parseLine lx0.bufer_.current_indent line (ParseToWords line) with
    | error e => simp [hp] at h
    | ok r =>
      simp only [hp] at h
      injection h with h
      subst h
      exact ⟨rfl, rfl, Or.inr ⟨line, lines, r, rfl, hp, rfl, rfl, hl⟩⟩

theorem front_eq_getD (tokens : List Token) : front tokens = tokens.getD 0 Token.Eof := by
  cases tokens <;> rfl

theorem take_one_eq_front (tokens : List Token) (h : tokens ≠ []) :
    tokens.take 1 = [front tokens] := by
  cases tokens with
  | nil => exact absurd rfl h
  | cons t ts => rfl

theorem Inv_new (input : List Char) (lx : Lexer) (h : Lexer.new input = Except.ok lx) :
    Inv input [CurrentToken lx] lx := by
  obtain ⟨hpos, hcur, hcase⟩ := ParseNextLine_fresh _ _ h
  unfold Inv CurrentToken
  rcases hcase with ⟨hc, ht, hf⟩ | ⟨line, lines, r, hc, hp, ht, hi, hl⟩
  · refine ⟨by rw [hpos, ht]; simp, by rw [hcur, hpos, front_eq_getD], [], [], 0, ?_, ?_, ?_⟩
    · rw [hcur, hpos, ht]
      rfl
    · intro h0
      omega
    · right
      exact ⟨0, rfl, hc, ht, hf⟩
  · obtain ⟨hne, heof⟩ := parseLine_ok_facts _ _ _ _ hp
    rw [← ht] at hne heof
    refine ⟨by rw [hpos]; exact List.length_pos.mpr hne,
      by rw [hcur, hpos, front_eq_getD], [line], [], 0, ?_, ?_, ?_⟩
    · rw [hcur, hpos]
      simp [take_one_eq_front _ hne]
    · intro h0
      omega
    · left
      refine ⟨heof, ?_, ?_⟩
      · have := parseLines_snoc 0 [] line [] 0 r rfl hp
        simpa [ht, hi] using this
      · rw [hc, hl]
        rfl

theorem Inv_step (input : List Char) (hist : List Token) (lx lx' : Lexer) (t : Token)
    (hinv : Inv input hist lx) (h : NextToken lx = Except.ok (t, lx')) :
    Inv input (hist ++ [t]) lx' ∧ t = CurrentToken lx' := by
  obtain ⟨hpos, hcur, linesDone, gs, k, hh, hk, hshape⟩ := hinv
  unfold NextToken at h
  by_cases he : lx.bufer_.current_token = Token.Eof
  · rw [if_pos he] at h
    injection h with h
    injection h with h1 h2
    subst h2
    subst h1
    refine ⟨⟨hpos, hcur, linesDone, gs, k + 1, ?_, fun _ => he, hshape⟩, rfl⟩
    rw [hh, he, List.replicate_succ']
    simp
  · rw [if_neg he] at h
    simp only [] at h
    have hk0 : k = 0 := by
      by_contra hk0
      exact he (hk (Nat.pos_of_ne_zero hk0))
    subst hk0
    by_cases hend : lx.bufer_.current_token_pos + 1 ≥ lx.bufer_.tokens_on_line.length
    · rw [if_pos hend] at h
      have hlen : lx.bufer_.current_token_pos + 1 = lx.bufer_.tokens_on_line.length := by
        omega
      have htake : lx.bufer_.tokens_on_line.take (lx.bufer_.current_token_pos + 1) =
          lx.bufer_.tokens_on_line := List.take_of_length_le (by omega)
      rcases hshape with ⟨hnoeof, hpl, hcl⟩ | ⟨C, hpl, hcl, htok, hf⟩
      · cases hp : ParseNextLine
            { lx with bufer_ := { lx.bufer_ with
              current_token_pos := lx.bufer_.current_token_pos + 1 } } with
        | error e => simp [hp] at h
        | ok lx2 =>
          simp only [hp] at h
          injection h with h
          injection h with h1 h2
          subst h2
          subst h1
          obtain ⟨hpos2, hcur2, hcase⟩ := ParseNextLine_fresh _ _ hp
          simp only [] at hcase
          refine ⟨?_, rfl⟩
          rcases hcase with ⟨hc, ht, hf⟩ | ⟨line, lines, r, hc, hpr, ht, hi, hl⟩
          · refine ⟨by rw [hpos2, ht]; simp, by rw [hcur2, hpos2, front_eq_getD],
              linesDone, gs ++ [lx.bufer_.tokens_on_line], 0, ?_, ?_, ?_⟩
            · rw [hh, htake, hcur2, hpos2, ht]
              simp [front]
              cases lx.bufer_.current_indent <;> simp [List.replicate_succ]
            · intro h0
              omega
            · right
              exact ⟨lx.bufer_.current_indent, hpl, by rw [hcl, hc]; simp, ht, hf⟩
          · obtain ⟨hne, heof⟩ := parseLine_ok_facts _ _ _ _ hpr
            rw [← ht] at hne heof
            refine ⟨by rw [hpos2]; exact List.length_pos.mpr hne,
              by rw [hcur2, hpos2, front_eq_getD],
              linesDone ++ [line], gs ++ [lx.bufer_.tokens_on_line], 0, ?_, ?_, ?_⟩
            · rw [hh, htake, hcur2, hpos2]
              simp [take_one_eq_front _ hne]
            · intro h0
              omega
            · left
              refine ⟨heof, ?_, ?_⟩
              · have := parseLines_snoc 0 linesDone line _ _ r hpl hpr
                rw [ht, hi]
                exact this
              · rw [hcl, hc, hl]
                simp
      · exfalso
        apply he
        rw [hcur]
        have hp : lx.bufer_.current_token_pos = C := by
          rw [htok] at hlen
          simp at hlen
          omega
        rw [hp, htok, List.getD_eq_getElem?_getD, List.getElem?_append_right (by simp)]
        simp
    · rw [if_neg hend] at h
      injection h with h
      injection h with h1 h2
      subst h2
      subst h1
      have hlt : lx.bufer_.current_token_pos + 1 < lx.bufer_.tokens_on_line.length := by
        omega
      refine ⟨⟨hlt, rfl, linesDone, gs, 0, ?_, ?_, hshape⟩, rfl⟩
      · rw [hh]
        simp only [List.replicate_zero, List.append_nil, List.append_assoc]
        congr 1
        rw [List.take_succ (n := lx.bufer_.current_token_pos + 1)]
        congr 1
        rw [List.getD_eq_getElem?_getD, List.getElem?_eq_getElem hlt]
        rfl
      · intro h0
        omega

/-! ## Runs of `NextToken` -/

theorem NextToken_of_eof (lx : Lexer) (h : CurrentToken lx = Token.Eof) :
    NextToken lx = Except.ok (Token.Eof, lx) := by
  unfold CurrentToken at h
  unfold NextToken
  rw [if_pos h, h]

theorem nextTokens_of_eof (m : Nat) (lx : Lexer) (h : CurrentToken lx = Token.Eof) :
    nextTokens m lx = Except.ok (List.replicate m Token.Eof, lx) := by
  induction m with
  | zero => rfl
  | succ m ih =>
    rw [nextTokens, NextToken_of_eof lx h]
    simp only [ih]
    rfl

theorem nextTokens_add (a b : Nat) (lx lx1 lx2 : Lexer) (ts1 ts2 : List Token)
    (h1 : nextTokens a lx = Except.ok (ts1, lx1))
    (h2 : nextTokens b lx1 = Except.ok (ts2, lx2)) :
    nextTokens (a + b) lx = Except.ok (ts1 ++ ts2, lx2) := by
  induction a generalizing lx ts1 with
  | zero =>
    simp only [nextTokens] at h1
    injection h1 with h1
    injection h1 with ha hb
    subst ha
    subst hb
    simpa using h2
  | succ a ih =>
    rw [nextTokens] at h1
    have hab : a + 1 + b = (a + b) + 1 := by omega
    rw [hab, nextTokens]
    cases hn : NextToken lx with
    | error e => simp [hn] at h1
    | ok r =>
      obtain ⟨t, lx'⟩ := r
      simp only [hn] at h1 ⊢
      cases hr : nextTokens a lx' with
      | error e => simp [hr] at h1
      | ok r2 =>
        obtain ⟨ts, lx''⟩ := r2
        simp only [hr] at h1
        injection h1 with h1
        injection h1 with ha hb
        subst ha
        subst hb
        rw [ih lx' ts hr]
        rfl

theorem nextTokens_le (a b : Nat) (lx lx2 : Lexer) (ts : List Token)
    (h : nextTokens (a + b) lx = Except.ok (ts, lx2)) :
    ∃ ts1 lx1, nextTokens a lx = Except.ok (ts1, lx1) := by
  induction a generalizing lx lx2 ts with
  | zero => exact ⟨[], lx, rfl⟩
  | succ a ih =>
    have hab : a + 1 + b = (a + b) + 1 := by omega
    rw [hab, nextTokens] at h
    rw [nextTokens]
    cases hn : NextToken lx with
    | error e => simp [hn] at h
    | ok r =>
      obtain ⟨t, lx'⟩ := r
      simp only [hn] at h ⊢
      cases hr : nextTokens (a + b) lx' with
      | error e => simp [hr] at h
      | ok r2 =>
        obtain ⟨ts', lx''⟩ := r2
        obtain ⟨ts1, lx1, h1⟩ := ih lx' lx'' ts' hr
        rw [h1]
        exact ⟨_, _, rfl⟩

theorem Inv_nextTokens (input : List Char) (n : Nat) (hist ts : List Token) (lx lx' : Lexer)
    (hinv : Inv input hist lx) (h : nextTokens n lx = Except.ok (ts, lx')) :
    Inv input (hist ++ ts) lx' := by
  induction n generalizing hist lx ts with
  | zero =>
    simp only [nextTokens] at h
    injection h with h
    injection h with ha hb
    subst ha
    subst hb
    simpa using hinv
  | succ n ih =>
    rw [nextTokens] at h
    cases hn : NextToken lx with
    | error e => simp [hn] at h
    | ok r =>
      obtain ⟨t, lx1⟩ := r
      simp only [hn] at h
      cases hr : nextTokens n lx1 with
      | error e => simp [hr] at h
      | ok r2 =>
        obtain ⟨ts', lx2⟩ := r2
        simp only [hr] at h
        injection h with h
        injection h with ha hb
        subst ha
        subst hb
        have := ih (hist ++ [t]) ts' lx1 (Inv_step _ _ _ _ _ hinv hn).1 hr
        simpa using this

/-- What `emitted n input = ok ts` says: the constructor and `n` calls of
`NextToken` succeed, and the invariant holds for the tokens and the last
lexer. -/
theorem emitted_ok (input : List Char) (n : Nat) (ts : List Token)
    (h : emitted n input = Except.ok ts) :
    ∃ lx0 ts' lx, Lexer.new input = Except.ok lx0 ∧
      nextTokens n lx0 = Except.ok (ts', lx) ∧ ts = CurrentToken lx0 :: ts' ∧
      Inv input ts lx := by
  unfold emitted at h
  cases h0 : Lexer.new input with
  | error e => simp [h0] at h
  | ok lx0 =>
    simp only [h0] at h
    cases h1 : nextTokens n lx0 with
    | error e => simp [h1] at h
    | ok r =>
      obtain ⟨ts', lx⟩ := r
      simp only [h1] at h
      injection h with h
      subst h
      exact ⟨lx0, ts', lx, rfl, h1, rfl, Inv_nextTokens _ _ _ _ _ _ (Inv_new _ _ h0) h1⟩

/-- The two forms of the emitted tokens: before `Eof` they are a prefix of the
buffers of some of the lines followed by `Dedent` tokens, at most as many as
levels are open; from `Eof` on they are the buffers of all lines with words,
one `Dedent` per open level, and `Eof` tokens. -/
theorem Inv_forms (input : List Char) (hist : List Token) (lx : Lexer)
    (hinv : Inv input hist lx) :
    (Token.Eof ∉ hist ∧ CurrentToken lx ≠ Token.Eof ∧
      ∃ lines gs C d m, LinesGroups 0 lines gs C ∧ d ≤ C ∧
        hist = (gs.flatten ++ List.replicate d Token.Dedent).take m) ∨
    (CurrentToken lx = Token.Eof ∧
      ∃ gs C k, LinesGroups 0 (contentLines ⟨input, false⟩) gs C ∧
        hist = gs.flatten ++ List.replicate C Token.Dedent ++ List.replicate (k + 1) Token.Eof) := by
  obtain ⟨hpos, hcur, linesDone, gs, k, hh, hk, hshape⟩ := hinv
  unfold CurrentToken
  rcases hshape with ⟨hnoeof, hpl, hcl⟩ | ⟨C, hpl, hcl, htok, hf⟩
  · left
    have hne : lx.bufer_.current_token ≠ Token.Eof := by
      intro he
      apply hnoeof
      rw [← he, hcur, List.getD_eq_getElem?_getD, List.getElem?_eq_getElem hpos]
      exact List.getElem_mem _
    have hk0 : k = 0 := by
      by_contra hk0
      exact hne (hk (Nat.pos_of_ne_zero hk0))
    subst hk0
    have hlg := parseLines_LinesGroups _ _ _ hpl
    simp only [] at hlg
    have hcounts := LinesGroups_counts _ _ _ _ hlg
    have hhist : hist = ((gs ++ [lx.bufer_.tokens_on_line]).flatten ++
        List.replicate 0 Token.Dedent).take
          (gs.flatten.length + (lx.bufer_.current_token_pos + 1)) := by
      rw [hh]
      simp only [List.replicate_zero, List.append_nil, List.flatten_append, List.flatten_cons,
        List.flatten_nil]
      rw [List.take_append]
    refine ⟨?_, hne, linesDone, gs ++ [lx.bufer_.tokens_on_line], _, 0,
      _, hlg, Nat.zero_le _, hhist⟩
    intro hm
    rw [hhist] at hm
    have := List.mem_of_mem_take hm
    simp only [List.replicate_zero, List.append_nil] at this
    exact List.count_eq_zero.mp hcounts.2.2.1 this
  · have hlg := parseLines_LinesGroups _ _ _ hpl
    simp only [] at hlg
    have hcounts := LinesGroups_counts _ _ _ _ hlg
    rw [htok] at hpos hcur hh
    simp only [List.length_append, List.length_replicate, List.length_singleton] at hpos
    by_cases hp : lx.bufer_.current_token_pos = C
    · right
      have hce : lx.bufer_.current_token = Token.Eof := by
        rw [hcur, hp, List.getD_eq_getElem?_getD, List.getElem?_append_right (by simp)]
        simp
      refine ⟨hce, gs, C, k, by rw [hcl]; exact hlg, ?_⟩
      rw [hh, hp, List.take_of_length_le (by simp), List.replicate_succ]
      simp
    · left
      have hlt : lx.bufer_.current_token_pos < C := by omega
      have hcd : lx.bufer_.current_token = Token.Dedent := by
        rw [hcur, List.getD_eq_getElem?_getD, List.getElem?_append_left (by simpa using hlt)]
        simp [List.getElem?_replicate, hlt]
      have hne : lx.bufer_.current_token ≠ Token.Eof := by
        rw [hcd]
        decide
      have hk0 : k = 0 := by
        by_contra hk0
        exact hne (hk (Nat.pos_of_ne_zero hk0))
      subst hk0
      have htk : (List.replicate C Token.Dedent ++ [Token.Eof]).take
          (lx.bufer_.current_token_pos + 1) =
          List.replicate (lx.bufer_.current_token_pos + 1) Token.Dedent := by
        rw [List.take_append_of_le_length (by simpa using hlt), List.take_replicate,
          Nat.min_eq_left (by omega)]
      have hhist : hist = (gs.flatten ++
          List.replicate (lx.bufer_.current_token_pos + 1) Token.Dedent).take
            (gs.flatten.length + (lx.bufer_.current_token_pos + 1)) := by
        rw [hh, htk, List.take_of_length_le (by simp)]
        simp
      refine ⟨?_, hne, linesDone, gs, C, lx.bufer_.current_token_pos + 1, _, hlg,
        by omega, hhist⟩
      intro hm
      rw [hh, htk] at hm
      simp only [List.replicate_zero, List.append_nil, List.mem_append] at hm
      rcases hm with hm | hm
      · exact List.count_eq_zero.mp hcounts.2.2.1 hm
      · have := List.eq_of_mem_replicate hm
        cases this

/-! ## C2: `Indent` and `Dedent` are balanced -/

theorem prefix_balance (lines : List (List Char)) (gs : List (List Token)) (C d : Nat)
    (h : LinesGroups 0 lines gs C) (hd : d ≤ C) (j : Nat) :
    ((gs.flatten ++ List.replicate d Token.Dedent).take j).count Token.Dedent ≤
      ((gs.flatten ++ List.replicate d Token.Dedent).take j).count Token.Indent := by
  obtain ⟨h1, _, _, h4, _⟩ := LinesGroups_counts _ _ _ _ h
  rw [List.take_append_eq_append_take, List.count_append, List.count_append]
  by_cases hj : j ≤ gs.flatten.length
  · have h0 : j - gs.flatten.length = 0 := by omega
    have := h4 j
    rw [h0]
    simp only [List.take_zero, List.count_nil, Nat.add_zero]
    omega
  · rw [List.take_of_length_le (by omega : gs.flatten.length ≤ j)]
    have h5 := (List.take_sublist (j - gs.flatten.length)
      (List.replicate d Token.Dedent)).count_le Token.Dedent
    rw [List.count_replicate_self] at h5
    omega

/-- C2. Let the constructor and `n` calls of `NextToken` succeed on an input,
and let `ts` be the emitted tokens. In every prefix of `ts` the `Dedent`
tokens are at most as many as the `Indent` tokens. Before every `Eof` of `ts`
the two counts are equal, and the tokens before that `Eof` are: a part `p`
that is empty or ends with `Newline`, then the `d` `Dedent` tokens that `p`
leaves open, then only `Eof` tokens. -/
theorem C2_indent_dedent_balanced (input : List Char) (n : Nat) (ts : List Token)
    (h : emitted n input = Except.ok ts) :
    (∀ j, (ts.take j).count Token.Dedent ≤ (ts.take j).count Token.Indent) ∧
    (∀ i, ts[i]? = some Token.Eof →
      (ts.take i).count Token.Indent = (ts.take i).count Token.Dedent ∧
      ∃ p d e, ts.take i = p ++ List.replicate d Token.Dedent ++ List.replicate e Token.Eof ∧
        (p = [] ∨ p.getLast? = some Token.Newline) ∧
        p.count Token.Indent = p.count Token.Dedent + d) := by
  obtain ⟨lx0, ts', lx, _, _, _, hinv⟩ := emitted_ok _ _ _ h
  rcases Inv_forms _ _ _ hinv with ⟨hno, _, lines, gs, C, d, m, hlg, hd, hts⟩ |
    ⟨_, gs, C, k, hlg, hts⟩
  · constructor
    · intro j
      rw [hts, List.take_take]
      exact prefix_balance _ _ _ _ hlg hd _
    · intro i hi
      exact absurd (List.getElem?_mem hi) hno
  · obtain ⟨h1, _, h3, _, h5⟩ := LinesGroups_counts _ _ _ _ hlg
    constructor
    · intro j
      rw [hts, List.take_append_eq_append_take, List.count_append, List.count_append]
      have hb := prefix_balance _ _ _ _ hlg (Nat.le_refl C) j
      have e1 := (List.take_sublist (j - (gs.flatten ++ List.replicate C Token.Dedent).length)
        (List.replicate (k + 1) Token.Eof)).count_le Token.Dedent
      rw [List.count_replicate] at e1
      simp only [beq_iff_eq, reduceCtorEq, if_false] at e1
      omega
    · intro i hi
      have hlen : gs.flatten.length + C ≤ i := by
        by_contra hlt
        have hlt : i < (gs.flatten ++ List.replicate C Token.Dedent).length := by
          simp only [List.length_append, List.length_replicate]
          omega
        rw [hts, List.getElem?_append_left hlt] at hi
        have hm := List.getElem?_mem hi
        rw [List.mem_append] at hm
        rcases hm with hm | hm
        · exact List.count_eq_zero.mp h3 hm
        · have := List.eq_of_mem_replicate hm
          cases this
      have htake : ts.take i = gs.flatten ++ List.replicate C Token.Dedent ++
          List.replicate (min (i - (gs.flatten.length + C)) (k + 1)) Token.Eof := by
        rw [hts, List.take_append_eq_append_take,
          List.take_of_length_le (by simp only [List.length_append, List.length_replicate]; omega)]
        simp only [List.length_append, List.length_replicate, List.take_replicate]
      rw [htake]
      refine ⟨?_, gs.flatten, C, _, rfl, h5, by omega⟩
      simp only [List.count_append, List.count_replicate, beq_iff_eq, reduceCtorEq, if_false,
        if_true, beq_self_eq_true]
      omega

/-- C2 at the input of two spaces and `a`, whose tokens are `Indent`, `Id a`,
`Newline`, `Dedent`, `Eof`, `Eof`. -/
theorem C2_indent_dedent_balanced_witness :
    (∀ j, (List.take j [Token.Indent, Token.Id "a".toList, Token.Newline, Token.Dedent,
        Token.Eof, Token.Eof]).count Token.Dedent ≤
      (List.take j [Token.Indent, Token.Id "a".toList, Token.Newline, Token.Dedent,
        Token.Eof, Token.Eof]).count Token.Indent) ∧
    (∀ i, [Token.Indent, Token.Id "a".toList, Token.Newline, Token.Dedent,
        Token.Eof, Token.Eof][i]? = some Token.Eof →
      (List.take i [Token.Indent, Token.Id "a".toList, Token.Newline, Token.Dedent,
        Token.Eof, Token.Eof]).count Token.Indent =
      (List.take i [Token.Indent, Token.Id "a".toList, Token.Newline, Token.Dedent,
        Token.Eof, Token.Eof]).count Token.Dedent ∧
      ∃ p d e, List.take i [Token.Indent, Token.Id "a".toList, Token.Newline, Token.Dedent,
          Token.Eof, Token.Eof] =
            p ++ List.replicate d Token.Dedent ++ List.replicate e Token.Eof ∧
        (p = [] ∨ p.getLast? = some Token.Newline) ∧
        p.count Token.Indent = p.count Token.Dedent + d) :=
  C2_indent_dedent_balanced "  a".toList 5
    [Token.Indent, Token.Id "a".toList, Token.Newline, Token.Dedent, Token.Eof, Token.Eof]
    (by decide)

/-! ## C6: one `Newline` for every line with words -/

theorem LinesGroups_newline (C C' : Nat) (lines : List (List Char)) (gs : List (List Token))
    (h : LinesGroups C lines gs C') :
    ∀ g ∈ gs, g.count Token.Newline = 1 ∧ g.getLast? = some Token.Newline := by
  induction lines generalizing C gs with
  | nil =>
    cases gs with
    | nil => simp
    | cons g gs => simp [LinesGroups] at h
  | cons l ls ih =>
    cases gs with
    | nil => simp [LinesGroups] at h
    | cons g gs =>
      obtain ⟨C1, content, hp, hg, hr⟩ := h
      have hc := pushWords_content _ _ hp
      obtain ⟨_, _, c3, _⟩ := group_counts C C1 content hc
      rw [← hg] at c3
      intro x hx
      rw [List.mem_cons] at hx
      rcases hx with hx | hx
      · subst hx
        refine ⟨c3, ?_⟩
        rw [hg]
        exact List.getLast?_concat _
      · exact ih C1 gs hr x hx

/-- C6. Let the constructor and `n` calls of `NextToken` succeed on an input
and let the emitted tokens `ts` hold `Eof`. Then the number of `Newline` tokens
of `ts` is the number of logical lines of the input that have at least one
word. The tokens are the buffers of these lines in order, each made of the
`Indent` or `Dedent` tokens of the line, the tokens of its words and one
`Newline`, which is its last token; after the last buffer come one `Dedent`
per open level and `Eof`. -/
theorem C6_one_newline_per_line (input : List Char) (n : Nat) (ts : List Token)
    (h : emitted n input = Except.ok ts) (heof : Token.Eof ∈ ts) :
    ts.count Token.Newline = (contentLines ⟨input, false⟩).length ∧
    ∃ gs C k, LinesGroups 0 (contentLines ⟨input, false⟩) gs C ∧
      ts = gs.flatten ++ List.replicate C Token.Dedent ++ List.replicate (k + 1) Token.Eof ∧
      ∀ g ∈ gs, g.count Token.Newline = 1 ∧ g.getLast? = some Token.Newline := by
  obtain ⟨lx0, ts', lx, _, _, _, hinv⟩ := emitted_ok _ _ _ h
  rcases Inv_forms _ _ _ hinv with ⟨hno, _⟩ | ⟨_, gs, C, k, hlg, hts⟩
  · exact absurd heof hno
  · obtain ⟨_, h2, _, _, _⟩ := LinesGroups_counts _ _ _ _ hlg
    refine ⟨?_, gs, C, k, hlg, hts, LinesGroups_newline _ _ _ _ hlg⟩
    rw [hts]
    simp only [List.count_append, List.count_replicate, beq_iff_eq, reduceCtorEq, if_false, h2,
      Nat.add_zero]

/-- C6 at the input of two spaces and `a`: one line with words, one `Newline`. -/
theorem C6_one_newline_per_line_witness :
    [Token.Indent, Token.Id "a".toList, Token.Newline, Token.Dedent,
        Token.Eof].count Token.Newline = (contentLines ⟨"  a".toList, false⟩).length ∧
    ∃ gs C k, LinesGroups 0 (contentLines ⟨"  a".toList, false⟩) gs C ∧
      [Token.Indent, Token.Id "a".toList, Token.Newline, Token.Dedent, Token.Eof] =
        gs.flatten ++ List.replicate C Token.Dedent ++ List.replicate (k + 1) Token.Eof ∧
      ∀ g ∈ gs, g.count Token.Newline = 1 ∧ g.getLast? = some Token.Newline :=
  C6_one_newline_per_line "  a".toList 4
    [Token.Indent, Token.Id "a".toList, Token.Newline, Token.Dedent, Token.Eof]
    (by decide) (by decide)

/-! ## C8: `Eof` is reached and is absorbing -/

theorem NextToken_in_buffer (lx : Lexer) (hne : lx.bufer_.current_token ≠ Token.Eof)
    (h : lx.bufer_.current_token_pos + 1 < lx.bufer_.tokens_on_line.length) :
    NextToken lx =
      Except.ok (lx.bufer_.tokens_on_line.getD (lx.bufer_.current_token_pos + 1) Token.Eof,
        ⟨lx.source_, ⟨lx.bufer_.tokens_on_line, lx.bufer_.current_token_pos + 1,
          lx.bufer_.current_indent,
          lx.bufer_.tokens_on_line.getD (lx.bufer_.current_token_pos + 1) Token.Eof⟩⟩) := by
  unfold NextToken
  rw [if_neg hne]
  simp only []
  rw [if_neg (by omega)]

theorem NextToken_next_line (lx : Lexer) (hne : lx.bufer_.current_token ≠ Token.Eof)
    (h : lx.bufer_.tokens_on_line.length ≤ lx.bufer_.current_token_pos + 1) :
    NextToken lx =
      match ParseNextLine ⟨lx.source_, ⟨lx.bufer_.tokens_on_line,
          lx.bufer_.current_token_pos + 1, lx.bufer_.current_indent,
          lx.bufer_.current_token⟩⟩ with
      | Except.error e => Except.error e
      | Except.ok lx2 => Except.ok (lx2.bufer_.current_token, lx2) := by
  unfold NextToken
  rw [if_neg hne]
  simp only []
  rw [if_pos (by omega)]

theorem Inv_last_not_eof (input : List Char) (hist : List Token) (lx : Lexer)
    (hinv : Inv input hist lx) (hne : lx.bufer_.current_token ≠ Token.Eof)
    (h : lx.bufer_.tokens_on_line.length ≤ lx.bufer_.current_token_pos + 1) :
    Token.Eof ∉ lx.bufer_.tokens_on_line := by
  obtain ⟨hpos, hcur, linesDone, gs, k, hh, hk, hshape⟩ := hinv
  rcases hshape with ⟨hnoeof, _, _⟩ | ⟨C, _, _, htok, _⟩
  · exact hnoeof
  · exfalso
    apply hne
    rw [hcur]
    have hp : lx.bufer_.current_token_pos = C := by
      rw [htok] at h hpos
      simp at h hpos
      omega
    rw [hp, htok, List.getD_eq_getElem?_getD, List.getElem?_append_right (by simp)]
    simp

theorem nextTokens_succ_of (n : Nat) (lx lx1 : Lexer) (t : Token)
    (h : NextToken lx = Except.ok (t, lx1))
    (hr : (∃ e, nextTokens n lx1 = Except.error e) ∨
      (∃ ts lx', nextTokens n lx1 = Except.ok (ts, lx') ∧ CurrentToken lx' = Token.Eof)) :
    (∃ e, nextTokens (n + 1) lx = Except.error e) ∨
      (∃ ts lx', nextTokens (n + 1) lx = Except.ok (ts, lx') ∧
        CurrentToken lx' = Token.Eof) := by
  rw [nextTokens, h]
  rcases hr with ⟨e, he⟩ | ⟨ts, lx', he, hc⟩
  · left
    exact ⟨e, by simp only [he]⟩
  · right
    exact ⟨t :: ts, lx', by simp only [he], hc⟩

/-- From a lexer that satisfies the invariant, finitely many calls of
`NextToken` end in an exception or reach `Eof`. -/
theorem reaches_eof_or_error (input : List Char) (m j : Nat) :
    ∀ (hist : List Token) (lx : Lexer), Inv input hist lx → lexMeasure lx ≤ m →
      lx.bufer_.tokens_on_line.length - lx.bufer_.current_token_pos ≤ j →
      ∃ n, (∃ e, nextTokens n lx = Except.error e) ∨
        (∃ ts lx', nextTokens n lx = Except.ok (ts, lx') ∧ CurrentToken lx' = Token.Eof) := by
  induction m generalizing j with
  | zero =>
    induction j with
    | zero =>
      intro hist lx hinv _ hj
      have := hinv.1
      omega
    | succ j ihj =>
      intro hist lx hinv hm hj
      by_cases he : lx.bufer_.current_token = Token.Eof
      · exact ⟨0, Or.inr ⟨[], lx, rfl, he⟩⟩
      · by_cases hb : lx.bufer_.current_token_pos + 1 < lx.bufer_.tokens_on_line.length
        · have hn := NextToken_in_buffer lx he hb
          have hinv2 := (Inv_step _ _ _ _ _ hinv hn).1
          obtain ⟨n, hr⟩ := ihj _ _ hinv2 (by simpa [lexMeasure] using hm)
            (by simp only []; omega)
          exact ⟨n + 1, nextTokens_succ_of _ _ _ _ hn hr⟩
        · have hno := Inv_last_not_eof _ _ _ hinv he (by omega)
          simp [lexMeasure, hno] at hm
  | succ m ihm =>
    induction j with
    | zero =>
      intro hist lx hinv _ hj
      have := hinv.1
      omega
    | succ j ihj =>
      intro hist lx hinv hm hj
      by_cases he : lx.bufer_.current_token = Token.Eof
      · exact ⟨0, Or.inr ⟨[], lx, rfl, he⟩⟩
      · by_cases hb : lx.bufer_.current_token_pos + 1 < lx.bufer_.tokens_on_line.length
        · have hn := NextToken_in_buffer lx he hb
          have hinv2 := (Inv_step _ _ _ _ _ hinv hn).1
          obtain ⟨n, hr⟩ := ihj _ _ hinv2 (by simpa [lexMeasure] using hm)
            (by simp only []; omega)
          exact ⟨n + 1, nextTokens_succ_of _ _ _ _ hn hr⟩
        · have hno := Inv_last_not_eof _ _ _ hinv he (by omega)
          have hn := NextToken_next_line lx he (by omega)
          cases hp : ParseNextLine ⟨lx.source_, ⟨lx.bufer_.tokens_on_line,
              lx.bufer_.current_token_pos + 1, lx.bufer_.current_indent,
              lx.bufer_.current_token⟩⟩ with
          | error e =>
            rw [hp] at hn
            exact ⟨1, Or.inl ⟨e, by simp [nextTokens, hn]⟩⟩
          | ok lx2 =>
            rw [hp] at hn
            simp only [] at hn
            have hinv2 := (Inv_step _ _ _ _ _ hinv hn).1
            obtain ⟨_, _, hcase⟩ := ParseNextLine_fresh _ _ hp
            simp only [] at hcase
            have hm2 : lexMeasure lx2 ≤ m := by
              have hml : lexMeasure lx = (contentLines lx.source_).length + 1 := by
                simp [lexMeasure, hno]
              rcases hcase with ⟨hc, ht, hf⟩ | ⟨line, lines, r, hc, hpr, ht, hi, hl⟩
              · have : lexMeasure lx2 = 0 := by
                  simp [lexMeasure, ht, contentLines_of_fail _ hf]
                omega
              · have hno2 := (parseLine_ok_facts _ _ _ _ hpr).2
                have : lexMeasure lx2 = lines.length + 1 := by
                  simp [lexMeasure, ht, hno2, hl]
                rw [hc] at hml
                simp only [List.length_cons] at hml
                omega
            obtain ⟨n, hr⟩ := ihm _ _ _ hinv2 hm2 (Nat.le_refl _)
            exact ⟨n + 1, nextTokens_succ_of _ _ _ _ hn hr⟩

/-- C8. On an input that lexes without error, some number `n` of calls of
`NextToken` after the constructor leaves the lexer with the current token
`Eof`. For every lexer whose current token is `Eof`, `NextToken` returns `Eof`
and the same lexer, and so does every number of further calls. -/
theorem C8_eof_reached_and_absorbing (input : List Char) (h : LexesWithoutError input) :
    (∃ n lx0 ts lx, Lexer.new input = Except.ok lx0 ∧
      nextTokens n lx0 = Except.ok (ts, lx) ∧ CurrentToken lx = Token.Eof) ∧
    (∀ lx : Lexer, CurrentToken lx = Token.Eof →
      NextToken lx = Except.ok (Token.Eof, lx) ∧
      ∀ m, nextTokens m lx = Except.ok (List.replicate m Token.Eof, lx)) := by
  refine ⟨?_, fun lx hlx => ⟨NextToken_of_eof lx hlx, fun m => nextTokens_of_eof m lx hlx⟩⟩
  obtain ⟨ts0, h0⟩ := h 0
  obtain ⟨lx0, _, _, hnew, _, _, _⟩ := emitted_ok _ _ _ h0
  obtain ⟨n, hr⟩ := reaches_eof_or_error input (lexMeasure lx0) _ _ lx0 (Inv_new _ _ hnew)
    (Nat.le_refl _) (Nat.le_refl _)
  rcases hr with ⟨e, he⟩ | ⟨ts, lx, hok, hc⟩
  · exfalso
    obtain ⟨tsn, hn⟩ := h n
    unfold emitted at hn
    simp [hnew, he] at hn
  · exact ⟨n, lx0, ts, lx, hnew, hok, hc⟩

/-- An input whose emitted tokens reach `Eof` lexes without error. -/
theorem lexes_of_eof (input : List Char) (n : Nat) (ts : List Token)
    (h : emitted n input = Except.ok ts) (heof : Token.Eof ∈ ts) :
    LexesWithoutError input := by
  obtain ⟨lx0, ts', lx, hnew, hrun, _, hinv⟩ := emitted_ok _ _ _ h
  have hcur : CurrentToken lx = Token.Eof := by
    rcases Inv_forms _ _ _ hinv with ⟨hno, _⟩ | ⟨hc, _⟩
    · exact absurd heof hno
    · exact hc
  intro m
  unfold emitted
  rw [hnew]
  by_cases hm : m ≤ n
  · have hn : n = m + (n - m) := by omega
    rw [hn] at hrun
    obtain ⟨ts1, lx1, h1⟩ := nextTokens_le _ _ _ _ _ hrun
    exact ⟨CurrentToken lx0 :: ts1, by simp only [h1]⟩
  · have hn : m = n + (m - n) := by omega
    have h2 := nextTokens_add n (m - n) lx0 lx lx ts' _ hrun (nextTokens_of_eof _ lx hcur)
    rw [← hn] at h2
    exact ⟨CurrentToken lx0 :: (ts' ++ List.replicate (m - n) Token.Eof), by simp only [h2]⟩

/-- C8 at the input of two spaces and `a`, which lexes without error. -/
theorem C8_eof_reached_and_absorbing_witness :
    (∃ n lx0 ts lx, Lexer.new "  a".toList = Except.ok lx0 ∧
      nextTokens n lx0 = Except.ok (ts, lx) ∧ CurrentToken lx = Token.Eof) ∧
    (∀ lx : Lexer, CurrentToken lx = Token.Eof →
      NextToken lx = Except.ok (Token.Eof, lx) ∧
      ∀ m, nextTokens m lx = Except.ok (List.replicate m Token.Eof, lx)) :=
  C8_eof_reached_and_absorbing "  a".toList
    (lexes_of_eof "  a".toList 4
      [Token.Indent, Token.Id "a".toList, Token.Newline, Token.Dedent, Token.Eof]
      (by decide) (by decide))

/-! ## The execution of the nodes, one equation per node -/

theorem Execute_Const (fuel : Nat) (value : ObjectHolder Statement)
    (closure : Closure Statement) (context : World Statement) :
    Execute (fuel + 1) (Statement.Const value) closure context =
      ⟨Outcome.value value, closure, context⟩ := rfl

theorem Execute_Not (fuel : Nat) (arg_ : Statement) (closure : Closure Statement)
    (context : World Statement) :
    Execute (fuel + 1) (Statement.Not arg_) closure context =
      match Execute fuel arg_ closure context with
      | ⟨Outcome.value v, closure, context⟩ =>
        ⟨Outcome.value (ObjectHolder.Bool (if IsTrue v then false else true)), closure, context⟩
      | r => r := rfl

theorem Execute_Or (fuel : Nat) (lhs_ rhs_ : Statement) (closure : Closure Statement)
    (context : World Statement) :
    Execute (fuel + 1) (Statement.Or lhs_ rhs_) closure context =
      match Execute fuel lhs_ closure context with
      | ⟨Outcome.value lhs_obj_holder, closure, context⟩ =>
        if !IsTrue lhs_obj_holder then
          match Execute fuel rhs_ closure context with
          | ⟨Outcome.value rhs_obj_holder, closure, context⟩ =>
            ⟨Outcome.value (ObjectHolder.Bool (if IsTrue rhs_obj_holder then true else false)),
              closure, context⟩
          | r => r
        else ⟨Outcome.value (ObjectHolder.Bool true), closure, context⟩
      | r => r := rfl

theorem Execute_And (fuel : Nat) (lhs_ rhs_ : Statement) (closure : Closure Statement)
    (context : World Statement) :
    Execute (fuel + 1) (Statement.And lhs_ rhs_) closure context =
      match Execute fuel lhs_ closure context with
      | ⟨Outcome.value lhs_obj_holder, closure, context⟩ =>
        if IsTrue lhs_obj_holder then
          match Execute fuel rhs_ closure context with
          | ⟨Outcome.value rhs_obj_holder, closure, context⟩ =>
            ⟨Outcome.value (ObjectHolder.Bool (if IsTrue rhs_obj_holder then true else false)),
              closure, context⟩
          | r => r
        else ⟨Outcome.value (ObjectHolder.Bool false), closure, context⟩
      | r => r := rfl

theorem Execute_Return (fuel : Nat) (statement_ : Statement) (closure : Closure Statement)
    (context : World Statement) :
    Execute (fuel + 1) (Statement.Return statement_) closure context =
      match Execute fuel statement_ closure context with
      | ⟨Outcome.value result, closure, context⟩ =>
        if hasObject result then ⟨Outcome.thrown result, closure, context⟩
        else ⟨Outcome.value ObjectHolder.None, closure, context⟩
      | r => r := rfl

theorem Execute_MethodBody (fuel : Nat) (arg_ : Statement) (closure : Closure Statement)
    (context : World Statement) :
    Execute (fuel + 1) (Statement.MethodBody arg_) closure context =
      match Execute fuel arg_ closure context with
      | ⟨Outcome.thrown e, closure, context⟩ => ⟨Outcome.value e, closure, context⟩
      | r => r := rfl

theorem Execute_Compound (fuel : Nat) (argv_ : List Statement) (closure : Closure Statement)
    (context : World Statement) :
    Execute (fuel + 1) (Statement.Compound argv_) closure context =
      execCompound (Execute fuel) argv_ closure context := rfl

theorem Execute_IfElse (fuel : Nat) (condition_ if_body_ : Statement)
    (else_body_ : Option Statement) (closure : Closure Statement) (context : World Statement) :
    Execute (fuel + 1) (Statement.IfElse condition_ if_body_ else_body_) closure context =
      match Execute fuel condition_ closure context with
      | ⟨Outcome.value c, closure, context⟩ =>
        if IsTrue c then Execute fuel if_body_ closure context
        else
          match else_body_ with
          | some else_body => Execute fuel else_body closure context
          | none => ⟨Outcome.value ObjectHolder.None, closure, context⟩
      | r => r := rfl

theorem Execute_Add (fuel : Nat) (lhs_ rhs_ : Statement) (closure : Closure Statement)
    (context : World Statement) :
    Execute (fuel + 1) (Statement.Add lhs_ rhs_) closure context =
      match Execute fuel lhs_ closure context with
      | ⟨Outcome.value lhs_obj_holder, closure, context⟩ =>
        match Execute fuel rhs_ closure context with
        | ⟨Outcome.value rhs_obj_holder, closure, context⟩ =>
          match addValues (Execute fuel) lhs_obj_holder rhs_obj_holder context with
          | (o, context) => ⟨o, closure, context⟩
        | r => r
      | r => r := rfl

theorem Execute_Sub (fuel : Nat) (lhs_ rhs_ : Statement) (closure : Closure Statement)
    (context : World Statement) :
    Execute (fuel + 1) (Statement.Sub lhs_ rhs_) closure context =
      match Execute fuel lhs_ closure context with
      | ⟨Outcome.value lhs_obj_holder, closure, context⟩ =>
        match Execute fuel rhs_ closure context with
        | ⟨Outcome.value rhs_obj_holder, closure, context⟩ =>
          ⟨subValues lhs_obj_holder rhs_obj_holder, closure, context⟩
        | r => r
      | r => r := rfl

theorem Execute_Mult (fuel : Nat) (lhs_ rhs_ : Statement) (closure : Closure Statement)
    (context : World Statement) :
    Execute (fuel + 1) (Statement.Mult lhs_ rhs_) closure context =
      match Execute fuel lhs_ closure context with
      | ⟨Outcome.value lhs_obj_holder, closure, context⟩ =>
        match Execute fuel rhs_ closure context with
        | ⟨Outcome.value rhs_obj_holder, closure, context⟩ =>
          ⟨multValues lhs_obj_holder rhs_obj_holder, closure, context⟩
        | r => r
      | r => r := rfl

theorem Execute_Div (fuel : Nat) (lhs_ rhs_ : Statement) (closure : Closure Statement)
    (context : World Statement) :
    Execute (fuel + 1) (Statement.Div lhs_ rhs_) closure context =
      match Execute fuel lhs_ closure context with
      | ⟨Outcome.value lhs_obj_holder, closure, context⟩ =>
        match Execute fuel rhs_ closure context with
        | ⟨Outcome.value rhs_obj_holder, closure, context⟩ =>
          ⟨divValues lhs_obj_holder rhs_obj_holder, closure, context⟩
        | r => r
      | r => r := rfl

theorem Execute_NewInstance (fuel : Nat) (instance_holder_ : Nat) (args_ : List Statement)
    (closure : Closure Statement) (context : World Statement) :
    Execute (fuel + 1) (Statement.NewInstance instance_holder_ args_) closure context =
      if (context.heap instance_holder_).HasMethod "__init__" args_.length then
        match execArgs (Execute fuel) args_ closure context with
        | (Step.done argv, closure, context) =>
          match ClassInstance.Call (Execute fuel) instance_holder_ "__init__" argv context with
          | (Outcome.value _, context) =>
            ⟨Outcome.value (ObjectHolder.Instance instance_holder_), closure, context⟩
          | (o, context) => ⟨o, closure, context⟩
        | (Step.stopped o, closure, context) => ⟨o, closure, context⟩
      else ⟨Outcome.value (ObjectHolder.Instance instance_holder_), closure, context⟩ := rfl

/-! ## C18: `IsTrue` -/

/-- C18. `IsTrue` is false for the empty handle, is `value != 0` for a
`Number`, is `length > 0` for a `String`, is the payload for a `Bool`, and is
false for every `Class` and for every `ClassInstance`, whatever the class of
the instance defines: the state is not an argument of `IsTrue`. -/
theorem C18_is_true_table {β : Type} :
    IsTrue (ObjectHolder.None : ObjectHolder β) = false ∧
    (∀ value : Int, IsTrue (ObjectHolder.Number value : ObjectHolder β) = decide (value ≠ 0)) ∧
    (∀ value : String,
      IsTrue (ObjectHolder.String value : ObjectHolder β) = decide (value.length > 0)) ∧
    (∀ value : Bool, IsTrue (ObjectHolder.Bool value : ObjectHolder β) = value) ∧
    (∀ cls : Class β, IsTrue (ObjectHolder.Class cls) = false) ∧
    (∀ address : Nat, IsTrue (ObjectHolder.Instance address : ObjectHolder β) = false) := by
  refine ⟨rfl, ?_, ?_, ?_, fun _ => rfl, fun _ => rfl⟩
  · intro value
    by_cases h : value = 0 <;> simp [IsTrue, hasObject, asClass, asInstance, asNumber, h]
  · intro value
    by_cases h : value.length = 0
    · simp [IsTrue, hasObject, asClass, asInstance, asNumber, asString, h]
    · simp [IsTrue, hasObject, asClass, asInstance, asNumber, asString, h]
      omega
  · intro value
    simp [IsTrue, hasObject, asClass, asInstance, asNumber, asString, asBool]

/-! ## C19: `Not` -/

/-- C19. For every value `v` (the empty handle, `Class` and `ClassInstance`
values included): when the operand of a `Not` node evaluates to `v`, the node
yields the `Bool` with payload `!IsTrue v`, in the closure and the state that
the operand left, and `IsTrue` of this `Bool` is `!IsTrue v`. -/
theorem C19_not_negates_truth (fuel : Nat) (arg_ : Statement)
    (closure closure1 : Closure Statement) (context context1 : World Statement)
    (v : ObjectHolder Statement)
    (h : Execute fuel arg_ closure context = ⟨Outcome.value v, closure1, context1⟩) :
    Execute (fuel + 1) (Statement.Not arg_) closure context =
      ⟨Outcome.value (ObjectHolder.Bool (!IsTrue v)), closure1, context1⟩ ∧
    IsTrue (ObjectHolder.Bool (!IsTrue v) : ObjectHolder Statement) = !IsTrue v ∧
    IsTrue v = !IsTrue (ObjectHolder.Bool (!IsTrue v) : ObjectHolder Statement) := by
  have hb : ∀ b : Bool, IsTrue (ObjectHolder.Bool b : ObjectHolder Statement) = b := by
    intro b
    simp [IsTrue, hasObject, asClass, asInstance, asNumber, asString, asBool]
  refine ⟨?_, hb _, ?_⟩
  · rw [Execute_Not, h]
    dsimp only
    cases IsTrue v <;> rfl
  · rw [hb]
    simp

/-- C19 at the empty handle, at an instance and at the number 3. -/
theorem C19_not_negates_truth_witness :
    Execute 2 (Statement.Not (Statement.Const ObjectHolder.None)) [] emptyWorld =
      ⟨Outcome.value (ObjectHolder.Bool true), [], emptyWorld⟩ ∧
    Execute 2 (Statement.Not (Statement.Const (ObjectHolder.Instance 0))) [] emptyWorld =
      ⟨Outcome.value (ObjectHolder.Bool true), [], emptyWorld⟩ ∧
    Execute 2 (Statement.Not (Statement.Const (ObjectHolder.Number 3))) [] emptyWorld =
      ⟨Outcome.value (ObjectHolder.Bool false), [], emptyWorld⟩ :=
  ⟨(C19_not_negates_truth 1 (Statement.Const ObjectHolder.None) [] [] emptyWorld emptyWorld
      ObjectHolder.None rfl).1,
   (C19_not_negates_truth 1 (Statement.Const (ObjectHolder.Instance 0)) [] [] emptyWorld
      emptyWorld (ObjectHolder.Instance 0) rfl).1,
   (C19_not_negates_truth 1 (Statement.Const (ObjectHolder.Number 3)) [] [] emptyWorld
      emptyWorld (ObjectHolder.Number 3) rfl).1⟩

/-! ## C17: `Or` and `And` -/

theorem IsTrue_Bool {β : Type} (b : Bool) : IsTrue (ObjectHolder.Bool b : ObjectHolder β) = b := by
  simp [IsTrue, hasObject, asClass, asInstance, asNumber, asString, asBool]

/-- C17. Let the left operand evaluate to `l` and leave the closure `closure1`
and the state `context1`. When `l` is truthy, `Or` yields `Bool(true)` and
leaves `closure1` and `context1`, whatever the right operand is: the right
operand is not evaluated. When `l` is not truthy and the right operand
evaluates to `r`, `Or` yields `Bool(IsTrue(r))`. When `l` is not truthy, `And`
yields `Bool(false)` and leaves `closure1` and `context1`, whatever the right
operand is. When `l` is truthy and the right operand evaluates to `r`, `And`
yields `Bool(IsTrue(r))`. The result is a `Bool` in every case. -/
theorem C17_or_and_short_circuit (fuel : Nat) (lhs_ rhs_ : Statement)
    (closure closure1 : Closure Statement) (context context1 : World Statement)
    (l : ObjectHolder Statement)
    (hl : Execute fuel lhs_ closure context = ⟨Outcome.value l, closure1, context1⟩) :
    (IsTrue l = true →
      Execute (fuel + 1) (Statement.Or lhs_ rhs_) closure context =
        ⟨Outcome.value (ObjectHolder.Bool true), closure1, context1⟩) ∧
    (IsTrue l = false → ∀ r closure2 context2,
      Execute fuel rhs_ closure1 context1 = ⟨Outcome.value r, closure2, context2⟩ →
      Execute (fuel + 1) (Statement.Or lhs_ rhs_) closure context =
        ⟨Outcome.value (ObjectHolder.Bool (IsTrue r)), closure2, context2⟩) ∧
    (IsTrue l = false →
      Execute (fuel + 1) (Statement.And lhs_ rhs_) closure context =
        ⟨Outcome.value (ObjectHolder.Bool false), closure1, context1⟩) ∧
    (IsTrue l = true → ∀ r closure2 context2,
      Execute fuel rhs_ closure1 context1 = ⟨Outcome.value r, closure2, context2⟩ →
      Execute (fuel + 1) (Statement.And lhs_ rhs_) closure context =
        ⟨Outcome.value (ObjectHolder.Bool (IsTrue r)), closure2, context2⟩) := by
  refine ⟨?_, ?_, ?_, ?_⟩
  · intro ht
    rw [Execute_Or, hl]
    simp [ht]
  · intro hf r closure2 context2 hr
    rw [Execute_Or, hl]
    simp only [hf, hr]
    cases IsTrue r <;> rfl
  · intro hf
    rw [Execute_And, hl]
    simp [hf]
  · intro ht r closure2 context2 hr
    rw [Execute_And, hl]
    simp only [ht, hr]
    cases IsTrue r <;> rfl

/-- C17 at `1 or (print 'x')`, at `None and (x = 1)` and at `None or 7`: the
first leaves the output empty, where the `print` alone writes a line; the
second leaves the closure empty; the last yields `Bool(true)`, not the
number 7. -/
theorem C17_or_and_short_circuit_witness :
    Execute 2 (Statement.Or (Statement.Const (ObjectHolder.Number 1))
        (Statement.Print [Statement.Const (ObjectHolder.String "x")])) [] emptyWorld =
      ⟨Outcome.value (ObjectHolder.Bool true), [], emptyWorld⟩ ∧
    (Execute 2 (Statement.Print [Statement.Const (ObjectHolder.String "x")]) []
        emptyWorld).world.output = "x\n".toList ∧
    Execute 2 (Statement.And (Statement.Const ObjectHolder.None)
        (Statement.Assignment "x" (Statement.Const (ObjectHolder.Number 1)))) [] emptyWorld =
      ⟨Outcome.value (ObjectHolder.Bool false), [], emptyWorld⟩ ∧
    Execute 2 (Statement.Or (Statement.Const ObjectHolder.None)
        (Statement.Const (ObjectHolder.Number 7))) [] emptyWorld =
      ⟨Outcome.value (ObjectHolder.Bool true), [], emptyWorld⟩ :=
  ⟨(C17_or_and_short_circuit 1 (Statement.Const (ObjectHolder.Number 1))
      (Statement.Print [Statement.Const (ObjectHolder.String "x")]) [] [] emptyWorld emptyWorld
      (ObjectHolder.Number 1) rfl).1 rfl,
   rfl,
   (C17_or_and_short_circuit 1 (Statement.Const ObjectHolder.None)
      (Statement.Assignment "x" (Statement.Const (ObjectHolder.Number 1))) [] [] emptyWorld
      emptyWorld ObjectHolder.None rfl).2.2.1 rfl,
   (C17_or_and_short_circuit 1 (Statement.Const ObjectHolder.None)
      (Statement.Const (ObjectHolder.Number 7)) [] [] emptyWorld emptyWorld
      ObjectHolder.None rfl).2.1 rfl (ObjectHolder.Number 7) [] emptyWorld rfl⟩

/-! ## C16: `Sub`, `Mult` and `Div` -/

/-- C16, amended. Let the operands evaluate to `l` and then to `r`. `Div` of
the Numbers `a` and `b` with `b != 0` and the quotient a value of `int` yields
the Number `a / b` truncated toward zero (`Int.tdiv`); `Div` ends with the
runtime error `unable to div` when `r` is the Number 0 and when `l` or `r` is
not a Number. `Sub` and `Mult` of the Numbers `a` and `b` yield the Number
`a - b` and `a * b` when it is a value of `int`, and end with the runtime error
`unable to sub` and `unable to mult` when `l` or `r` is not a Number. The
closure and the state are the ones that the operands left. -/
theorem C16_sub_mult_div (fuel : Nat) (lhs_ rhs_ : Statement)
    (closure closure1 closure2 : Closure Statement)
    (context context1 context2 : World Statement) (l r : ObjectHolder Statement)
    (hl : Execute fuel lhs_ closure context = ⟨Outcome.value l, closure1, context1⟩)
    (hr : Execute fuel rhs_ closure1 context1 = ⟨Outcome.value r, closure2, context2⟩) :
    (∀ a b : Int, l = ObjectHolder.Number a → r = ObjectHolder.Number b → b ≠ 0 →
      inInt32 (Int.tdiv a b) = true →
      Execute (fuel + 1) (Statement.Div lhs_ rhs_) closure context =
        ⟨Outcome.value (ObjectHolder.Number (Int.tdiv a b)), closure2, context2⟩) ∧
    (∀ a : Int, l = ObjectHolder.Number a → r = ObjectHolder.Number 0 →
      Execute (fuel + 1) (Statement.Div lhs_ rhs_) closure context =
        ⟨Outcome.runtime_error "unable to div", closure2, context2⟩) ∧
    (asNumber l = none ∨ asNumber r = none →
      Execute (fuel + 1) (Statement.Div lhs_ rhs_) closure context =
        ⟨Outcome.runtime_error "unable to div", closure2, context2⟩) ∧
    (∀ a b : Int, l = ObjectHolder.Number a → r = ObjectHolder.Number b →
      inInt32 (a - b) = true →
      Execute (fuel + 1) (Statement.Sub lhs_ rhs_) closure context =
        ⟨Outcome.value (ObjectHolder.Number (a - b)), closure2, context2⟩) ∧
    (asNumber l = none ∨ asNumber r = none →
      Execute (fuel + 1) (Statement.Sub lhs_ rhs_) closure context =
        ⟨Outcome.runtime_error "unable to sub", closure2, context2⟩) ∧
    (∀ a b : Int, l = ObjectHolder.Number a → r = ObjectHolder.Number b →
      inInt32 (a * b) = true →
      Execute (fuel + 1) (Statement.Mult lhs_ rhs_) closure context =
        ⟨Outcome.value (ObjectHolder.Number (a * b)), closure2, context2⟩) ∧
    (asNumber l = none ∨ asNumber r = none →
      Execute (fuel + 1) (Statement.Mult lhs_ rhs_) closure context =
        ⟨Outcome.runtime_error "unable to mult", closure2, context2⟩) := by
  refine ⟨?_, ?_, ?_, ?_, ?_, ?_, ?_⟩
  · intro a b ha hb hb0 hq
    subst ha hb
    rw [Execute_Div, hl]
    simp only [hr]
    simp [divValues, asNumber, numberResult, hq, hb0]
  · intro a ha hb
    subst ha hb
    rw [Execute_Div, hl]
    simp only [hr]
    simp [divValues, asNumber]
  · intro h
    rw [Execute_Div, hl]
    simp only [hr]
    congr 1
    unfold divValues
    rcases h with h | h
    · rw [h]
    · rw [h]
      cases asNumber l <;> rfl
  · intro a b ha hb hq
    subst ha hb
    rw [Execute_Sub, hl]
    simp only [hr]
    simp [subValues, asNumber, numberResult, hq]
  · intro h
    rw [Execute_Sub, hl]
    simp only [hr]
    congr 1
    unfold subValues
    rcases h with h | h
    · rw [h]
    · rw [h]
      cases asNumber l <;> rfl
  · intro a b ha hb hq
    subst ha hb
    rw [Execute_Mult, hl]
    simp only [hr]
    simp [multValues, asNumber, numberResult, hq]
  · intro h
    rw [Execute_Mult, hl]
    simp only [hr]
    congr 1
    unfold multValues
    rcases h with h | h
    · rw [h]
    · rw [h]
      cases asNumber l <;> rfl

/-- C16 at `-7 / 2`, which is `-3`, at `7 / 0`, at `'a' - 1`, at `2 - 5` and at
`6 * 7`. -/
theorem C16_sub_mult_div_witness :
    Execute 2 (Statement.Div (Statement.Const (ObjectHolder.Number (-7)))
        (Statement.Const (ObjectHolder.Number 2))) [] emptyWorld =
      ⟨Outcome.value (ObjectHolder.Number (-3)), [], emptyWorld⟩ ∧
    Execute 2 (Statement.Div (Statement.Const (ObjectHolder.Number 7))
        (Statement.Const (ObjectHolder.Number 0))) [] emptyWorld =
      ⟨Outcome.runtime_error "unable to div", [], emptyWorld⟩ ∧
    Execute 2 (Statement.Sub (Statement.Const (ObjectHolder.String "a"))
        (Statement.Const (ObjectHolder.Number 1))) [] emptyWorld =
      ⟨Outcome.runtime_error "unable to sub", [], emptyWorld⟩ ∧
    Execute 2 (Statement.Sub (Statement.Const (ObjectHolder.Number 2))
        (Statement.Const (ObjectHolder.Number 5))) [] emptyWorld =
      ⟨Outcome.value (ObjectHolder.Number (-3)), [], emptyWorld⟩ ∧
    Execute 2 (Statement.Mult (Statement.Const (ObjectHolder.Number 6))
        (Statement.Const (ObjectHolder.Number 7))) [] emptyWorld =
      ⟨Outcome.value (ObjectHolder.Number 42), [], emptyWorld⟩ :=
  ⟨(C16_sub_mult_div 1 (Statement.Const (ObjectHolder.Number (-7)))
      (Statement.Const (ObjectHolder.Number 2)) [] [] [] emptyWorld emptyWorld emptyWorld
      (ObjectHolder.Number (-7)) (ObjectHolder.Number 2) rfl rfl).1 (-7) 2 rfl rfl
      (by decide) (by decide),
   (C16_sub_mult_div 1 (Statement.Const (ObjectHolder.Number 7))
      (Statement.Const (ObjectHolder.Number 0)) [] [] [] emptyWorld emptyWorld emptyWorld
      (ObjectHolder.Number 7) (ObjectHolder.Number 0) rfl rfl).2.1 7 rfl rfl,
   (C16_sub_mult_div 1 (Statement.Const (ObjectHolder.String "a"))
      (Statement.Const (ObjectHolder.Number 1)) [] [] [] emptyWorld emptyWorld emptyWorld
      (ObjectHolder.String "a") (ObjectHolder.Number 1) rfl rfl).2.2.2.2.1 (Or.inl rfl),
   (C16_sub_mult_div 1 (Statement.Const (ObjectHolder.Number 2))
      (Statement.Const (ObjectHolder.Number 5)) [] [] [] emptyWorld emptyWorld emptyWorld
      (ObjectHolder.Number 2) (ObjectHolder.Number 5) rfl rfl).2.2.2.1 2 5 rfl rfl
      (by decide),
   (C16_sub_mult_div 1 (Statement.Const (ObjectHolder.Number 6))
      (Statement.Const (ObjectHolder.Number 7)) [] [] [] emptyWorld emptyWorld emptyWorld
      (ObjectHolder.Number 6) (ObjectHolder.Number 7) rfl rfl).2.2.2.2.2.1 6 7 rfl rfl
      (by decide)⟩

/-- C16, counterexample. The difference of the Numbers 2147483647 and -1 and
the product of the Numbers 65536 and 65536 are not values of `int`: the
subtraction and the multiplication overflow, and no Number holding the
difference or the product is yielded. -/
theorem C16_counterexample_out_of_range :
    inInt32 (2147483647 - -1) = false ∧
    (Execute 2 (Statement.Sub (Statement.Const (ObjectHolder.Number 2147483647))
        (Statement.Const (ObjectHolder.Number (-1)))) [] emptyWorld).outcome =
      Outcome.undefined ∧
    inInt32 (65536 * 65536) = false ∧
    (Execute 2 (Statement.Mult (Statement.Const (ObjectHolder.Number 65536))
        (Statement.Const (ObjectHolder.Number 65536))) [] emptyWorld).outcome =
      Outcome.undefined :=
  ⟨by decide, rfl, by decide, rfl⟩

/-! ## C12: `Equal` -/

/-- C12. `Equal` gives true for two empty handles; for two Numbers, two
Strings or two Bools it gives whether the payloads are equal; the state is left
as it was. For two instances whose left operand has `__eq__` with one
parameter it gives the end of the call of `__eq__` on the left operand with the
right operand as the argument: the `Bool` payload of the result, in the state
that the call left. For every other combination it ends with the runtime error
`uncompatible types`, and the state is left as it was. -/
theorem C12_equal {β : Type} (exec : Exec β) (lhs rhs : ObjectHolder β) (context : World β) :
    Equal exec ObjectHolder.None ObjectHolder.None context = (Step.done true, context) ∧
    (∀ a b : Int,
      Equal exec (ObjectHolder.Number a) (ObjectHolder.Number b) context =
        (Step.done (decide (a = b)), context)) ∧
    (∀ a b : String,
      Equal exec (ObjectHolder.String a) (ObjectHolder.String b) context =
        (Step.done (decide (a = b)), context)) ∧
    (∀ a b : Bool,
      Equal exec (ObjectHolder.Bool a) (ObjectHolder.Bool b) context =
        (Step.done (decide (a = b)), context)) ∧
    (∀ a b : Nat, (context.heap a).HasMethod "__eq__" 1 = true →
      Equal exec (ObjectHolder.Instance a) (ObjectHolder.Instance b) context =
          boolOfCall (ClassInstance.Call exec a "__eq__" [ObjectHolder.Instance b] context) ∧
      ∀ (p : Bool) (context1 : World β),
        ClassInstance.Call exec a "__eq__" [ObjectHolder.Instance b] context =
          (Outcome.value (ObjectHolder.Bool p), context1) →
        Equal exec (ObjectHolder.Instance a) (ObjectHolder.Instance b) context =
          (Step.done p, context1)) ∧
    (¬(lhs = ObjectHolder.None ∧ rhs = ObjectHolder.None) →
      ¬(∃ a b, lhs = ObjectHolder.Number a ∧ rhs = ObjectHolder.Number b) →
      ¬(∃ a b, lhs = ObjectHolder.String a ∧ rhs = ObjectHolder.String b) →
      ¬(∃ a b, lhs = ObjectHolder.Bool a ∧ rhs = ObjectHolder.Bool b) →
      ¬(∃ a b, lhs = ObjectHolder.Instance a ∧ rhs = ObjectHolder.Instance b ∧
          (context.heap a).HasMethod "__eq__" 1 = true) →
      Equal exec lhs rhs context =
        (Step.stopped (Outcome.runtime_error "uncompatible types"), context)) := by
  refine ⟨rfl, ?_, ?_, ?_, ?_, ?_⟩
  · intro a b
    simp [Equal, hasObject, asString, asNumber, beq_eq_decide]
  · intro a b
    simp [Equal, hasObject, asString, beq_eq_decide]
  · intro a b
    simp [Equal, hasObject, asString, asNumber, asBool, beq_eq_decide]
  · intro a b h
    have hE : Equal exec (ObjectHolder.Instance a) (ObjectHolder.Instance b) context =
        boolOfCall (ClassInstance.Call exec a "__eq__" [ObjectHolder.Instance b] context) := by
      simp [Equal, hasObject, asString, asNumber, asBool, asInstance, h]
    refine ⟨hE, ?_⟩
    intro p context1 hc
    rw [hE, hc]
    rfl
  · intro h0 h1 h2 h3 h4
    cases lhs <;> cases rhs <;>
      simp [Equal, hasObject, asString, asNumber, asBool, asInstance] at h0 h1 h2 h3 h4 ⊢
    intro hh
    rw [hh] at h4
    cases h4

/-- C12 at the example state: the instance at address 0 has `__eq__` with one
parameter, which returns `False`; a Number against a String, the empty handle
against a Number and two `Class` values are errors. -/
theorem C12_equal_witness :
    (Equal (Execute 4) (ObjectHolder.Instance 0) (ObjectHolder.Instance 1) flipWorld).1 =
      Step.done false ∧
    Equal (Execute 4) (ObjectHolder.Number 1) (ObjectHolder.String "1") flipWorld =
      (Step.stopped (Outcome.runtime_error "uncompatible types"), flipWorld) ∧
    Equal (Execute 4) ObjectHolder.None (ObjectHolder.Number 0) flipWorld =
      (Step.stopped (Outcome.runtime_error "uncompatible types"), flipWorld) ∧
    Equal (Execute 4) (ObjectHolder.Class flipClass) (ObjectHolder.Class flipClass) flipWorld =
      (Step.stopped (Outcome.runtime_error "uncompatible types"), flipWorld) ∧
    Equal (Execute 4) (ObjectHolder.Instance 0) (ObjectHolder.Instance 1) emptyWorld =
      (Step.stopped (Outcome.runtime_error "uncompatible types"), emptyWorld) :=
  ⟨by
     rw [((C12_equal (Execute 4) ObjectHolder.None ObjectHolder.None flipWorld).2.2.2.2.1
       0 1 rfl).1]
     rfl,
   (C12_equal (Execute 4) (ObjectHolder.Number 1) (ObjectHolder.String "1")
      flipWorld).2.2.2.2.2 (by simp) (by simp) (by simp) (by simp) (by simp),
   (C12_equal (Execute 4) ObjectHolder.None (ObjectHolder.Number 0)
      flipWorld).2.2.2.2.2 (by simp) (by simp) (by simp) (by simp) (by simp),
   (C12_equal (Execute 4) (ObjectHolder.Class flipClass) (ObjectHolder.Class flipClass)
      flipWorld).2.2.2.2.2 (by simp) (by simp) (by simp) (by simp) (by simp),
   (C12_equal (Execute 4) (ObjectHolder.Instance 0) (ObjectHolder.Instance 1)
      emptyWorld).2.2.2.2.2 (by simp) (by simp) (by simp) (by simp)
      (by
        rintro ⟨a, b, ha, _, h⟩
        injection ha with ha
        subst ha
        exact absurd h (by decide))⟩

/-! ## C11: `Return` and `MethodBody` -/

theorem execCompound_append {β : Type} (exec : Exec β) (before rest : List β)
    (closure closure1 : Closure β) (context context1 : World β) (v : ObjectHolder β)
    (h : execCompound exec before closure context = ⟨Outcome.value v, closure1, context1⟩) :
    execCompound exec (before ++ rest) closure context =
      execCompound exec rest closure1 context1 := by
  induction before generalizing closure context with
  | nil =>
    simp only [execCompound] at h
    injection h with h1 h2 h3
    subst h2 h3
    rfl
  | cons s before ih =>
    simp only [List.cons_append, execCompound] at h ⊢
    rcases hs : exec s closure context with ⟨o, cl, w⟩
    rw [hs] at h
    cases o with
    | value x => exact ih cl w h
    | runtime_error e =>
      dsimp only at h
      injection h with h1
      cases h1
    | thrown e =>
      dsimp only at h
      injection h with h1
      cases h1
    | undefined =>
      dsimp only at h
      injection h with h1
      cases h1
    | fuel =>
      dsimp only at h
      injection h with h1
      cases h1

theorem ReturnReached_thrown (fuel : Nat) (s : Statement) (closure closure1 : Closure Statement)
    (context context1 : World Statement) (v : ObjectHolder Statement)
    (h : ReturnReached fuel s closure context v closure1 context1) :
    Execute fuel s closure context = ⟨Outcome.thrown v, closure1, context1⟩ := by
  induction h with
  | ret fuel statement_ closure closure1 context context1 v he hv =>
    rw [Execute_Return, he]
    simp [hv]
  | compound fuel before after s closure closure1 closure2 context context1 context2 v hb _ ih =>
    rw [Execute_Compound, execCompound_append _ _ _ _ _ _ _ _ hb]
    simp only [execCompound, ih]
  | ifBody fuel condition_ if_body_ else_body_ closure closure1 closure2 context context1
      context2 c v hc ht _ ih =>
    rw [Execute_IfElse, hc]
    simp only [ht, if_true, ih]
  | elseBody fuel condition_ if_body_ else_body closure closure1 closure2 context context1
      context2 c v hc hf _ ih =>
    rw [Execute_IfElse, hc]
    simp [hf, ih]

/-- C11. When the execution of the body of a method reaches, inside any
nesting of `Compound` and `IfElse` statements, a `Return` whose expression
evaluates to a non-empty handle `v`, `MethodBody::Execute` yields `v`, and the
closure and the state that it leaves are the ones that the expression of the
`Return` left: the statements that follow the `Return` (the list `after` of
every enclosing `Compound`, whatever it holds) change neither the closure nor
the output. -/
theorem C11_return_reaches_method_body (fuel : Nat) (arg_ : Statement)
    (closure closure1 : Closure Statement) (context context1 : World Statement)
    (v : ObjectHolder Statement)
    (h : ReturnReached fuel arg_ closure context v closure1 context1) :
    Execute (fuel + 1) (Statement.MethodBody arg_) closure context =
      ⟨Outcome.value v, closure1, context1⟩ := by
  rw [Execute_MethodBody, ReturnReached_thrown fuel arg_ closure closure1 context context1 v h]

/-- C11 at the body `if True: return 5`, and at a body where an assignment
and a `print` follow the `return`: `x = 1`, then `if x: return x` followed by
`x = 2`, then `print x`. The second body yields 1, leaves `x` with the value 1
and writes nothing. -/
theorem C11_return_reaches_method_body_witness :
    Execute 4 (Statement.MethodBody
        (Statement.IfElse (Statement.Const (ObjectHolder.Bool true))
          (Statement.Return (Statement.Const (ObjectHolder.Number 5))) none)) [] emptyWorld =
      ⟨Outcome.value (ObjectHolder.Number 5), [], emptyWorld⟩ ∧
    Execute 6 (Statement.MethodBody
        (Statement.Compound
          [Statement.Assignment "x" (Statement.Const (ObjectHolder.Number 1)),
           Statement.IfElse (Statement.VariableValue (VariableValue.ofName "x"))
             (Statement.Compound
               [Statement.Return (Statement.VariableValue (VariableValue.ofName "x")),
                Statement.Assignment "x" (Statement.Const (ObjectHolder.Number 2))])
             none,
           Statement.Print [Statement.VariableValue (VariableValue.ofName "x")]])) []
        emptyWorld =
      ⟨Outcome.value (ObjectHolder.Number 1), [("x", ObjectHolder.Number 1)], emptyWorld⟩ :=
  ⟨C11_return_reaches_method_body 3 _ [] [] emptyWorld emptyWorld (ObjectHolder.Number 5)
      (ReturnReached.ifBody 2 _ _ none [] [] [] emptyWorld emptyWorld emptyWorld
        (ObjectHolder.Bool true) (ObjectHolder.Number 5) rfl rfl
        (ReturnReached.ret 1 _ [] [] emptyWorld emptyWorld (ObjectHolder.Number 5) rfl rfl)),
   C11_return_reaches_method_body 5 _ [] [("x", ObjectHolder.Number 1)] emptyWorld emptyWorld
      (ObjectHolder.Number 1)
      (ReturnReached.compound 4
        [Statement.Assignment "x" (Statement.Const (ObjectHolder.Number 1))]
        [Statement.Print [Statement.VariableValue (VariableValue.ofName "x")]]
        _ [] [("x", ObjectHolder.Number 1)] [("x", ObjectHolder.Number 1)]
        emptyWorld emptyWorld emptyWorld (ObjectHolder.Number 1) rfl
        (ReturnReached.ifBody 3 _ _ none [("x", ObjectHolder.Number 1)]
          [("x", ObjectHolder.Number 1)] [("x", ObjectHolder.Number 1)]
          emptyWorld emptyWorld emptyWorld (ObjectHolder.Number 1) (ObjectHolder.Number 1)
          rfl rfl
          (ReturnReached.compound 2 []
            [Statement.Assignment "x" (Statement.Const (ObjectHolder.Number 2))]
            _ [("x", ObjectHolder.Number 1)] [("x", ObjectHolder.Number 1)]
            [("x", ObjectHolder.Number 1)] emptyWorld emptyWorld emptyWorld
            (ObjectHolder.Number 1) rfl
            (ReturnReached.ret 1 _ [("x", ObjectHolder.Number 1)]
              [("x", ObjectHolder.Number 1)] emptyWorld emptyWorld (ObjectHolder.Number 1)
              rfl rfl))))⟩

/-! ## C15: `Add` -/

/-- C15, amended. Let the operands evaluate to `l` and then to `r`. `Add` of
the Numbers `a` and `b` yields the Number `a + b` when it is a value of `int`;
`Add` of the Strings `a` and `b` yields the String `a ++ b`. When `l` is an
instance that has `__add__` with one parameter, `Add` ends as the call of
`__add__` on it with `r` as the argument ends, whatever `r` is. In every other
case `Add` ends with the runtime error `unable to add`. -/
theorem C15_add (fuel : Nat) (lhs_ rhs_ : Statement)
    (closure closure1 closure2 : Closure Statement)
    (context context1 context2 : World Statement) (l r : ObjectHolder Statement)
    (hl : Execute fuel lhs_ closure context = ⟨Outcome.value l, closure1, context1⟩)
    (hr : Execute fuel rhs_ closure1 context1 = ⟨Outcome.value r, closure2, context2⟩) :
    (∀ a b : Int, l = ObjectHolder.Number a → r = ObjectHolder.Number b →
      inInt32 (a + b) = true →
      Execute (fuel + 1) (Statement.Add lhs_ rhs_) closure context =
        ⟨Outcome.value (ObjectHolder.Number (a + b)), closure2, context2⟩) ∧
    (∀ a b : String, l = ObjectHolder.String a → r = ObjectHolder.String b →
      Execute (fuel + 1) (Statement.Add lhs_ rhs_) closure context =
        ⟨Outcome.value (ObjectHolder.String (a ++ b)), closure2, context2⟩) ∧
    (∀ a : Nat, l = ObjectHolder.Instance a →
      (context2.heap a).HasMethod "__add__" 1 = true →
      Execute (fuel + 1) (Statement.Add lhs_ rhs_) closure context =
        ⟨(ClassInstance.Call (Execute fuel) a "__add__" [r] context2).1, closure2,
          (ClassInstance.Call (Execute fuel) a "__add__" [r] context2).2⟩) ∧
    ((asNumber l = none ∨ asNumber r = none) → (asString l = none ∨ asString r = none) →
      (∀ a : Nat, l = ObjectHolder.Instance a →
        (context2.heap a).HasMethod "__add__" 1 = false) →
      Execute (fuel + 1) (Statement.Add lhs_ rhs_) closure context =
        ⟨Outcome.runtime_error "unable to add", closure2, context2⟩) := by
  refine ⟨?_, ?_, ?_, ?_⟩
  · intro a b ha hb hq
    subst ha hb
    rw [Execute_Add, hl]
    simp only [hr]
    simp [addValues, asNumber, numberResult, hq]
  · intro a b ha hb
    subst ha hb
    rw [Execute_Add, hl]
    simp only [hr]
    simp [addValues, asNumber, asString]
  · intro a ha hm
    subst ha
    rw [Execute_Add, hl]
    simp only [hr]
    simp [addValues, asNumber, asString, asInstance, hm]
  · intro hn hs hi
    rw [Execute_Add, hl]
    simp only [hr]
    cases l <;> cases r <;>
      simp [addValues, asNumber, asString, asInstance] at hn hs hi ⊢ <;>
      simp [hi]

/-- C15 at `2 + 3`, at `'ab' + 'c'`, at an instance of `Adder` plus an
instance, at `1 + 'a'`, at `None + None` and at an instance without `__add__`
plus a Number. -/
theorem C15_add_witness :
    Execute 2 (Statement.Add (Statement.Const (ObjectHolder.Number 2))
        (Statement.Const (ObjectHolder.Number 3))) [] emptyWorld =
      ⟨Outcome.value (ObjectHolder.Number 5), [], emptyWorld⟩ ∧
    Execute 2 (Statement.Add (Statement.Const (ObjectHolder.String "ab"))
        (Statement.Const (ObjectHolder.String "c"))) [] emptyWorld =
      ⟨Outcome.value (ObjectHolder.String "abc"), [], emptyWorld⟩ ∧
    (Execute 4 (Statement.Add (Statement.Const (ObjectHolder.Instance 0))
        (Statement.Const (ObjectHolder.Instance 1))) [] adderWorld).outcome =
      Outcome.value (ObjectHolder.Instance 1) ∧
    Execute 2 (Statement.Add (Statement.Const (ObjectHolder.Number 1))
        (Statement.Const (ObjectHolder.String "a"))) [] emptyWorld =
      ⟨Outcome.runtime_error "unable to add", [], emptyWorld⟩ ∧
    Execute 2 (Statement.Add (Statement.Const ObjectHolder.None)
        (Statement.Const ObjectHolder.None)) [] emptyWorld =
      ⟨Outcome.runtime_error "unable to add", [], emptyWorld⟩ ∧
    Execute 2 (Statement.Add (Statement.Const (ObjectHolder.Instance 0))
        (Statement.Const (ObjectHolder.Number 1))) [] emptyWorld =
      ⟨Outcome.runtime_error "unable to add", [], emptyWorld⟩ :=
  ⟨(C15_add 1 (Statement.Const (ObjectHolder.Number 2))
      (Statement.Const (ObjectHolder.Number 3)) [] [] [] emptyWorld emptyWorld emptyWorld
      (ObjectHolder.Number 2) (ObjectHolder.Number 3) rfl rfl).1 2 3 rfl rfl (by decide),
   (C15_add 1 (Statement.Const (ObjectHolder.String "ab"))
      (Statement.Const (ObjectHolder.String "c")) [] [] [] emptyWorld emptyWorld emptyWorld
      (ObjectHolder.String "ab") (ObjectHolder.String "c") rfl rfl).2.1 "ab" "c" rfl rfl,
   by
     rw [(C15_add 3 (Statement.Const (ObjectHolder.Instance 0))
       (Statement.Const (ObjectHolder.Instance 1)) [] [] [] adderWorld adderWorld adderWorld
       (ObjectHolder.Instance 0) (ObjectHolder.Instance 1) rfl rfl).2.2.1 0 rfl rfl]
     rfl,
   (C15_add 1 (Statement.Const (ObjectHolder.Number 1))
      (Statement.Const (ObjectHolder.String "a")) [] [] [] emptyWorld emptyWorld emptyWorld
      (ObjectHolder.Number 1) (ObjectHolder.String "a") rfl rfl).2.2.2 (Or.inr rfl)
      (Or.inl rfl) (by intro a h; cases h),
   (C15_add 1 (Statement.Const ObjectHolder.None)
      (Statement.Const ObjectHolder.None) [] [] [] emptyWorld emptyWorld emptyWorld
      ObjectHolder.None ObjectHolder.None rfl rfl).2.2.2 (Or.inl rfl)
      (Or.inl rfl) (by intro a h; cases h),
   (C15_add 1 (Statement.Const (ObjectHolder.Instance 0))
      (Statement.Const (ObjectHolder.Number 1)) [] [] [] emptyWorld emptyWorld emptyWorld
      (ObjectHolder.Instance 0) (ObjectHolder.Number 1) rfl rfl).2.2.2 (Or.inl rfl)
      (Or.inl rfl) (by intro a _; rfl)⟩

/-- C15, counterexample. A left operand that is an instance with `__add__` of
one parameter and a right operand that is the Number 1, or the empty handle:
`Add` calls `__add__` with the right operand and yields what it returns; it
does not end with a runtime error. -/
theorem C15_counterexample_instance_plus_number :
    (Execute 4 (Statement.Add (Statement.Const (ObjectHolder.Instance 0))
        (Statement.Const (ObjectHolder.Number 1))) [] adderWorld).outcome =
      Outcome.value (ObjectHolder.Number 1) ∧
    (Execute 4 (Statement.Add (Statement.Const (ObjectHolder.Instance 0))
        (Statement.Const ObjectHolder.None)) [] adderWorld).outcome =
      Outcome.value ObjectHolder.None :=
  ⟨rfl, rfl⟩

/-! ## C13: the derived comparisons -/

theorem Equal_Less_builtin {β : Type} (exec : Exec β) (lhs rhs : ObjectHolder β)
    (context : World β) (h : bothBuiltin lhs rhs = true) :
    (∃ e, Equal exec lhs rhs context = (Step.done e, context)) ∧
    (∃ l, Less exec lhs rhs context = (Step.done l, context)) := by
  cases lhs <;> cases rhs <;>
    simp [bothBuiltin, asNumber, asString, asBool] at h <;>
    simp [Equal, Less, hasObject, asNumber, asString, asBool]

theorem Less_hasObject {β : Type} (exec : Exec β) (lhs rhs : ObjectHolder β)
    (context context2 : World β) (l : Bool)
    (h : Less exec lhs rhs context = (Step.done l, context2)) :
    (!hasObject lhs && !hasObject rhs) = false := by
  cases lhs <;> cases rhs <;> simp [hasObject]
  simp [Less, asString, asNumber, asBool, asInstance] at h

/-- C13, amended. Let `Equal(a,b)` succeed with `e` and leave the state
`context1`, and let `Less(a,b)` succeed with `l` and leave the state
`context2`. Then `NotEqual(a,b)` gives `not e` and `GreaterOrEqual(a,b)` gives
`not l`. `Greater(a,b)` gives false when `e` is true, and otherwise gives the
negation of the result of `Less(a,b)` called in `context1`, the state that
`Equal` left. `LessOrEqual(a,b)` gives true when `l` is true, and otherwise
gives the result of `Equal(a,b)` called in `context2`, the state that `Less`
left. So when `Less` gives `l` also in `context1` and `Equal` gives `e` also in
`context2`, `Greater(a,b)` is `not e and not l` and `LessOrEqual(a,b)` is
`l or e`. This is the case for two Numbers, two Strings and two Bools, where
no state is changed. -/
theorem C13_derived_comparisons {β : Type} (exec : Exec β) (lhs rhs : ObjectHolder β)
    (context context1 context2 : World β) (e l : Bool)
    (hE : Equal exec lhs rhs context = (Step.done e, context1))
    (hL : Less exec lhs rhs context = (Step.done l, context2)) :
    NotEqual exec lhs rhs context = (Step.done (!e), context1) ∧
    GreaterOrEqual exec lhs rhs context = (Step.done (!l), context2) ∧
    (e = true → Greater exec lhs rhs context = (Step.done false, context1)) ∧
    (e = false → ∀ l1 context3, Less exec lhs rhs context1 = (Step.done l1, context3) →
      Greater exec lhs rhs context = (Step.done (!l1), context3)) ∧
    (l = true → LessOrEqual exec lhs rhs context = (Step.done true, context2)) ∧
    (l = false → ∀ e2 context4, Equal exec lhs rhs context2 = (Step.done e2, context4) →
      LessOrEqual exec lhs rhs context = (Step.done e2, context4)) ∧
    (∀ context3 context4, Less exec lhs rhs context1 = (Step.done l, context3) →
      Equal exec lhs rhs context2 = (Step.done e, context4) →
      (Greater exec lhs rhs context).1 = Step.done (!e && !l) ∧
      (LessOrEqual exec lhs rhs context).1 = Step.done (l || e)) ∧
    (bothBuiltin lhs rhs = true →
      context1 = context ∧ context2 = context ∧
      Greater exec lhs rhs context = (Step.done (!e && !l), context) ∧
      LessOrEqual exec lhs rhs context = (Step.done (l || e), context)) := by
  have hno := Less_hasObject exec lhs rhs context context2 l hL
  have hN : NotEqual exec lhs rhs context = (Step.done (!e), context1) := by
    simp only [NotEqual, hE]
  have hG1 : e = true → Greater exec lhs rhs context = (Step.done false, context1) := by
    intro he
    subst he
    simp only [Greater, hno, hN]
    rfl
  have hG2 : e = false → ∀ l1 context3,
      Less exec lhs rhs context1 = (Step.done l1, context3) →
      Greater exec lhs rhs context = (Step.done (!l1), context3) := by
    intro he l1 context3 h1
    subst he
    simp only [Greater, hno, hN]
    simp [h1]
  have hLE1 : l = true → LessOrEqual exec lhs rhs context = (Step.done true, context2) := by
    intro hl
    subst hl
    simp only [LessOrEqual, hL]
  have hLE2 : l = false → ∀ e2 context4,
      Equal exec lhs rhs context2 = (Step.done e2, context4) →
      LessOrEqual exec lhs rhs context = (Step.done e2, context4) := by
    intro hl e2 context4 h2
    subst hl
    simp only [LessOrEqual, hL, h2]
  have hseq : ∀ context3 context4, Less exec lhs rhs context1 = (Step.done l, context3) →
      Equal exec lhs rhs context2 = (Step.done e, context4) →
      (Greater exec lhs rhs context).1 = Step.done (!e && !l) ∧
      (LessOrEqual exec lhs rhs context).1 = Step.done (l || e) := by
    intro context3 context4 h1 h2
    constructor
    · cases e with
      | true => rw [hG1 rfl]; rfl
      | false => rw [hG2 rfl l context3 h1]; rfl
    · cases l with
      | true => rw [hLE1 rfl]; rfl
      | false => rw [hLE2 rfl e context4 h2]; rfl
  refine ⟨hN, ?_, hG1, hG2, hLE1, hLE2, hseq, ?_⟩
  · simp only [GreaterOrEqual, hL]
  · intro hb
    obtain ⟨⟨e0, he0⟩, ⟨l0, hl0⟩⟩ := Equal_Less_builtin exec lhs rhs context hb
    have h1 : context1 = context := by
      rw [he0] at hE
      injection hE with _ h
      exact h.symm
    have h2 : context2 = context := by
      rw [hl0] at hL
      injection hL with _ h
      exact h.symm
    subst h1 h2
    refine ⟨rfl, rfl, ?_, ?_⟩
    · cases e with
      | true => rw [hG1 rfl]; rfl
      | false => rw [hG2 rfl l _ hL]; rfl
    · cases l with
      | true => rw [hLE1 rfl]; rfl
      | false => rw [hLE2 rfl e _ hE]; rfl

/-- C13 at the Numbers 2 and 5 and at the Strings `b` and `b`. -/
theorem C13_derived_comparisons_witness :
    NotEqual (Execute 1) (ObjectHolder.Number 2) (ObjectHolder.Number 5) emptyWorld =
      (Step.done true, emptyWorld) ∧
    GreaterOrEqual (Execute 1) (ObjectHolder.Number 2) (ObjectHolder.Number 5) emptyWorld =
      (Step.done false, emptyWorld) ∧
    Greater (Execute 1) (ObjectHolder.Number 2) (ObjectHolder.Number 5) emptyWorld =
      (Step.done false, emptyWorld) ∧
    LessOrEqual (Execute 1) (ObjectHolder.Number 2) (ObjectHolder.Number 5) emptyWorld =
      (Step.done true, emptyWorld) ∧
    Greater (Execute 1) (ObjectHolder.String "b") (ObjectHolder.String "b") emptyWorld =
      (Step.done false, emptyWorld) ∧
    LessOrEqual (Execute 1) (ObjectHolder.String "b") (ObjectHolder.String "b") emptyWorld =
      (Step.done true, emptyWorld) :=
  ⟨(C13_derived_comparisons (Execute 1) (ObjectHolder.Number 2) (ObjectHolder.Number 5)
      emptyWorld emptyWorld emptyWorld false true rfl rfl).1,
   (C13_derived_comparisons (Execute 1) (ObjectHolder.Number 2) (ObjectHolder.Number 5)
      emptyWorld emptyWorld emptyWorld false true rfl rfl).2.1,
   ((C13_derived_comparisons (Execute 1) (ObjectHolder.Number 2) (ObjectHolder.Number 5)
      emptyWorld emptyWorld emptyWorld false true rfl rfl).2.2.2.2.2.2.2 rfl).2.2.1,
   ((C13_derived_comparisons (Execute 1) (ObjectHolder.Number 2) (ObjectHolder.Number 5)
      emptyWorld emptyWorld emptyWorld false true rfl rfl).2.2.2.2.2.2.2 rfl).2.2.2,
   ((C13_derived_comparisons (Execute 1) (ObjectHolder.String "b") (ObjectHolder.String "b")
      emptyWorld emptyWorld emptyWorld true false rfl (by simp [Less, asString])).2.2.2.2.2.2.2
      rfl).2.2.1,
   ((C13_derived_comparisons (Execute 1) (ObjectHolder.String "b") (ObjectHolder.String "b")
      emptyWorld emptyWorld emptyWorld true false rfl (by simp [Less, asString])).2.2.2.2.2.2.2
      rfl).2.2.2⟩

/-- C13, counterexample. At an instance of `Flip` whose field `seen` is
`False`, `Equal(a,a)` gives false and `Less(a,a)` gives false, so that
`not Equal and not Less` is true, but `Greater(a,a)` gives false: `Greater`
calls `__eq__`, which sets `seen`, and then `__lt__`, which returns `seen`. -/
theorem C13_counterexample_state_changing_eq :
    (Equal (Execute 4) (ObjectHolder.Instance 0) (ObjectHolder.Instance 0) flipWorld).1 =
      Step.done false ∧
    (Less (Execute 4) (ObjectHolder.Instance 0) (ObjectHolder.Instance 0) flipWorld).1 =
      Step.done false ∧
    (Greater (Execute 4) (ObjectHolder.Instance 0) (ObjectHolder.Instance 0) flipWorld).1 =
      Step.done false :=
  ⟨rfl, rfl, rfl⟩

/-! ## C14: `Equal` against `Less` -/

/-- C14, amended. For two Numbers, two Strings or two Bools: when `Equal(a,b)`
gives true, `Less(a,b)` and `Less(b,a)` give false, and when `Less(a,b)` gives
true, `Equal(a,b)` gives false. For every other combination in which an operand
is not an instance, `Less(a,b)` ends with the runtime error `uncompatible
types`, and so does `Equal(a,b)`, except for two empty handles, where `Equal`
gives true. -/
theorem C14_equal_less_consistent {β : Type} (exec : Exec β) (lhs rhs : ObjectHolder β)
    (context : World β) :
    (bothBuiltin lhs rhs = true →
      ((Equal exec lhs rhs context).1 = Step.done true →
        (Less exec lhs rhs context).1 = Step.done false ∧
        (Less exec rhs lhs context).1 = Step.done false) ∧
      ((Less exec lhs rhs context).1 = Step.done true →
        (Equal exec lhs rhs context).1 = Step.done false)) ∧
    (bothBuiltin lhs rhs = false → (asInstance lhs = none ∨ asInstance rhs = none) →
      Less exec lhs rhs context =
        (Step.stopped (Outcome.runtime_error "uncompatible types"), context) ∧
      (Equal exec lhs rhs context =
          (Step.stopped (Outcome.runtime_error "uncompatible types"), context) ∨
        (lhs = ObjectHolder.None ∧ rhs = ObjectHolder.None ∧
          Equal exec lhs rhs context = (Step.done true, context)))) := by
  constructor
  · intro hb
    cases lhs <;> cases rhs <;> simp [bothBuiltin, asNumber, asString, asBool] at hb
    · rename_i a b
      simp only [Equal, Less, hasObject, asString, asNumber, Bool.not_true, Bool.and_self,
        Bool.false_eq_true, if_false, Step.done.injEq, beq_iff_eq, decide_eq_true_eq,
        decide_eq_false_iff_not]
      constructor
      · intro h
        subst h
        exact ⟨lt_irrefl _, lt_irrefl _⟩
      · intro h
        simpa using ne_of_lt h
    · rename_i a b
      simp only [Equal, Less, hasObject, asString, Bool.not_true, Bool.and_self,
        Bool.false_eq_true, if_false, Step.done.injEq, beq_iff_eq, decide_eq_true_eq,
        decide_eq_false_iff_not]
      constructor
      · intro h
        subst h
        exact ⟨lt_irrefl _, lt_irrefl _⟩
      · intro h
        simpa using ne_of_lt h
    · rename_i a b
      cases a <;> cases b <;> simp [Equal, Less, hasObject, asString, asNumber, asBool]
  · intro hb hi
    cases lhs <;> cases rhs <;>
      simp [bothBuiltin, asNumber, asString, asBool, asInstance] at hb hi <;>
      simp [Equal, Less, hasObject, asNumber, asString, asBool, asInstance]

/-- C14 at the Numbers 3 and 3, at the Numbers 2 and 5, and at a Number
against a String. -/
theorem C14_equal_less_consistent_witness :
    ((Less (Execute 1) (ObjectHolder.Number 3) (ObjectHolder.Number 3) emptyWorld).1 =
        Step.done false ∧
      (Less (Execute 1) (ObjectHolder.Number 3) (ObjectHolder.Number 3) emptyWorld).1 =
        Step.done false) ∧
    (Equal (Execute 1) (ObjectHolder.Number 2) (ObjectHolder.Number 5) emptyWorld).1 =
      Step.done false ∧
    Less (Execute 1) (ObjectHolder.Number 2) (ObjectHolder.String "5") emptyWorld =
      (Step.stopped (Outcome.runtime_error "uncompatible types"), emptyWorld) :=
  ⟨((C14_equal_less_consistent (Execute 1) (ObjectHolder.Number 3) (ObjectHolder.Number 3)
      emptyWorld).1 rfl).1 rfl,
   ((C14_equal_less_consistent (Execute 1) (ObjectHolder.Number 2) (ObjectHolder.Number 5)
      emptyWorld).1 rfl).2 rfl,
   ((C14_equal_less_consistent (Execute 1) (ObjectHolder.Number 2) (ObjectHolder.String "5")
      emptyWorld).2 rfl (Or.inl rfl)).1⟩

/-- C14, counterexample. For two empty handles `Equal` gives true and `Less`
does not give false: it ends with a runtime error. For two instances of `Same`
`Equal` gives true and `Less` gives true. -/
theorem C14_counterexample_none_and_instances :
    Equal (Execute 3) ObjectHolder.None ObjectHolder.None emptyWorld =
      (Step.done true, emptyWorld) ∧
    Less (Execute 3) ObjectHolder.None ObjectHolder.None emptyWorld =
      (Step.stopped (Outcome.runtime_error "uncompatible types"), emptyWorld) ∧
    (Equal (Execute 3) (ObjectHolder.Instance 0) (ObjectHolder.Instance 1) sameWorld).1 =
      Step.done true ∧
    (Less (Execute 3) (ObjectHolder.Instance 0) (ObjectHolder.Instance 1) sameWorld).1 =
      Step.done true :=
  ⟨rfl, rfl, rfl, rfl⟩

/-! ## C20: `NewInstance` -/

theorem execArgs_stopped {β : Type} (exec : Exec β) (args : List β) (closure closure1 : Closure β)
    (context context1 : World β) (o : Outcome β)
    (h : execArgs exec args closure context = (Step.stopped o, closure1, context1)) :
    ∀ v, o ≠ Outcome.value v := by
  induction args generalizing closure context with
  | nil =>
    simp only [execArgs] at h
    injection h with h1
    cases h1
  | cons arg args ih =>
    simp only [execArgs] at h
    rcases he : exec arg closure context with ⟨o1, cl, w⟩
    rw [he] at h
    cases o1 with
    | value x =>
      dsimp only at h
      rcases hr : execArgs exec args cl w with ⟨st, cl2, w2⟩
      rw [hr] at h
      cases st with
      | done vs =>
        dsimp only at h
        injection h with h1
        cases h1
      | stopped o2 =>
        dsimp only at h
        injection h with h1 h2
        injection h1 with h1
        injection h2 with h2 h3
        subst h1 h2 h3
        exact ih cl w hr
    | runtime_error e =>
      dsimp only at h
      injection h with h1
      injection h1 with h1
      subst h1
      intro v hv
      cases hv
    | thrown e =>
      dsimp only at h
      injection h with h1
      injection h1 with h1
      subst h1
      intro v hv
      cases hv
    | undefined =>
      dsimp only at h
      injection h with h1
      injection h1 with h1
      subst h1
      intro v hv
      cases hv
    | fuel =>
      dsimp only at h
      injection h with h1
      injection h1 with h1
      subst h1
      intro v hv
      cases hv

/-- Every execution of a `NewInstance` node that ends normally yields the
instance that the node holds. -/
theorem NewInstance_same_instance (fuel : Nat) (instance_holder_ : Nat)
    (args_ : List Statement) (closure closure1 : Closure Statement)
    (context context1 : World Statement) (v : ObjectHolder Statement)
    (h : Execute fuel (Statement.NewInstance instance_holder_ args_) closure context =
      ⟨Outcome.value v, closure1, context1⟩) :
    v = ObjectHolder.Instance instance_holder_ := by
  cases fuel with
  | zero =>
    simp only [Execute] at h
    injection h with h1
    cases h1
  | succ fuel =>
    rw [Execute_NewInstance] at h
    by_cases hm : (context.heap instance_holder_).HasMethod "__init__" args_.length = true
    · rw [if_pos hm] at h
      rcases ha : execArgs (Execute fuel) args_ closure context with ⟨st, cl, w⟩
      rw [ha] at h
      cases st with
      | done argv =>
        dsimp only at h
        rcases hc : ClassInstance.Call (Execute fuel) instance_holder_ "__init__" argv w
          with ⟨o, w2⟩
        rw [hc] at h
        cases o with
        | value x =>
          dsimp only at h
          injection h with h1
          injection h1 with h1
          exact h1.symm
        | runtime_error e =>
          dsimp only at h
          injection h with h1
          cases h1
        | thrown e =>
          dsimp only at h
          injection h with h1
          cases h1
        | undefined =>
          dsimp only at h
          injection h with h1
          cases h1
        | fuel =>
          dsimp only at h
          injection h with h1
          cases h1
      | stopped o =>
        dsimp only at h
        injection h with h1
        exact absurd h1 (execArgs_stopped _ _ _ _ _ _ _ ha v)
    · rw [if_neg hm] at h
      injection h with h1
      injection h1 with h1
      exact h1.symm

/-- C20. The program `x = m.make()`, `x.f = 1`, `y = m.make()`, where the body
of `make` is `return A()`: the two executions of the `NewInstance` node of
`A()` yield the same instance, the one held by the node, so `x` and `y` are the
same instance and the field `f` assigned through `x`, which no instance had at
the start, is a field of `y`. -/
theorem C20_new_instance_is_reused :
    Closure.find (Execute 6 makerProgram [("m", ObjectHolder.Instance 0)] makerWorld).closure
      "x" = some (ObjectHolder.Instance 1) ∧
    Closure.find (Execute 6 makerProgram [("m", ObjectHolder.Instance 0)] makerWorld).closure
      "y" = some (ObjectHolder.Instance 1) ∧
    Closure.find
      ((Execute 6 makerProgram [("m", ObjectHolder.Instance 0)] makerWorld).world.heap 1).fields_
      "f" = some (ObjectHolder.Number 1) ∧
    Closure.find (makerWorld.heap 1).fields_ "f" = none :=
  ⟨rfl, rfl, rfl, rfl⟩

/-! ## The bound of `Execute`: a greater bound gives the same result -/

theorem Execute_VariableValue (fuel : Nat) (v : VariableValue) (closure : Closure Statement)
    (context : World Statement) :
    Execute (fuel + 1) (Statement.VariableValue v) closure context =
      ⟨execVariableValue v closure context, closure, context⟩ := rfl

theorem Execute_Assignment (fuel : Nat) (name_ : String) (data_ptr_ : Statement)
    (closure : Closure Statement) (context : World Statement) :
    Execute (fuel + 1) (Statement.Assignment name_ data_ptr_) closure context =
      match Execute fuel data_ptr_ closure context with
      | ⟨Outcome.value v, closure, context⟩ =>
        ⟨Outcome.value v, Closure.assign closure name_ v, context⟩
      | r => r := rfl

theorem Execute_FieldAssignment (fuel : Nat) (object_ : VariableValue) (field_name_ : String)
    (data_ptr_ : Statement) (closure : Closure Statement) (context : World Statement) :
    Execute (fuel + 1) (Statement.FieldAssignment object_ field_name_ data_ptr_) closure
        context =
      match execVariableValue object_ closure context with
      | Outcome.value obj =>
        match asInstance obj with
        | none => ⟨Outcome.runtime_error "object is not ClassInstance", closure, context⟩
        | some obj_ptr =>
          match Execute fuel data_ptr_ closure context with
          | ⟨Outcome.value obj_h, closure, context⟩ =>
            ⟨Outcome.value obj_h, closure,
              ⟨Function.update context.heap obj_ptr
                  ⟨(context.heap obj_ptr).class_ptr_,
                    Closure.assign (context.heap obj_ptr).fields_ field_name_ obj_h⟩,
                context.output⟩⟩
          | r => r
      | o => ⟨o, closure, context⟩ := rfl

theorem Execute_Print (fuel : Nat) (data_ : List Statement) (closure : Closure Statement)
    (context : World Statement) :
    Execute (fuel + 1) (Statement.Print data_) closure context =
      execPrint (Execute fuel) fuel data_ closure context := rfl

theorem Execute_MethodCall (fuel : Nat) (object_ : Statement) (method_ : String)
    (argv_ : List Statement) (closure : Closure Statement) (context : World Statement) :
    Execute (fuel + 1) (Statement.MethodCall object_ method_ argv_) closure context =
      match Execute fuel object_ closure context with
      | ⟨Outcome.value obj, closure, context⟩ =>
        match asInstance obj with
        | none => ⟨Outcome.runtime_error "object is not ClassInstance", closure, context⟩
        | some obj_ptr =>
          if !(context.heap obj_ptr).HasMethod method_ argv_.length then
            ⟨Outcome.runtime_error ("object has no method: " ++ method_), closure, context⟩
          else
            match execArgs (Execute fuel) argv_ closure context with
            | (Step.done transformed_argv, closure, context) =>
              match ClassInstance.Call (Execute fuel) obj_ptr method_ transformed_argv
                  context with
              | (o, context) => ⟨o, closure, context⟩
            | (Step.stopped o, closure, context) => ⟨o, closure, context⟩
      | r => r := rfl

theorem Execute_Stringify (fuel : Nat) (arg_ : Statement) (closure : Closure Statement)
    (context : World Statement) :
    Execute (fuel + 1) (Statement.Stringify arg_) closure context =
      match Execute fuel arg_ closure context with
      | ⟨Outcome.value obj_holder, closure, context⟩ =>
        match printValue (Execute fuel) fuel obj_holder context with
        | (Step.done str, context) =>
          ⟨Outcome.value (ObjectHolder.String (String.mk str)), closure, context⟩
        | (Step.stopped o, context) => ⟨o, closure, context⟩
      | r => r := rfl

theorem Execute_ClassDefinition (fuel : Nat) (class_ : ObjectHolder Statement)
    (closure : Closure Statement) (context : World Statement) :
    Execute (fuel + 1) (Statement.ClassDefinition class_) closure context =
      match asClass class_ with
      | some cls => ⟨Outcome.value class_, Closure.assign closure cls.GetName class_, context⟩
      | none => ⟨Outcome.undefined, closure, context⟩ := rfl

theorem Execute_Comparison (fuel : Nat) (cmp_ : Comparator) (lhs_ rhs_ : Statement)
    (closure : Closure Statement) (context : World Statement) :
    Execute (fuel + 1) (Statement.Comparison cmp_ lhs_ rhs_) closure context =
      match Execute fuel lhs_ closure context with
      | ⟨Outcome.value lhs, closure, context⟩ =>
        match Execute fuel rhs_ closure context with
        | ⟨Outcome.value rhs, closure, context⟩ =>
          match compare (Execute fuel) cmp_ lhs rhs context with
          | (Step.done b, context) =>
            ⟨Outcome.value (ObjectHolder.Bool (if b then true else false)), closure, context⟩
          | (Step.stopped o, context) => ⟨o, closure, context⟩
        | r => r
      | r => r := rfl

theorem Call_mono {β : Type} (exec exec1 : Exec β) (hx : Extends exec exec1) (this : Nat)
    (method : String) (actual_args : List (ObjectHolder β)) (context : World β)
    (h : (ClassInstance.Call exec this method actual_args context).1 ≠ Outcome.fuel) :
    ClassInstance.Call exec1 this method actual_args context =
      ClassInstance.Call exec this method actual_args context := by
  unfold ClassInstance.Call at h ⊢
  by_cases hm : (context.heap this).HasMethod method actual_args.length = true
  · rw [if_pos hm] at h
    rw [if_pos hm, if_pos hm]
    cases hg : (context.heap this).class_ptr_.GetMethod method with
    | none => rfl
    | some m =>
      rw [hg] at h
      dsimp only at h ⊢
      rw [hx _ _ _ h]
  · rw [if_neg hm]
    rw [if_neg hm]

theorem boolOfCall_fuel {β : Type} (r : Outcome β × World β)
    (h : (boolOfCall r).1 ≠ Step.stopped Outcome.fuel) : r.1 ≠ Outcome.fuel := by
  intro hr
  apply h
  unfold boolOfCall
  rw [hr]

theorem Equal_mono {β : Type} (exec exec1 : Exec β) (hx : Extends exec exec1)
    (lhs rhs : ObjectHolder β) (context : World β)
    (h : (Equal exec lhs rhs context).1 ≠ Step.stopped Outcome.fuel) :
    Equal exec1 lhs rhs context = Equal exec lhs rhs context := by
  cases lhs <;> cases rhs <;> first
    | rfl
    | skip
  rename_i a b
  have e : ∀ ex : Exec β,
      Equal ex (ObjectHolder.Instance a) (ObjectHolder.Instance b) context =
        if (context.heap a).HasMethod "__eq__" 1 then
          boolOfCall (ClassInstance.Call ex a "__eq__" [ObjectHolder.Instance b] context)
        else (Step.stopped (Outcome.runtime_error "uncompatible types"), context) :=
    fun _ => rfl
  rw [e exec] at h
  rw [e exec, e exec1]
  by_cases hm : (context.heap a).HasMethod "__eq__" 1 = true
  · rw [if_pos hm] at h
    rw [if_pos hm, if_pos hm, Call_mono exec exec1 hx _ _ _ _ (boolOfCall_fuel _ h)]
  · rw [if_neg hm, if_neg hm]

theorem Less_mono {β : Type} (exec exec1 : Exec β) (hx : Extends exec exec1)
    (lhs rhs : ObjectHolder β) (context : World β)
    (h : (Less exec lhs rhs context).1 ≠ Step.stopped Outcome.fuel) :
    Less exec1 lhs rhs context = Less exec lhs rhs context := by
  cases lhs <;> cases rhs <;> first
    | rfl
    | skip
  rename_i a b
  have e : ∀ ex : Exec β,
      Less ex (ObjectHolder.Instance a) (ObjectHolder.Instance b) context =
        if (context.heap a).HasMethod "__lt__" 1 then
          boolOfCall (ClassInstance.Call ex a "__lt__" [ObjectHolder.Instance b] context)
        else (Step.stopped (Outcome.runtime_error "uncompatible types"), context) :=
    fun _ => rfl
  rw [e exec] at h
  rw [e exec, e exec1]
  by_cases hm : (context.heap a).HasMethod "__lt__" 1 = true
  · rw [if_pos hm] at h
    rw [if_pos hm, if_pos hm, Call_mono exec exec1 hx _ _ _ _ (boolOfCall_fuel _ h)]
  · rw [if_neg hm, if_neg hm]

theorem NotEqual_mono {β : Type} (exec exec1 : Exec β) (hx : Extends exec exec1)
    (lhs rhs : ObjectHolder β) (context : World β)
    (h : (NotEqual exec lhs rhs context).1 ≠ Step.stopped Outcome.fuel) :
    NotEqual exec1 lhs rhs context = NotEqual exec lhs rhs context := by
  have hE : (Equal exec lhs rhs context).1 ≠ Step.stopped Outcome.fuel := by
    intro hh
    apply h
    unfold NotEqual
    rcases hq : Equal exec lhs rhs context with ⟨st, w⟩
    rw [hq] at hh
    dsimp only at hh
    subst hh
    rfl
  unfold NotEqual
  rw [Equal_mono exec exec1 hx _ _ _ hE]

theorem GreaterOrEqual_mono {β : Type} (exec exec1 : Exec β) (hx : Extends exec exec1)
    (lhs rhs : ObjectHolder β) (context : World β)
    (h : (GreaterOrEqual exec lhs rhs context).1 ≠ Step.stopped Outcome.fuel) :
    GreaterOrEqual exec1 lhs rhs context = GreaterOrEqual exec lhs rhs context := by
  have hL : (Less exec lhs rhs context).1 ≠ Step.stopped Outcome.fuel := by
    intro hh
    apply h
    unfold GreaterOrEqual
    rcases hq : Less exec lhs rhs context with ⟨st, w⟩
    rw [hq] at hh
    dsimp only at hh
    subst hh
    rfl
  unfold GreaterOrEqual
  rw [Less_mono exec exec1 hx _ _ _ hL]

theorem Greater_mono {β : Type} (exec exec1 : Exec β) (hx : Extends exec exec1)
    (lhs rhs : ObjectHolder β) (context : World β)
    (h : (Greater exec lhs rhs context).1 ≠ Step.stopped Outcome.fuel) :
    Greater exec1 lhs rhs context = Greater exec lhs rhs context := by
  unfold Greater at h ⊢
  by_cases hn : (!hasObject lhs && !hasObject rhs) = true
  · rw [if_pos hn, if_pos hn]
  · rw [if_neg hn] at h
    rw [if_neg hn, if_neg hn]
    have hN : (NotEqual exec lhs rhs context).1 ≠ Step.stopped Outcome.fuel := by
      intro hh
      apply h
      rcases hq : NotEqual exec lhs rhs context with ⟨st, w⟩
      rw [hq] at hh
      dsimp only at hh
      subst hh
      rfl
    rw [NotEqual_mono exec exec1 hx _ _ _ hN]
    rcases hq : NotEqual exec lhs rhs context with ⟨st, w⟩
    rw [hq] at h
    cases st with
    | stopped o => rfl
    | done b =>
      cases b with
      | false => rfl
      | true =>
        dsimp only at h ⊢
        have hL : (Less exec lhs rhs w).1 ≠ Step.stopped Outcome.fuel := by
          intro hh
          apply h
          rcases hq2 : Less exec lhs rhs w with ⟨st2, w2⟩
          rw [hq2] at hh
          dsimp only at hh
          subst hh
          rfl
        rw [Less_mono exec exec1 hx _ _ _ hL]

theorem LessOrEqual_mono {β : Type} (exec exec1 : Exec β) (hx : Extends exec exec1)
    (lhs rhs : ObjectHolder β) (context : World β)
    (h : (LessOrEqual exec lhs rhs context).1 ≠ Step.stopped Outcome.fuel) :
    LessOrEqual exec1 lhs rhs context = LessOrEqual exec lhs rhs context := by
  unfold LessOrEqual at h ⊢
  have hL : (Less exec lhs rhs context).1 ≠ Step.stopped Outcome.fuel := by
    intro hh
    apply h
    rcases hq : Less exec lhs rhs context with ⟨st, w⟩
    rw [hq] at hh
    dsimp only at hh
    subst hh
    rfl
  rw [Less_mono exec exec1 hx _ _ _ hL]
  rcases hq : Less exec lhs rhs context with ⟨st, w⟩
  rw [hq] at h
  cases st with
  | stopped o => rfl
  | done b =>
    cases b with
    | true => rfl
    | false =>
      dsimp only at h ⊢
      exact Equal_mono exec exec1 hx _ _ _ h

theorem compare_mono {β : Type} (exec exec1 : Exec β) (hx : Extends exec exec1)
    (cmp_ : Comparator) (lhs rhs : ObjectHolder β) (context : World β)
    (h : (compare exec cmp_ lhs rhs context).1 ≠ Step.stopped Outcome.fuel) :
    compare exec1 cmp_ lhs rhs context = compare exec cmp_ lhs rhs context := by
  cases cmp_ with
  | Equal => exact Equal_mono exec exec1 hx _ _ _ h
  | NotEqual => exact NotEqual_mono exec exec1 hx _ _ _ h
  | Less => exact Less_mono exec exec1 hx _ _ _ h
  | Greater => exact Greater_mono exec exec1 hx _ _ _ h
  | LessOrEqual => exact LessOrEqual_mono exec exec1 hx _ _ _ h
  | GreaterOrEqual => exact GreaterOrEqual_mono exec exec1 hx _ _ _ h

theorem addValues_mono {β : Type} (exec exec1 : Exec β) (hx : Extends exec exec1)
    (lhs rhs : ObjectHolder β) (context : World β)
    (h : (addValues exec lhs rhs context).1 ≠ Outcome.fuel) :
    addValues exec1 lhs rhs context = addValues exec lhs rhs context := by
  cases lhs with
  | Instance a =>
    have e : ∀ ex : Exec β,
        addValues ex (ObjectHolder.Instance a) rhs context =
          if (context.heap a).HasMethod "__add__" 1 then
            ClassInstance.Call ex a "__add__" [rhs] context
          else (Outcome.runtime_error "unable to add", context) := by
      intro ex
      cases rhs <;> rfl
    rw [e exec] at h
    rw [e exec, e exec1]
    by_cases hm : (context.heap a).HasMethod "__add__" 1 = true
    · rw [if_pos hm] at h
      rw [if_pos hm, if_pos hm, Call_mono exec exec1 hx _ _ _ _ h]
    · rw [if_neg hm, if_neg hm]
  | None => cases rhs <;> rfl
  | Number a => cases rhs <;> rfl
  | String a => cases rhs <;> rfl
  | Bool a => cases rhs <;> rfl
  | Class a => cases rhs <;> rfl

theorem execArgs_mono {β : Type} (exec exec1 : Exec β) (hx : Extends exec exec1)
    (args : List β) (closure : Closure β) (context : World β)
    (h : (execArgs exec args closure context).1 ≠ Step.stopped Outcome.fuel) :
    execArgs exec1 args closure context = execArgs exec args closure context := by
  induction args generalizing closure context with
  | nil => rfl
  | cons arg args ih =>
    simp only [execArgs] at h ⊢
    rcases he : exec arg closure context with ⟨o, cl1, w1⟩
    rw [he] at h
    have hne : o ≠ Outcome.fuel := by
      rintro rfl
      exact h rfl
    rw [hx arg closure context (by rw [he]; exact hne), he]
    cases o with
    | value v =>
      dsimp only at h ⊢
      have h2 : (execArgs exec args cl1 w1).1 ≠ Step.stopped Outcome.fuel := by
        intro hh
        apply h
        rcases hq : execArgs exec args cl1 w1 with ⟨st, cl2, w2⟩
        rw [hq] at hh
        dsimp only at hh
        subst hh
        rfl
      rw [ih cl1 w1 h2]
    | runtime_error e => rfl
    | thrown e => rfl
    | undefined => rfl
    | fuel => rfl

theorem execCompound_mono {β : Type} (exec exec1 : Exec β) (hx : Extends exec exec1)
    (argv : List β) (closure : Closure β) (context : World β)
    (h : (execCompound exec argv closure context).outcome ≠ Outcome.fuel) :
    execCompound exec1 argv closure context = execCompound exec argv closure context := by
  induction argv generalizing closure context with
  | nil => rfl
  | cons s argv ih =>
    simp only [execCompound] at h ⊢
    rcases he : exec s closure context with ⟨o, cl1, w1⟩
    rw [he] at h
    have hne : o ≠ Outcome.fuel := by
      rintro rfl
      exact h rfl
    rw [hx s closure context (by rw [he]; exact hne), he]
    cases o with
    | value v => exact ih cl1 w1 h
    | runtime_error e => rfl
    | thrown e => rfl
    | undefined => rfl
    | fuel => rfl

theorem printObject_mono {β : Type} (exec exec1 : Exec β) (hx : Extends exec exec1)
    (fuel : Nat) (object : ObjectHolder β) (context : World β)
    (h : (printObject exec fuel object context).1 ≠ Step.stopped Outcome.fuel) :
    printObject exec1 (fuel + 1) object context = printObject exec fuel object context := by
  induction fuel generalizing object context with
  | zero => exact absurd rfl h
  | succ fuel ih =>
    cases object with
    | Instance this =>
      simp only [printObject] at h ⊢
      by_cases hm : (context.heap this).HasMethod "__str__" 0 = true
      · rw [if_pos hm] at h
        rw [if_pos hm, if_pos hm]
        rcases hc : ClassInstance.Call exec this "__str__" [] context with ⟨o, w1⟩
        rw [hc] at h
        have hne : o ≠ Outcome.fuel := by
          rintro rfl
          exact h rfl
        rw [Call_mono exec exec1 hx _ _ _ _ (by rw [hc]; exact hne), hc]
        cases o with
        | value v => exact ih v w1 h
        | runtime_error e => rfl
        | thrown e => rfl
        | undefined => rfl
        | fuel => rfl
      · rw [if_neg hm, if_neg hm]
    | None => rfl
    | Number a => rfl
    | String a => rfl
    | Bool a => rfl
    | Class a => rfl

theorem printValue_mono {β : Type} (exec exec1 : Exec β) (hx : Extends exec exec1)
    (fuel : Nat) (object : ObjectHolder β) (context : World β)
    (h : (printValue exec fuel object context).1 ≠ Step.stopped Outcome.fuel) :
    printValue exec1 (fuel + 1) object context = printValue exec fuel object context := by
  unfold printValue at h ⊢
  by_cases ho : hasObject object = true
  · rw [if_pos ho] at h
    rw [if_pos ho, if_pos ho]
    exact printObject_mono exec exec1 hx fuel object context h
  · rw [if_neg ho, if_neg ho]

theorem execPrint_mono {β : Type} (exec exec1 : Exec β) (hx : Extends exec exec1)
    (fuel : Nat) (data : List β) (closure : Closure β) (context : World β)
    (h : (execPrint exec fuel data closure context).outcome ≠ Outcome.fuel) :
    execPrint exec1 (fuel + 1) data closure context =
      execPrint exec fuel data closure context := by
  induction data generalizing closure context with
  | nil => rfl
  | cons arg data ih =>
    simp only [execPrint] at h ⊢
    rcases he : exec arg closure context with ⟨o, cl1, w1⟩
    rw [he] at h
    have hne : o ≠ Outcome.fuel := by
      rintro rfl
      exact h rfl
    rw [hx arg closure context (by rw [he]; exact hne), he]
    cases o with
    | value v =>
      dsimp only at h ⊢
      rcases hp : printValue exec fuel v w1 with ⟨st, w2⟩
      rw [hp] at h
      have hne2 : st ≠ Step.stopped Outcome.fuel := by
        rintro rfl
        exact h rfl
      rw [printValue_mono exec exec1 hx fuel v w1 (by rw [hp]; exact hne2), hp]
      cases st with
      | done text => exact ih _ _ h
      | stopped o => rfl
    | runtime_error e => rfl
    | thrown e => rfl
    | undefined => rfl
    | fuel => rfl

/-- An execution that ends without exhausting the bound ends the same way, in
the same closure and state, with the bound plus one. -/
theorem Execute_mono (fuel : Nat) : Extends (Execute fuel) (Execute (fuel + 1)) := by
  induction fuel with
  | zero =>
    intro s cl w h
    exact absurd rfl h
  | succ f ih =>
    intro s cl w h
    cases s with
    | Const v => rfl
    | VariableValue v => rfl
    | ClassDefinition c => rfl
    | Assignment name_ d =>
      rw [Execute_Assignment] at h
      rw [Execute_Assignment, Execute_Assignment]
      rcases he : Execute f d cl w with ⟨o, cl1, w1⟩
      rw [he] at h
      have hne : o ≠ Outcome.fuel := by
        rintro rfl
        exact h rfl
      rw [ih d cl w (by rw [he]; exact hne), he]
    | Not d =>
      rw [Execute_Not] at h
      rw [Execute_Not, Execute_Not]
      rcases he : Execute f d cl w with ⟨o, cl1, w1⟩
      rw [he] at h
      have hne : o ≠ Outcome.fuel := by
        rintro rfl
        exact h rfl
      rw [ih d cl w (by rw [he]; exact hne), he]
    | Return d =>
      rw [Execute_Return] at h
      rw [Execute_Return, Execute_Return]
      rcases he : Execute f d cl w with ⟨o, cl1, w1⟩
      rw [he] at h
      have hne : o ≠ Outcome.fuel := by
        rintro rfl
        exact h rfl
      rw [ih d cl w (by rw [he]; exact hne), he]
    | MethodBody d =>
      rw [Execute_MethodBody] at h
      rw [Execute_MethodBody, Execute_MethodBody]
      rcases he : Execute f d cl w with ⟨o, cl1, w1⟩
      rw [he] at h
      have hne : o ≠ Outcome.fuel := by
        rintro rfl
        exact h rfl
      rw [ih d cl w (by rw [he]; exact hne), he]
    | Compound argv =>
      rw [Execute_Compound] at h
      rw [Execute_Compound, Execute_Compound]
      exact execCompound_mono _ _ ih _ _ _ h
    | Print data =>
      rw [Execute_Print] at h
      rw [Execute_Print, Execute_Print]
      exact execPrint_mono _ _ ih f _ _ _ h
    | Stringify d =>
      rw [Execute_Stringify] at h
      rw [Execute_Stringify, Execute_Stringify]
      rcases he : Execute f d cl w with ⟨o, cl1, w1⟩
      rw [he] at h
      have hne : o ≠ Outcome.fuel := by
        rintro rfl
        exact h rfl
      rw [ih d cl w (by rw [he]; exact hne), he]
      cases o with
      | value v =>
        dsimp only at h ⊢
        rcases hp : printValue (Execute f) f v w1 with ⟨st, w2⟩
        rw [hp] at h
        have hne2 : st ≠ Step.stopped Outcome.fuel := by
          rintro rfl
          exact h rfl
        rw [printValue_mono _ _ ih f v w1 (by rw [hp]; exact hne2), hp]
      | runtime_error e => rfl
      | thrown e => rfl
      | undefined => rfl
      | fuel => rfl
    | FieldAssignment object_ field_name_ d =>
      rw [Execute_FieldAssignment] at h
      rw [Execute_FieldAssignment, Execute_FieldAssignment]
      cases hv : execVariableValue object_ cl w with
      | value obj =>
        rw [hv] at h
        dsimp only at h ⊢
        cases ha : asInstance obj with
        | none => rfl
        | some obj_ptr =>
          rw [ha] at h
          dsimp only at h ⊢
          rcases he : Execute f d cl w with ⟨o, cl1, w1⟩
          rw [he] at h
          have hne : o ≠ Outcome.fuel := by
            rintro rfl
            exact h rfl
          rw [ih d cl w (by rw [he]; exact hne), he]
      | runtime_error e => rfl
      | thrown e => rfl
      | undefined => rfl
      | fuel => rfl
    | Sub l r =>
      rw [Execute_Sub] at h
      rw [Execute_Sub, Execute_Sub]
      rcases he : Execute f l cl w with ⟨o, cl1, w1⟩
      rw [he] at h
      have hne : o ≠ Outcome.fuel := by
        rintro rfl
        exact h rfl
      rw [ih l cl w (by rw [he]; exact hne), he]
      cases o with
      | value v =>
        dsimp only at h ⊢
        rcases he2 : Execute f r cl1 w1 with ⟨o2, cl2, w2⟩
        rw [he2] at h
        have hne2 : o2 ≠ Outcome.fuel := by
          rintro rfl
          exact h rfl
        rw [ih r cl1 w1 (by rw [he2]; exact hne2), he2]
      | runtime_error e => rfl
      | thrown e => rfl
      | undefined => rfl
      | fuel => rfl
    | Mult l r =>
      rw [Execute_Mult] at h
      rw [Execute_Mult, Execute_Mult]
      rcases he : Execute f l cl w with ⟨o, cl1, w1⟩
      rw [he] at h
      have hne : o ≠ Outcome.fuel := by
        rintro rfl
        exact h rfl
      rw [ih l cl w (by rw [he]; exact hne), he]
      cases o with
      | value v =>
        dsimp only at h ⊢
        rcases he2 : Execute f r cl1 w1 with ⟨o2, cl2, w2⟩
        rw [he2] at h
        have hne2 : o2 ≠ Outcome.fuel := by
          rintro rfl
          exact h rfl
        rw [ih r cl1 w1 (by rw [he2]; exact hne2), he2]
      | runtime_error e => rfl
      | thrown e => rfl
      | undefined => rfl
      | fuel => rfl
    | Div l r =>
      rw [Execute_Div] at h
      rw [Execute_Div, Execute_Div]
      rcases he : Execute f l cl w with ⟨o, cl1, w1⟩
      rw [he] at h
      have hne : o ≠ Outcome.fuel := by
        rintro rfl
        exact h rfl
      rw [ih l cl w (by rw [he]; exact hne), he]
      cases o with
      | value v =>
        dsimp only at h ⊢
        rcases he2 : Execute f r cl1 w1 with ⟨o2, cl2, w2⟩
        rw [he2] at h
        have hne2 : o2 ≠ Outcome.fuel := by
          rintro rfl
          exact h rfl
        rw [ih r cl1 w1 (by rw [he2]; exact hne2), he2]
      | runtime_error e => rfl
      | thrown e => rfl
      | undefined => rfl
      | fuel => rfl
    | Add l r =>
      rw [Execute_Add] at h
      rw [Execute_Add, Execute_Add]
      rcases he : Execute f l cl w with ⟨o, cl1, w1⟩
      rw [he] at h
      have hne : o ≠ Outcome.fuel := by
        rintro rfl
        exact h rfl
      rw [ih l cl w (by rw [he]; exact hne), he]
      cases o with
      | value v =>
        dsimp only at h ⊢
        rcases he2 : Execute f r cl1 w1 with ⟨o2, cl2, w2⟩
        rw [he2] at h
        have hne2 : o2 ≠ Outcome.fuel := by
          rintro rfl
          exact h rfl
        rw [ih r cl1 w1 (by rw [he2]; exact hne2), he2]
        cases o2 with
        | value v2 =>
          dsimp only at h ⊢
          have ha : (addValues (Execute f) v v2 w2).1 ≠ Outcome.fuel := by
            intro hh
            apply h
            rcases hq : addValues (Execute f) v v2 w2 with ⟨o3, w3⟩
            rw [hq] at hh
            dsimp only at hh
            subst hh
            rfl
          rw [addValues_mono _ _ ih v v2 w2 ha]
        | runtime_error e => rfl
        | thrown e => rfl
        | undefined => rfl
        | fuel => rfl
      | runtime_error e => rfl
      | thrown e => rfl
      | undefined => rfl
      | fuel => rfl
    | Comparison cmp_ l r =>
      rw [Execute_Comparison] at h
      rw [Execute_Comparison, Execute_Comparison]
      rcases he : Execute f l cl w with ⟨o, cl1, w1⟩
      rw [he] at h
      have hne : o ≠ Outcome.fuel := by
        rintro rfl
        exact h rfl
      rw [ih l cl w (by rw [he]; exact hne), he]
      cases o with
      | value v =>
        dsimp only at h ⊢
        rcases he2 : Execute f r cl1 w1 with ⟨o2, cl2, w2⟩
        rw [he2] at h
        have hne2 : o2 ≠ Outcome.fuel := by
          rintro rfl
          exact h rfl
        rw [ih r cl1 w1 (by rw [he2]; exact hne2), he2]
        cases o2 with
        | value v2 =>
          dsimp only at h ⊢
          have hc : (compare (Execute f) cmp_ v v2 w2).1 ≠ Step.stopped Outcome.fuel := by
            intro hh
            apply h
            rcases hq : compare (Execute f) cmp_ v v2 w2 with ⟨st, w3⟩
            rw [hq] at hh
            dsimp only at hh
            subst hh
            rfl
          rw [compare_mono _ _ ih cmp_ v v2 w2 hc]
        | runtime_error e => rfl
        | thrown e => rfl
        | undefined => rfl
        | fuel => rfl
      | runtime_error e => rfl
      | thrown e => rfl
      | undefined => rfl
      | fuel => rfl
    | Or l r =>
      rw [Execute_Or] at h
      rw [Execute_Or, Execute_Or]
      rcases he : Execute f l cl w with ⟨o, cl1, w1⟩
      rw [he] at h
      have hne : o ≠ Outcome.fuel := by
        rintro rfl
        exact h rfl
      rw [ih l cl w (by rw [he]; exact hne), he]
      cases o with
      | value v =>
        dsimp only at h ⊢
        by_cases hc : (!IsTrue v) = true
        · rw [if_pos hc] at h
          rw [if_pos hc, if_pos hc]
          rcases he2 : Execute f r cl1 w1 with ⟨o2, cl2, w2⟩
          rw [he2] at h
          have hne2 : o2 ≠ Outcome.fuel := by
            rintro rfl
            exact h rfl
          rw [ih r cl1 w1 (by rw [he2]; exact hne2), he2]
        · rw [if_neg hc, if_neg hc]
      | runtime_error e => rfl
      | thrown e => rfl
      | undefined => rfl
      | fuel => rfl
    | And l r =>
      rw [Execute_And] at h
      rw [Execute_And, Execute_And]
      rcases he : Execute f l cl w with ⟨o, cl1, w1⟩
      rw [he] at h
      have hne : o ≠ Outcome.fuel := by
        rintro rfl
        exact h rfl
      rw [ih l cl w (by rw [he]; exact hne), he]
      cases o with
      | value v =>
        dsimp only at h ⊢
        by_cases hc : IsTrue v = true
        · rw [if_pos hc] at h
          rw [if_pos hc, if_pos hc]
          rcases he2 : Execute f r cl1 w1 with ⟨o2, cl2, w2⟩
          rw [he2] at h
          have hne2 : o2 ≠ Outcome.fuel := by
            rintro rfl
            exact h rfl
          rw [ih r cl1 w1 (by rw [he2]; exact hne2), he2]
        · rw [if_neg hc, if_neg hc]
      | runtime_error e => rfl
      | thrown e => rfl
      | undefined => rfl
      | fuel => rfl
    | IfElse c t e =>
      rw [Execute_IfElse] at h
      rw [Execute_IfElse, Execute_IfElse]
      rcases he : Execute f c cl w with ⟨o, cl1, w1⟩
      rw [he] at h
      have hne : o ≠ Outcome.fuel := by
        rintro rfl
        exact h rfl
      rw [ih c cl w (by rw [he]; exact hne), he]
      cases o with
      | value v =>
        dsimp only at h ⊢
        by_cases hc : IsTrue v = true
        · rw [if_pos hc] at h
          rw [if_pos hc, if_pos hc]
          exact ih t cl1 w1 h
        · rw [if_neg hc] at h
          rw [if_neg hc, if_neg hc]
          cases e with
          | none => rfl
          | some e => exact ih e cl1 w1 h
      | runtime_error e => rfl
      | thrown e => rfl
      | undefined => rfl
      | fuel => rfl
    | NewInstance a args =>
      rw [Execute_NewInstance] at h
      rw [Execute_NewInstance, Execute_NewInstance]
      by_cases hm : (w.heap a).HasMethod "__init__" args.length = true
      · rw [if_pos hm] at h
        rw [if_pos hm, if_pos hm]
        rcases ha : execArgs (Execute f) args cl w with ⟨st, cl1, w1⟩
        rw [ha] at h
        have hne : st ≠ Step.stopped Outcome.fuel := by
          rintro rfl
          exact h rfl
        rw [execArgs_mono _ _ ih args cl w (by rw [ha]; exact hne), ha]
        cases st with
        | done argv =>
          dsimp only at h ⊢
          rcases hc : ClassInstance.Call (Execute f) a "__init__" argv w1 with ⟨o, w2⟩
          rw [hc] at h
          have hne2 : o ≠ Outcome.fuel := by
            rintro rfl
            exact h rfl
          rw [Call_mono _ _ ih a "__init__" argv w1 (by rw [hc]; exact hne2), hc]
        | stopped o => rfl
      · rw [if_neg hm, if_neg hm]
    | MethodCall object_ method_ argv_ =>
      rw [Execute_MethodCall] at h
      rw [Execute_MethodCall, Execute_MethodCall]
      rcases he : Execute f object_ cl w with ⟨o, cl1, w1⟩
      rw [he] at h
      have hne : o ≠ Outcome.fuel := by
        rintro rfl
        exact h rfl
      rw [ih object_ cl w (by rw [he]; exact hne), he]
      cases o with
      | value obj =>
        dsimp only at h ⊢
        cases hi : asInstance obj with
        | none => rfl
        | some obj_ptr =>
          rw [hi] at h
          dsimp only at h ⊢
          by_cases hm : (!(w1.heap obj_ptr).HasMethod method_ argv_.length) = true
          · rw [if_pos hm, if_pos hm]
          · rw [if_neg hm] at h
            rw [if_neg hm, if_neg hm]
            rcases ha : execArgs (Execute f) argv_ cl1 w1 with ⟨st, cl2, w2⟩
            rw [ha] at h
            have hne2 : st ≠ Step.stopped Outcome.fuel := by
              rintro rfl
              exact h rfl
            rw [execArgs_mono _ _ ih argv_ cl1 w1 (by rw [ha]; exact hne2), ha]
            cases st with
            | done argv =>
              dsimp only at h ⊢
              have hc : (ClassInstance.Call (Execute f) obj_ptr method_ argv w2).1 ≠
                  Outcome.fuel := by
                intro hh
                apply h
                rcases hq : ClassInstance.Call (Execute f) obj_ptr method_ argv w2
                  with ⟨o3, w3⟩
                rw [hq] at hh
                dsimp only at hh
                subst hh
                rfl
              rw [Call_mono _ _ ih obj_ptr method_ argv w2 hc]
            | stopped o => rfl
      | runtime_error e => rfl
      | thrown e => rfl
      | undefined => rfl
      | fuel => rfl

/-- A result that `Execute` gives without exhausting the bound is the result
with every greater bound. -/
theorem Execute_of_le (fuel more : Nat) (s : Statement) (closure : Closure Statement)
    (context : World Statement)
    (h : (Execute fuel s closure context).outcome ≠ Outcome.fuel) :
    Execute (fuel + more) s closure context = Execute fuel s closure context := by
  induction more with
  | zero => rfl
  | succ more ih =>
    rw [← Nat.add_assoc, Execute_mono (fuel + more) s closure context (by rw [ih]; exact h), ih]

/-! ## C21: `VariableValue` -/

theorem ofDotted_snoc (n0 : String) (body : List String) (last : String) :
    VariableValue.ofDotted (n0 :: (body ++ [last])) = ⟨n0, body, last⟩ := by
  cases body with
  | nil => rfl
  | cons b body =>
    have h1 : (b :: (body ++ [last])).dropLast = b :: body :=
      (List.dropLast_concat : ((b :: body) ++ [last]).dropLast = b :: body)
    have h2 : (b :: (body ++ [last])).getLast?.getD "" = last := by
      have h : ((b :: body) ++ [last]).getLast? = some last := List.getLast?_concat (b :: body)
      rw [List.cons_append] at h
      rw [h]
      rfl
    simp [VariableValue.ofDotted, h1, h2]

theorem followFields_of_not_instance {β : Type} (heap : Nat → ClassInstance β)
    (v : ObjectHolder β) (n : String) (rest : List String) (h : asInstance v = none) :
    followFields heap v (n :: rest) = none := by
  simp [followFields, h]

theorem followFields_Instance {β : Type} (heap : Nat → ClassInstance β)
    (a : Nat) (n : String) (rest : List String) :
    followFields heap (ObjectHolder.Instance a) (n :: rest) =
      match Closure.find (heap a).fields_ n with
      | none => none
      | some value => followFields heap value rest := by
  simp [followFields, asInstance]

theorem asInstance_eq_some {β : Type} (v : ObjectHolder β) (a : Nat)
    (h : asInstance v = some a) : v = ObjectHolder.Instance a := by
  cases v <;> simp [asInstance] at h
  rw [h]

theorem descend_follow {β : Type} (heap : Nat → ClassInstance β) (body : List String)
    (last : String) (a : Nat) :
    (∀ r, followFields heap (ObjectHolder.Instance a) (body ++ [last]) = some r →
      (match descendFields heap a body with
        | Step.stopped o => o
        | Step.done obj_ptr =>
          match Closure.find (heap obj_ptr).fields_ last with
          | none => Outcome.runtime_error ("there is no field: " ++ last)
          | some value => Outcome.value value) = Outcome.value r) ∧
    (followFields heap (ObjectHolder.Instance a) (body ++ [last]) = none →
      ∃ what, (match descendFields heap a body with
        | Step.stopped o => o
        | Step.done obj_ptr =>
          match Closure.find (heap obj_ptr).fields_ last with
          | none => Outcome.runtime_error ("there is no field: " ++ last)
          | some value => (Outcome.value value : Outcome β)) = Outcome.runtime_error what) := by
  induction body generalizing a with
  | nil =>
    simp only [List.nil_append, followFields_Instance, descendFields]
    cases Closure.find (heap a).fields_ last with
    | none => simp
    | some value => simp [followFields]
  | cons n rest ih =>
    simp only [List.cons_append, followFields_Instance, descendFields]
    cases hf : Closure.find (heap a).fields_ n with
    | none => simp
    | some value =>
      dsimp only
      cases hi : asInstance value with
      | none =>
        have hnone : followFields heap value (rest ++ [last]) = none := by
          cases rest <;> exact followFields_of_not_instance heap value _ _ hi
        simp [hnone]
      | some address =>
        rw [asInstance_eq_some value address hi]
        exact ih address

theorem followFields_append {β : Type} (heap : Nat → ClassInstance β) (v : ObjectHolder β)
    (pre post : List String) :
    followFields heap v (pre ++ post) =
      match followFields heap v pre with
      | none => none
      | some u => followFields heap u post := by
  induction pre generalizing v with
  | nil => rfl
  | cons n pre ih =>
    simp only [List.cons_append, followFields]
    cases asInstance v with
    | none => rfl
    | some address =>
      dsimp only
      cases Closure.find (heap address).fields_ n with
      | none => rfl
      | some value => exact ih value

theorem followFields_eq_none {β : Type} (heap : Nat → ClassInstance β) (v : ObjectHolder β)
    (ns : List String) :
    followFields heap v ns = none ↔
      ∃ pre n post u, ns = pre ++ n :: post ∧ followFields heap v pre = some u ∧
        (asInstance u = none ∨
          ∃ a, asInstance u = some a ∧ Closure.find (heap a).fields_ n = none) := by
  constructor
  · intro h
    induction ns generalizing v with
    | nil => simp [followFields] at h
    | cons n rest ih =>
      cases hi : asInstance v with
      | none => exact ⟨[], n, rest, v, rfl, rfl, Or.inl hi⟩
      | some a =>
        cases hf : Closure.find (heap a).fields_ n with
        | none => exact ⟨[], n, rest, v, rfl, rfl, Or.inr ⟨a, hi, hf⟩⟩
        | some value =>
          simp only [followFields, hi, hf] at h
          obtain ⟨pre, m, post, u, hns, hu, hbad⟩ := ih value h
          refine ⟨n :: pre, m, post, u, by rw [hns]; rfl, ?_, hbad⟩
          simp only [followFields, hi, hf]
          exact hu
  · rintro ⟨pre, n, post, u, hns, hu, hbad⟩
    rw [hns, followFields_append, hu]
    dsimp only
    rcases hbad with hi | ⟨a, hi, hf⟩
    · exact followFields_of_not_instance heap u n post hi
    · simp [followFields, hi, hf]

/-- C21. For a path `n0.n1...nk` whose names after the first are not empty,
`VariableValue::Execute` leaves the closure and the state as they are. When
`n0` is not in the closure it ends with a runtime error. When `closure[n0]` is
`v`, it yields the value that `followFields` reaches from `v` along
`n1, ..., nk` (for `k = 0` this is `v`), and it ends with a runtime error when
`followFields` reaches none, which is exactly when some value on the way is not
a `ClassInstance` or has no field of the next name. The node made from the one
name `n0` is the node made from the path of length one. -/
theorem C21_variable_value (fuel : Nat) (n0 : String) (ns : List String)
    (closure : Closure Statement) (context : World Statement)
    (hne : ∀ n ∈ ns, n ≠ "") :
    (Execute (fuel + 1) (Statement.VariableValue (VariableValue.ofDotted (n0 :: ns))) closure
        context).closure = closure ∧
    (Execute (fuel + 1) (Statement.VariableValue (VariableValue.ofDotted (n0 :: ns))) closure
        context).world = context ∧
    (Closure.find closure n0 = none →
      ∃ what, (Execute (fuel + 1)
          (Statement.VariableValue (VariableValue.ofDotted (n0 :: ns))) closure
          context).outcome = Outcome.runtime_error what) ∧
    (∀ v r, Closure.find closure n0 = some v → followFields context.heap v ns = some r →
      (Execute (fuel + 1) (Statement.VariableValue (VariableValue.ofDotted (n0 :: ns))) closure
          context).outcome = Outcome.value r) ∧
    (∀ v, Closure.find closure n0 = some v → followFields context.heap v ns = none →
      ∃ what, (Execute (fuel + 1)
          (Statement.VariableValue (VariableValue.ofDotted (n0 :: ns))) closure
          context).outcome = Outcome.runtime_error what) ∧
    (∀ v, followFields context.heap v ns = none ↔
      ∃ pre n post u, ns = pre ++ n :: post ∧ followFields context.heap v pre = some u ∧
        (asInstance u = none ∨
          ∃ a, asInstance u = some a ∧ Closure.find (context.heap a).fields_ n = none)) ∧
    VariableValue.ofName n0 = VariableValue.ofDotted [n0] := by
  refine ⟨rfl, rfl, ?_, ?_, ?_, fun v => followFields_eq_none _ v ns, rfl⟩
  · intro h
    rw [Execute_VariableValue]
    refine ⟨"there is no object: " ++ n0, ?_⟩
    show execVariableValue _ closure context = _
    unfold execVariableValue
    have hh : (VariableValue.ofDotted (n0 :: ns)).head_ = n0 := rfl
    rw [hh, h]
  · intro v r hv hr
    rw [Execute_VariableValue]
    show execVariableValue _ closure context = _
    rcases List.eq_nil_or_concat ns with hnil | ⟨body, last, hns⟩
    · subst hnil
      simp only [followFields, Option.some.injEq] at hr
      subst hr
      unfold execVariableValue
      have hh : (VariableValue.ofDotted [n0]).head_ = n0 := rfl
      rw [hh, hv]
      rfl
    · rw [List.concat_eq_append] at hns
      subst hns
      have hlast : last.isEmpty = false := by
        have := hne last (by simp)
        rw [Bool.eq_false_iff]
        intro he
        exact this ((String.isEmpty_iff last).mp he)
      rw [ofDotted_snoc]
      unfold execVariableValue
      dsimp only
      rw [hv]
      dsimp only
      rw [hlast]
      cases hi : asInstance v with
      | none =>
        have : followFields context.heap v (body ++ [last]) = none := by
          cases body <;> exact followFields_of_not_instance _ v _ _ hi
        rw [this] at hr
        cases hr
      | some a =>
        rw [asInstance_eq_some v a hi] at hr
        simpa using (descend_follow context.heap body last a).1 r hr
  · intro v hv hr
    rw [Execute_VariableValue]
    show ∃ what, execVariableValue _ closure context = _
    rcases List.eq_nil_or_concat ns with hnil | ⟨body, last, hns⟩
    · subst hnil
      simp [followFields] at hr
    · rw [List.concat_eq_append] at hns
      subst hns
      have hlast : last.isEmpty = false := by
        have := hne last (by simp)
        rw [Bool.eq_false_iff]
        intro he
        exact this ((String.isEmpty_iff last).mp he)
      rw [ofDotted_snoc]
      unfold execVariableValue
      dsimp only
      rw [hv]
      dsimp only
      rw [hlast]
      cases hi : asInstance v with
      | none => exact ⟨_, rfl⟩
      | some a =>
        rw [asInstance_eq_some v a hi] at hr
        simpa using (descend_follow context.heap body last a).2 hr

/-- C21 at the example closure and state: `x.a.b` is 7 and `n` is 3; `y` is not
in the closure, `n.a` goes through a number, `x.a.c` names a missing field and
`x.b.b` names a missing field on the way. -/
theorem C21_variable_value_witness :
    (Execute 1 (Statement.VariableValue (VariableValue.ofDotted ["x", "a", "b"])) pathClosure
        pathWorld).outcome = Outcome.value (ObjectHolder.Number 7) ∧
    (Execute 1 (Statement.VariableValue (VariableValue.ofDotted ["n"])) pathClosure
        pathWorld).outcome = Outcome.value (ObjectHolder.Number 3) ∧
    (∃ what, (Execute 1 (Statement.VariableValue (VariableValue.ofDotted ["y"])) pathClosure
        pathWorld).outcome = Outcome.runtime_error what) ∧
    (∃ what, (Execute 1 (Statement.VariableValue (VariableValue.ofDotted ["n", "a"]))
        pathClosure pathWorld).outcome = Outcome.runtime_error what) ∧
    (∃ what, (Execute 1 (Statement.VariableValue (VariableValue.ofDotted ["x", "a", "c"]))
        pathClosure pathWorld).outcome = Outcome.runtime_error what) ∧
    (∃ what, (Execute 1 (Statement.VariableValue (VariableValue.ofDotted ["x", "b", "b"]))
        pathClosure pathWorld).outcome = Outcome.runtime_error what) :=
  ⟨(C21_variable_value 0 "x" ["a", "b"] pathClosure pathWorld (by decide)).2.2.2.1
      (ObjectHolder.Instance 0) (ObjectHolder.Number 7) rfl rfl,
   (C21_variable_value 0 "n" [] pathClosure pathWorld (by decide)).2.2.2.1
      (ObjectHolder.Number 3) (ObjectHolder.Number 3) rfl rfl,
   (C21_variable_value 0 "y" [] pathClosure pathWorld (by decide)).2.2.1 rfl,
   (C21_variable_value 0 "n" ["a"] pathClosure pathWorld (by decide)).2.2.2.2.1
      (ObjectHolder.Number 3) rfl rfl,
   (C21_variable_value 0 "x" ["a", "c"] pathClosure pathWorld (by decide)).2.2.2.2.1
      (ObjectHolder.Instance 0) rfl rfl,
   (C21_variable_value 0 "x" ["b", "b"] pathClosure pathWorld (by decide)).2.2.2.2.1
      (ObjectHolder.Instance 0) rfl rfl⟩

/-! ## C22: `Print` -/

theorem ArgumentsYield_length (fuel : Nat) (data : List Statement)
    (closure closure1 : Closure Statement) (heap heap1 : Nat → ClassInstance Statement)
    (texts : List (List Char)) (h : ArgumentsYield fuel data closure heap texts closure1 heap1) :
    texts.length = data.length := by
  induction h with
  | nil => rfl
  | cons _ _ _ _ _ _ _ _ _ _ _ _ _ _ _ ih => simp [ih]

theorem intercalate_cons (sep text : List Char) (texts : List (List Char)) :
    List.intercalate sep (text :: texts) =
      text ++ (if texts.isEmpty then [] else sep) ++ List.intercalate sep texts := by
  cases texts with
  | nil => simp [List.intercalate]
  | cons t ts => simp [List.intercalate]

theorem execPrint_of_yield (fuel : Nat) (data : List Statement)
    (closure closure1 : Closure Statement) (heap heap1 : Nat → ClassInstance Statement)
    (texts : List (List Char)) (h : ArgumentsYield fuel data closure heap texts closure1 heap1)
    (output : List Char) :
    execPrint (Execute fuel) fuel data closure ⟨heap, output⟩ =
      ⟨Outcome.value ObjectHolder.None, closure1,
        ⟨heap1, output ++ List.intercalate [' '] texts ++ [chNL]⟩⟩ := by
  induction h generalizing output with
  | nil closure heap => simp [execPrint, World.write, List.intercalate]
  | cons arg data closure closure1 closure2 heap heap1 heap2 heap3 obj_holder text texts
      he hp hrest ih =>
    have hlen := ArgumentsYield_length _ _ _ _ _ _ _ hrest
    have hempty : data.isEmpty = texts.isEmpty := by
      cases data <;> cases texts <;> simp at hlen <;> rfl
    simp only [execPrint, he output, hp output, World.write]
    rw [ih, intercalate_cons, hempty]
    simp [List.append_assoc]

/-- C22. Let the arguments of a `Print` evaluate from left to right, write
nothing themselves, and have the textual forms `texts`. Then `Print::Execute`
yields the empty handle, leaves the closure and the instances that the
arguments left, and appends to the output the texts with one space between
consecutive texts, and one line feed at the end; for no arguments it appends
the line feed alone. The textual form of the empty handle is `None`, of a
`Bool` is `True` or `False`, and of a `Class` is `Class ` followed by its
name. -/
theorem C22_print (fuel : Nat) (data : List Statement)
    (closure closure1 : Closure Statement) (context : World Statement)
    (heap1 : Nat → ClassInstance Statement) (texts : List (List Char))
    (h : ArgumentsYield fuel data closure context.heap texts closure1 heap1) :
    Execute (fuel + 1) (Statement.Print data) closure context =
      ⟨Outcome.value ObjectHolder.None, closure1,
        ⟨heap1, context.output ++ List.intercalate [' '] texts ++ [chNL]⟩⟩ ∧
    Execute (fuel + 1) (Statement.Print []) closure context =
      ⟨Outcome.value ObjectHolder.None, closure, ⟨context.heap, context.output ++ [chNL]⟩⟩ ∧
    (∀ w : World Statement,
      printValue (Execute fuel) fuel ObjectHolder.None w = (Step.done "None".toList, w)) ∧
    (∀ (w : World Statement),
      printValue (Execute fuel) (fuel + 1) (ObjectHolder.Bool true) w =
        (Step.done "True".toList, w) ∧
      printValue (Execute fuel) (fuel + 1) (ObjectHolder.Bool false) w =
        (Step.done "False".toList, w)) ∧
    (∀ (cls : Class Statement) (w : World Statement),
      printValue (Execute fuel) (fuel + 1) (ObjectHolder.Class cls) w =
        (Step.done ("Class " ++ cls.GetName).toList, w)) := by
  refine ⟨?_, rfl, fun _ => rfl, fun _ => ⟨rfl, rfl⟩, fun _ _ => rfl⟩
  rw [Execute_Print]
  exact execPrint_of_yield fuel data closure closure1 context.heap heap1 texts h
    context.output

/-- C22 at `print None, True, False, A`, where `A` is the class `Flip`, from an
output that holds `>`, and at a `print` without arguments. -/
theorem C22_print_witness :
    Execute 2 (Statement.Print
        [Statement.Const ObjectHolder.None, Statement.Const (ObjectHolder.Bool true),
         Statement.Const (ObjectHolder.Bool false),
         Statement.Const (ObjectHolder.Class flipClass)]) [] ⟨emptyWorld.heap, ['>']⟩ =
      ⟨Outcome.value ObjectHolder.None, [],
        ⟨emptyWorld.heap, ">None True False Class Flip\n".toList⟩⟩ ∧
    Execute 2 (Statement.Print []) [] emptyWorld =
      ⟨Outcome.value ObjectHolder.None, [], ⟨emptyWorld.heap, "\n".toList⟩⟩ :=
  ⟨(C22_print 1
      [Statement.Const ObjectHolder.None, Statement.Const (ObjectHolder.Bool true),
       Statement.Const (ObjectHolder.Bool false),
       Statement.Const (ObjectHolder.Class flipClass)]
      [] [] ⟨emptyWorld.heap, ['>']⟩ emptyWorld.heap
      ["None".toList, "True".toList, "False".toList, "Class Flip".toList]
      (ArgumentsYield.cons 1 (Statement.Const ObjectHolder.None)
        [Statement.Const (ObjectHolder.Bool true), Statement.Const (ObjectHolder.Bool false),
         Statement.Const (ObjectHolder.Class flipClass)]
        [] [] [] emptyWorld.heap emptyWorld.heap emptyWorld.heap emptyWorld.heap
        ObjectHolder.None "None".toList ["True".toList, "False".toList, "Class Flip".toList]
        (fun _ => rfl) (fun _ => rfl)
        (ArgumentsYield.cons 1 (Statement.Const (ObjectHolder.Bool true))
          [Statement.Const (ObjectHolder.Bool false),
           Statement.Const (ObjectHolder.Class flipClass)]
          [] [] [] emptyWorld.heap emptyWorld.heap emptyWorld.heap emptyWorld.heap
          (ObjectHolder.Bool true) "True".toList ["False".toList, "Class Flip".toList]
          (fun _ => rfl) (fun _ => rfl)
          (ArgumentsYield.cons 1 (Statement.Const (ObjectHolder.Bool false))
            [Statement.Const (ObjectHolder.Class flipClass)]
            [] [] [] emptyWorld.heap emptyWorld.heap emptyWorld.heap emptyWorld.heap
            (ObjectHolder.Bool false) "False".toList ["Class Flip".toList]
            (fun _ => rfl) (fun _ => rfl)
            (ArgumentsYield.cons 1 (Statement.Const (ObjectHolder.Class flipClass)) []
              [] [] [] emptyWorld.heap emptyWorld.heap emptyWorld.heap emptyWorld.heap
              (ObjectHolder.Class flipClass) "Class Flip".toList []
              (fun _ => rfl) (fun _ => rfl)
              (ArgumentsYield.nil 1 [] emptyWorld.heap)))))).1,
   (C22_print 1 [] [] [] emptyWorld emptyWorld.heap [] (ArgumentsYield.nil 1 [] _)).2.1⟩

/-! ## C23: `MethodBody` over a statement that ends normally -/

/-- When the inner statement ends normally with the value `v`, `MethodBody`
yields `v`: the `return` of the `try` block hands the value on. -/
theorem MethodBody_of_value (fuel : Nat) (arg_ : Statement)
    (closure closure1 : Closure Statement) (context context1 : World Statement)
    (v : ObjectHolder Statement)
    (h : Execute fuel arg_ closure context = ⟨Outcome.value v, closure1, context1⟩) :
    Execute (fuel + 1) (Statement.MethodBody arg_) closure context =
      ⟨Outcome.value v, closure1, context1⟩ := by
  rw [Execute_MethodBody, h]

/-- C23, evaluated at three bodies that end normally without a `Return`: the
assignment `x = 5`, the expression `7`, and `if True: x = 5`. `MethodBody`
yields 5, 7 and 5, the value of the inner statement, not the empty handle. Over
the `Compound` of the assignment it yields the empty handle, because `Compound`
does. -/
theorem C23_method_body_yields_inner_value :
    Execute 3 (Statement.MethodBody
        (Statement.Assignment "x" (Statement.Const (ObjectHolder.Number 5)))) [] emptyWorld =
      ⟨Outcome.value (ObjectHolder.Number 5), [("x", ObjectHolder.Number 5)], emptyWorld⟩ ∧
    Execute 2 (Statement.MethodBody (Statement.Const (ObjectHolder.Number 7))) [] emptyWorld =
      ⟨Outcome.value (ObjectHolder.Number 7), [], emptyWorld⟩ ∧
    Execute 4 (Statement.MethodBody
        (Statement.IfElse (Statement.Const (ObjectHolder.Bool true))
          (Statement.Assignment "x" (Statement.Const (ObjectHolder.Number 5))) none)) []
        emptyWorld =
      ⟨Outcome.value (ObjectHolder.Number 5), [("x", ObjectHolder.Number 5)], emptyWorld⟩ ∧
    Execute 4 (Statement.MethodBody
        (Statement.Compound
          [Statement.Assignment "x" (Statement.Const (ObjectHolder.Number 5))])) []
        emptyWorld =
      ⟨Outcome.value ObjectHolder.None, [("x", ObjectHolder.Number 5)], emptyWorld⟩ :=
  ⟨rfl, rfl, rfl, rfl⟩

/-! ## C24: a `Return` whose expression gives the empty handle -/

/-- C24. Let the expression of a `Return` evaluate to the empty handle. Then
the `Return` ends normally with the empty handle, in the closure and the state
that the expression left. In a `Compound` whose statements before the `Return`
end normally, the statements after the `Return` are executed from the closure
and the state that the `Return` left, and the `Compound` ends as they end. When
they end normally, the `Compound` and the `MethodBody` over it yield the empty
handle and leave the closure and the state that the statements after the
`Return` left. -/
theorem C24_return_none_falls_through (fuel : Nat) (statement_ : Statement)
    (before after : List Statement) (closure closure0 closure1 : Closure Statement)
    (context context0 context1 : World Statement) (x : ObjectHolder Statement)
    (hb : execCompound (Execute (fuel + 1)) before closure context =
      ⟨Outcome.value x, closure0, context0⟩)
    (he : Execute fuel statement_ closure0 context0 =
      ⟨Outcome.value ObjectHolder.None, closure1, context1⟩) :
    Execute (fuel + 1) (Statement.Return statement_) closure0 context0 =
      ⟨Outcome.value ObjectHolder.None, closure1, context1⟩ ∧
    Execute (fuel + 2) (Statement.Compound (before ++ Statement.Return statement_ :: after))
        closure context =
      execCompound (Execute (fuel + 1)) after closure1 context1 ∧
    (∀ y closure2 context2,
      execCompound (Execute (fuel + 1)) after closure1 context1 =
        ⟨Outcome.value y, closure2, context2⟩ →
      Execute (fuel + 2) (Statement.Compound (before ++ Statement.Return statement_ :: after))
          closure context =
        ⟨Outcome.value ObjectHolder.None, closure2, context2⟩ ∧
      Execute (fuel + 3)
          (Statement.MethodBody
            (Statement.Compound (before ++ Statement.Return statement_ :: after)))
          closure context =
        ⟨Outcome.value ObjectHolder.None, closure2, context2⟩) := by
  have hr : Execute (fuel + 1) (Statement.Return statement_) closure0 context0 =
      ⟨Outcome.value ObjectHolder.None, closure1, context1⟩ := by
    rw [Execute_Return, he]
    rfl
  have hc : Execute (fuel + 2)
      (Statement.Compound (before ++ Statement.Return statement_ :: after)) closure context =
      execCompound (Execute (fuel + 1)) after closure1 context1 := by
    rw [Execute_Compound, execCompound_append _ _ _ _ _ _ _ _ hb]
    simp only [execCompound, hr]
  refine ⟨hr, hc, ?_⟩
  intro y closure2 context2 ha
  have hnone : ∀ (l : List Statement) (cl cl2 : Closure Statement) (w w2 : World Statement)
      (z : ObjectHolder Statement),
      execCompound (Execute (fuel + 1)) l cl w = ⟨Outcome.value z, cl2, w2⟩ →
      z = ObjectHolder.None := by
    intro l
    induction l with
    | nil =>
      intro cl cl2 w w2 z h
      simp only [execCompound] at h
      injection h with h1
      injection h1 with h1
      exact h1.symm
    | cons s l ih =>
      intro cl cl2 w w2 z h
      simp only [execCompound] at h
      rcases hs : Execute (fuel + 1) s cl w with ⟨o, cl3, w3⟩
      rw [hs] at h
      cases o with
      | value v => exact ih cl3 cl2 w3 w2 z h
      | runtime_error e =>
        injection h with h1
        cases h1
      | thrown e =>
        injection h with h1
        cases h1
      | undefined =>
        injection h with h1
        cases h1
      | fuel =>
        injection h with h1
        cases h1
  have hy := hnone after closure1 closure2 context1 context2 y ha
  subst hy
  have hc2 : Execute (fuel + 2)
      (Statement.Compound (before ++ Statement.Return statement_ :: after)) closure context =
      ⟨Outcome.value ObjectHolder.None, closure2, context2⟩ := by
    rw [hc, ha]
  refine ⟨hc2, ?_⟩
  rw [Execute_MethodBody, hc2]

/-- C24 at the body `return None`, then `x = 1`, then `print x`: the method
yields the empty handle, `x` is assigned and the line `1` is written. -/
theorem C24_return_none_falls_through_witness :
    Execute 4 (Statement.MethodBody
        (Statement.Compound
          [Statement.Return (Statement.Const ObjectHolder.None),
           Statement.Assignment "x" (Statement.Const (ObjectHolder.Bool true)),
           Statement.Print [Statement.VariableValue (VariableValue.ofName "x")]])) []
        emptyWorld =
      ⟨Outcome.value ObjectHolder.None, [("x", ObjectHolder.Bool true)],
        ⟨emptyWorld.heap, "True\n".toList⟩⟩ :=
  ((C24_return_none_falls_through 1 (Statement.Const ObjectHolder.None) []
      [Statement.Assignment "x" (Statement.Const (ObjectHolder.Bool true)),
       Statement.Print [Statement.VariableValue (VariableValue.ofName "x")]]
      [] [] [] emptyWorld emptyWorld emptyWorld ObjectHolder.None rfl rfl).2.2
    ObjectHolder.None [("x", ObjectHolder.Bool true)] ⟨emptyWorld.heap, "True\n".toList⟩
    rfl).2

/-! ## C25: an escaped quote in a string literal -/

theorem new_escaped_quote :
    Lexer.new "x = \x27a\\\x27b\x27\ny".toList =
      Except.ok ⟨⟨[], true⟩,
        ⟨[Token.Id "x".toList, Token.Char '=', Token.String "a\x27b".toList,
          Token.Id "\ny".toList, Token.String [], Token.Newline], 0, 0,
          Token.Id "x".toList⟩⟩ := by
  decide

theorem new_other_quote :
    Lexer.new "x = \"it\x27s\"\ny".toList =
      Except.ok ⟨⟨"y".toList, false⟩,
        ⟨[Token.Id "x".toList, Token.Char '=', Token.String "it\x27s".toList,
          Token.Newline], 0, 0, Token.Id "x".toList⟩⟩ := by
  decide

theorem new_no_string :
    Lexer.new "x = 1\ny".toList =
      Except.ok ⟨⟨"y".toList, false⟩,
        ⟨[Token.Id "x".toList, Token.Char '=', Token.Number 1, Token.Newline], 0, 0,
          Token.Id "x".toList⟩⟩ := by
  decide

theorem emitted_escaped_quote :
    emitted 6 "x = \x27a\\\x27b\x27\ny".toList =
      Except.ok [Token.Id "x".toList, Token.Char '=', Token.String "a\x27b".toList,
        Token.Id "\ny".toList, Token.String [], Token.Newline, Token.Eof] := by
  unfold emitted
  rw [new_escaped_quote]
  dsimp only
  have h1 : nextTokens 3 ⟨⟨[], true⟩,
        ⟨[Token.Id "x".toList, Token.Char '=', Token.String "a\x27b".toList,
          Token.Id "\ny".toList, Token.String [], Token.Newline], 0, 0,
          Token.Id "x".toList⟩⟩ =
      Except.ok ([Token.Char '=', Token.String "a\x27b".toList, Token.Id "\ny".toList],
        ⟨⟨[], true⟩,
        ⟨[Token.Id "x".toList, Token.Char '=', Token.String "a\x27b".toList,
          Token.Id "\ny".toList, Token.String [], Token.Newline], 3, 0,
          Token.Id "\ny".toList⟩⟩) := by decide
  have h2 : nextTokens 3 ⟨⟨[], true⟩,
        ⟨[Token.Id "x".toList, Token.Char '=', Token.String "a\x27b".toList,
          Token.Id "\ny".toList, Token.String [], Token.Newline], 3, 0,
          Token.Id "\ny".toList⟩⟩ =
      Except.ok ([Token.String [], Token.Newline, Token.Eof],
        ⟨⟨[], true⟩, ⟨[Token.Eof], 0, 0, Token.Eof⟩⟩) := by decide
  rw [nextTokens_add 3 3 _ _ _ _ _ h1 h2]
  rfl

theorem emitted_other_quote :
    emitted 6 "x = \"it\x27s\"\ny".toList =
      Except.ok [Token.Id "x".toList, Token.Char '=', Token.String "it\x27s".toList,
        Token.Newline, Token.Id "y".toList, Token.Newline, Token.Eof] := by
  unfold emitted
  rw [new_other_quote]
  dsimp only
  have h1 : nextTokens 3 ⟨⟨"y".toList, false⟩,
        ⟨[Token.Id "x".toList, Token.Char '=', Token.String "it\x27s".toList,
          Token.Newline], 0, 0, Token.Id "x".toList⟩⟩ =
      Except.ok ([Token.Char '=', Token.String "it\x27s".toList, Token.Newline],
        ⟨⟨"y".toList, false⟩,
        ⟨[Token.Id "x".toList, Token.Char '=', Token.String "it\x27s".toList,
          Token.Newline], 3, 0, Token.Newline⟩⟩) := by decide
  have h2 : nextTokens 3 ⟨⟨"y".toList, false⟩,
        ⟨[Token.Id "x".toList, Token.Char '=', Token.String "it\x27s".toList,
          Token.Newline], 3, 0, Token.Newline⟩⟩ =
      Except.ok ([Token.Id "y".toList, Token.Newline, Token.Eof],
        ⟨⟨[], true⟩, ⟨[Token.Eof], 0, 0, Token.Eof⟩⟩) := by decide
  rw [nextTokens_add 3 3 _ _ _ _ _ h1 h2]
  rfl

theorem emitted_no_string :
    emitted 6 "x = 1\ny".toList =
      Except.ok [Token.Id "x".toList, Token.Char '=', Token.Number 1,
        Token.Newline, Token.Id "y".toList, Token.Newline, Token.Eof] := by
  unfold emitted
  rw [new_no_string]
  dsimp only
  have h1 : nextTokens 3 ⟨⟨"y".toList, false⟩,
        ⟨[Token.Id "x".toList, Token.Char '=', Token.Number 1, Token.Newline], 0, 0,
          Token.Id "x".toList⟩⟩ =
      Except.ok ([Token.Char '=', Token.Number 1, Token.Newline],
        ⟨⟨"y".toList, false⟩,
        ⟨[Token.Id "x".toList, Token.Char '=', Token.Number 1, Token.Newline], 3, 0,
          Token.Newline⟩⟩) := by decide
  have h2 : nextTokens 3 ⟨⟨"y".toList, false⟩,
        ⟨[Token.Id "x".toList, Token.Char '=', Token.Number 1, Token.Newline], 3, 0,
          Token.Newline⟩⟩ =
      Except.ok ([Token.Id "y".toList, Token.Newline, Token.Eof],
        ⟨⟨[], true⟩, ⟨[Token.Eof], 0, 0, Token.Eof⟩⟩) := by decide
  rw [nextTokens_add 3 3 _ _ _ _ _ h1 h2]
  rfl

/-- C25, evaluated at the text `x = 'a\'b'` / `y`, where the string literal
holds its own quote in escaped form. `GetLine` toggles its flag on the escaped
quote too, takes the literal as open at the end of the line and reads on across
the line feed: the logical line is the whole text with a closing quote added.
The literal yields the one token `String a'b`, but the line does not end
there: the emitted tokens go on with `Id` of line feed and `y`, an empty
`String`, and the only `Newline`. After a line without a string literal
(`x = 1` / `y`), and after the literal `"it's"` with the other quote
unescaped, the line `y` gives `Id y`, `Newline` on a line of its own. -/
theorem C25_escaped_quote_joins_lines :
    GetLine ⟨"x = \x27a\\\x27b\x27\ny".toList, false⟩ =
      ("x = \x27a\\\x27b\x27\ny\x27".toList, ⟨[], true⟩) ∧
    emitted 6 "x = \x27a\\\x27b\x27\ny".toList =
      Except.ok [Token.Id "x".toList, Token.Char '=', Token.String "a\x27b".toList,
        Token.Id "\ny".toList, Token.String [], Token.Newline, Token.Eof] ∧
    emitted 6 "x = 1\ny".toList =
      Except.ok [Token.Id "x".toList, Token.Char '=', Token.Number 1,
        Token.Newline, Token.Id "y".toList, Token.Newline, Token.Eof] ∧
    emitted 6 "x = \"it\x27s\"\ny".toList =
      Except.ok [Token.Id "x".toList, Token.Char '=', Token.String "it\x27s".toList,
        Token.Newline, Token.Id "y".toList, Token.Newline, Token.Eof] :=
  ⟨by decide, emitted_escaped_quote, emitted_no_string, emitted_other_quote⟩

/-! ## C26: the closure of a method call -/

theorem Closure.find_assign_ne {β : Type} (c : Closure β) (key k : String)
    (value : ObjectHolder β) (h : k ≠ key) :
    Closure.find (Closure.assign c key value) k = Closure.find c k := by
  induction c with
  | nil =>
    have hk : (key == k) = false := by simpa using fun e => h e.symm
    simp [Closure.assign, Closure.find, hk]
  | cons p ps ih =>
    obtain ⟨k1, v1⟩ := p
    by_cases hk : (k1 == key) = true
    · have hkk : k1 = key := by simpa using hk
      have hk2 : (k1 == k) = false := by
        rw [hkk]
        simpa using fun e => h e.symm
      simp [Closure.assign, Closure.find, hk, hk2]
    · simp [Closure.assign, Closure.find, hk, ih]

theorem find_bindArguments_of_not_mem {β : Type} (params : List String)
    (args : List (ObjectHolder β)) (acc : Closure β) (name : String)
    (h : name ∉ params) :
    Closure.find (bindArguments params args acc) name = Closure.find acc name := by
  induction params generalizing args acc with
  | nil => rfl
  | cons p ps ih =>
    cases args with
    | nil => rfl
    | cons a as =>
      simp only [bindArguments]
      rw [ih as _ (fun hm => h (List.mem_cons_of_mem _ hm)),
        Closure.find_assign_ne _ _ _ _ (fun e => h (by rw [e]; exact List.mem_cons_self _ _))]

theorem find_bindArguments_get {β : Type} (params : List String)
    (args : List (ObjectHolder β)) (acc : Closure β) (hnd : params.Nodup)
    (i : Nat) (hi : i < params.length) (hi2 : i < args.length) :
    Closure.find (bindArguments params args acc) (params.get ⟨i, hi⟩) =
      some (args.get ⟨i, hi2⟩) := by
  induction params generalizing args acc i with
  | nil => cases hi
  | cons p ps ih =>
    cases args with
    | nil => cases hi2
    | cons a as =>
      simp only [bindArguments]
      rw [List.nodup_cons] at hnd
      cases i with
      | zero =>
        show Closure.find (bindArguments ps as (Closure.assign acc p a)) p = some a
        rw [find_bindArguments_of_not_mem ps as _ p hnd.1, Closure.find_assign_self]
      | succ i =>
        exact ih as _ hnd.2 i (Nat.lt_of_succ_lt_succ hi) (Nat.lt_of_succ_lt_succ hi2)

theorem find_bindArguments_mem {β : Type} (params : List String)
    (args : List (ObjectHolder β)) (acc : Closure β) (name : String)
    (hlen : params.length = args.length) (hm : name ∈ params) :
    Closure.find (bindArguments params args acc) name ≠ none := by
  induction params generalizing args acc with
  | nil => cases hm
  | cons p ps ih =>
    cases args with
    | nil => cases hlen
    | cons a as =>
      simp only [bindArguments]
      by_cases hps : name ∈ ps
      · exact ih as _ (by simpa using hlen) hps
      · have hname : name = p := by
          rcases List.mem_cons.mp hm with h | h
          · exact h
          · exact absurd h hps
        subst hname
        rw [find_bindArguments_of_not_mem ps as _ name hps, Closure.find_assign_self]
        simp

/-- C26, amended. Let `Call` run the method `m` with as many arguments as
formal parameters, where the formal parameters are pairwise distinct and none
is `self`. The body is executed in the closure `closure0` made from the
parameters and the arguments alone and in the state `context0`: in `closure0`
each formal parameter is bound to the argument at its position, `self` is
bound to the called instance, and no other name is bound; `context0` differs
from the state at the call only in the field `self` of the called instance,
which refers to the instance. The result of `Call` is the result of the body.
A `MethodCall` whose object and arguments are evaluated leaves the closure
that their evaluation left, whatever the body does with its own closure. -/
theorem C26_call_closure (fuel : Nat) (this : Nat) (method : String)
    (args : List (ObjectHolder Statement)) (context : World Statement)
    (m : Method Statement)
    (hm : (context.heap this).class_ptr_.GetMethod method = some m)
    (hlen : m.formal_params.length = args.length)
    (hnd : m.formal_params.Nodup) (hself : "self" ∉ m.formal_params) :
    ClassInstance.Call (Execute fuel) this method args context =
      ((Execute fuel m.body
          (Closure.assign (bindArguments m.formal_params args []) "self"
            (ObjectHolder.Instance this))
          ⟨Function.update context.heap this
            ⟨(context.heap this).class_ptr_,
              Closure.assign (context.heap this).fields_ "self" (ObjectHolder.Instance this)⟩,
            context.output⟩).outcome,
        (Execute fuel m.body
          (Closure.assign (bindArguments m.formal_params args []) "self"
            (ObjectHolder.Instance this))
          ⟨Function.update context.heap this
            ⟨(context.heap this).class_ptr_,
              Closure.assign (context.heap this).fields_ "self" (ObjectHolder.Instance this)⟩,
            context.output⟩).world) ∧
    (∀ (i : Nat) (hi : i < m.formal_params.length) (hi2 : i < args.length),
      Closure.find
          (Closure.assign (bindArguments m.formal_params args []) "self"
            (ObjectHolder.Instance this))
          (m.formal_params.get ⟨i, hi⟩) = some (args.get ⟨i, hi2⟩)) ∧
    Closure.find
        (Closure.assign (bindArguments m.formal_params args []) "self"
          (ObjectHolder.Instance this)) "self" = some (ObjectHolder.Instance this) ∧
    (∀ name : String,
      Closure.find
          (Closure.assign (bindArguments m.formal_params args []) "self"
            (ObjectHolder.Instance this)) name ≠ none ↔
        (name ∈ m.formal_params ∨ name = "self")) ∧
    Closure.find
        ((Function.update context.heap this
          ⟨(context.heap this).class_ptr_,
            Closure.assign (context.heap this).fields_ "self" (ObjectHolder.Instance this)⟩)
          this).fields_ "self" = some (ObjectHolder.Instance this) ∧
    (∀ name : String, name ≠ "self" →
      Closure.find
          ((Function.update context.heap this
            ⟨(context.heap this).class_ptr_,
              Closure.assign (context.heap this).fields_ "self" (ObjectHolder.Instance this)⟩)
            this).fields_ name = Closure.find (context.heap this).fields_ name) ∧
    (∀ address : Nat, address ≠ this →
      (Function.update context.heap this
          ⟨(context.heap this).class_ptr_,
            Closure.assign (context.heap this).fields_ "self" (ObjectHolder.Instance this)⟩)
          address = context.heap address) ∧
    (∀ (object_ : Statement) (argv_ : List Statement)
      (closure closure1 closure2 : Closure Statement) (context0 context1 : World Statement),
      Execute fuel object_ closure context0 =
        ⟨Outcome.value (ObjectHolder.Instance this), closure1, context1⟩ →
      (context1.heap this).HasMethod method argv_.length = true →
      execArgs (Execute fuel) argv_ closure1 context1 = (Step.done args, closure2, context) →
      (Execute (fuel + 1) (Statement.MethodCall object_ method argv_) closure
          context0).closure = closure2 ∧
      (Execute (fuel + 1) (Statement.MethodCall object_ method argv_) closure
          context0).outcome = (ClassInstance.Call (Execute fuel) this method args context).1 ∧
      (Execute (fuel + 1) (Statement.MethodCall object_ method argv_) closure
          context0).world = (ClassInstance.Call (Execute fuel) this method args context).2) := by
  have hh : (context.heap this).HasMethod method args.length = true :=
    (HasMethod_iff _ _ _).mpr ⟨m, hm, hlen⟩
  refine ⟨?_, ?_, ?_, ?_, ?_, ?_, ?_, ?_⟩
  · unfold ClassInstance.Call
    rw [if_pos hh, hm]
    simp only [Function.update_same, Closure.find_assign_self, Option.getD_some]
  · intro i hi hi2
    rw [Closure.find_assign_ne _ _ _ _
      (fun e => hself (by rw [← e]; exact List.get_mem _ _ _))]
    exact find_bindArguments_get _ _ _ hnd i hi hi2
  · exact Closure.find_assign_self _ _ _
  · intro name
    by_cases hs : name = "self"
    · subst hs
      simp [Closure.find_assign_self]
    · rw [Closure.find_assign_ne _ _ _ _ hs]
      constructor
      · intro hf
        left
        by_contra hn
        rw [find_bindArguments_of_not_mem _ _ _ _ hn] at hf
        exact hf rfl
      · rintro (hmem | he)
        · exact find_bindArguments_mem _ _ _ _ hlen hmem
        · exact absurd he hs
  · rw [Function.update_same]
    exact Closure.find_assign_self _ _ _
  · intro name hn
    rw [Function.update_same]
    exact Closure.find_assign_ne _ _ _ _ hn
  · intro address ha
    exact Function.update_noteq ha _ _
  · intro object_ argv_ closure closure1 closure2 context0 context1 ho hhas ha
    have e : Execute (fuel + 1) (Statement.MethodCall object_ method argv_) closure context0 =
        ⟨(ClassInstance.Call (Execute fuel) this method args context).1, closure2,
          (ClassInstance.Call (Execute fuel) this method args context).2⟩ := by
      rw [Execute_MethodCall, ho]
      simp only [asInstance, hhas, Bool.not_true, Bool.false_eq_true, if_false, ha]
    rw [e]
    exact ⟨rfl, rfl, rfl⟩

/-- C26 at the call `obj.set(2)` from a closure that holds `x = 1`, where the
body of `set(v)` is `x = v`: in the closure of the body `v` is 2 and `x` is not
bound; the call ends normally, and after it the closure of the caller still
holds `x = 1`. -/
theorem C26_call_closure_witness :
    Closure.find
        (Closure.assign (bindArguments ["v"] [(ObjectHolder.Number 2 : ObjectHolder Statement)]
          []) "self" (ObjectHolder.Instance 0)) "v" = some (ObjectHolder.Number 2) ∧
    Closure.find
        (Closure.assign (bindArguments ["v"] [(ObjectHolder.Number 2 : ObjectHolder Statement)]
          []) "self" (ObjectHolder.Instance 0)) "x" = none ∧
    (Execute 5 (Statement.MethodCall (Statement.VariableValue (VariableValue.ofName "obj"))
        "set" [Statement.Const (ObjectHolder.Number 2)])
        [("obj", ObjectHolder.Instance 0), ("x", ObjectHolder.Number 1)] setterWorld).closure =
      [("obj", ObjectHolder.Instance 0), ("x", ObjectHolder.Number 1)] ∧
    (Execute 5 (Statement.MethodCall (Statement.VariableValue (VariableValue.ofName "obj"))
        "set" [Statement.Const (ObjectHolder.Number 2)])
        [("obj", ObjectHolder.Instance 0), ("x", ObjectHolder.Number 1)] setterWorld).outcome =
      Outcome.value ObjectHolder.None :=
  ⟨(C26_call_closure 4 0 "set" [ObjectHolder.Number 2] setterWorld
      ⟨"set", ["v"],
        Statement.MethodBody (Statement.Compound
          [Statement.Assignment "x" (Statement.VariableValue (VariableValue.ofName "v"))])⟩
      rfl rfl (by decide) (by decide)).2.1 0 (by decide) (by decide),
   Classical.not_not.mp (fun h => absurd
    (((C26_call_closure 4 0 "set" [ObjectHolder.Number 2] setterWorld
      ⟨"set", ["v"],
        Statement.MethodBody (Statement.Compound
          [Statement.Assignment "x" (Statement.VariableValue (VariableValue.ofName "v"))])⟩
      rfl rfl (by decide) (by decide)).2.2.2.1 "x").mp h) (by decide)),
   ((C26_call_closure 4 0 "set" [ObjectHolder.Number 2] setterWorld
      ⟨"set", ["v"],
        Statement.MethodBody (Statement.Compound
          [Statement.Assignment "x" (Statement.VariableValue (VariableValue.ofName "v"))])⟩
      rfl rfl (by decide) (by decide)).2.2.2.2.2.2.2
      (Statement.VariableValue (VariableValue.ofName "obj"))
      [Statement.Const (ObjectHolder.Number 2)]
      [("obj", ObjectHolder.Instance 0), ("x", ObjectHolder.Number 1)]
      [("obj", ObjectHolder.Instance 0), ("x", ObjectHolder.Number 1)]
      [("obj", ObjectHolder.Instance 0), ("x", ObjectHolder.Number 1)]
      setterWorld setterWorld rfl rfl rfl).1,
   (((C26_call_closure 4 0 "set" [ObjectHolder.Number 2] setterWorld
      ⟨"set", ["v"],
        Statement.MethodBody (Statement.Compound
          [Statement.Assignment "x" (Statement.VariableValue (VariableValue.ofName "v"))])⟩
      rfl rfl (by decide) (by decide)).2.2.2.2.2.2.2
      (Statement.VariableValue (VariableValue.ofName "obj"))
      [Statement.Const (ObjectHolder.Number 2)]
      [("obj", ObjectHolder.Instance 0), ("x", ObjectHolder.Number 1)]
      [("obj", ObjectHolder.Instance 0), ("x", ObjectHolder.Number 1)]
      [("obj", ObjectHolder.Instance 0), ("x", ObjectHolder.Number 1)]
      setterWorld setterWorld rfl rfl rfl).2.1).trans rfl⟩

/-- C26, counterexample. The method `clobber()` has no parameters and the body
`self.self = 5`. After the call the field `self` of the called instance is the
number 5 and does not refer to the instance. -/
theorem C26_counterexample_body_overwrites_self :
    (ClassInstance.Call (Execute 3) 0 "clobber" [] setterWorld).1 =
      Outcome.value (ObjectHolder.Number 5) ∧
    Closure.find
        ((ClassInstance.Call (Execute 3) 0 "clobber" [] setterWorld).2.heap 0).fields_ "self" =
      some (ObjectHolder.Number 5) :=
  ⟨rfl, rfl⟩

end Mython
